import Mathlib

/-!
# `remote.mount.buckets` (weed/shell/command_remote_mount_buckets.go)

A shallow embedding of `commandRemoteMountBuckets.Do` and of the library
functions it relies on (`flag.FlagSet.Parse`, `path/filepath.Match`,
`fmt.Errorf`), followed by theorems about the command.

Go strings are byte sequences; they are modelled as lists of byte values.
-/

namespace RemoteMountBuckets

/-- A Go `string`: a sequence of bytes (each value below 256). -/
abbrev GoString := List Nat

/-- The bytes of an ASCII string literal of the source. -/
def ascii (s : String) : GoString := s.data.map Char.toNat

/-! ## `unicode/utf8` -/

/-- The constant `utf8.RuneError` (U+FFFD). -/
def RuneError : Nat := 65533

/-- The second byte of a multi-byte sequence is acceptable: `acceptRanges`
indexed by the lead byte `s0` (the table `first` of the Go source). -/
def acceptSecond (s0 s1 : Nat) : Bool :=
  if s0 = 224 then decide (160 ≤ s1 ∧ s1 ≤ 191)
  else if s0 = 237 then decide (128 ≤ s1 ∧ s1 ≤ 159)
  else if s0 = 240 then decide (144 ≤ s1 ∧ s1 ≤ 191)
  else if s0 = 244 then decide (128 ≤ s1 ∧ s1 ≤ 143)
  else decide (128 ≤ s1 ∧ s1 ≤ 191)

/-- A continuation byte (`locb ≤ b ≤ hicb`). -/
def isCont (b : Nat) : Bool := decide (128 ≤ b ∧ b ≤ 191)

/-- The rune of a two-byte sequence: `rune(s0&mask2)<<6 | rune(s1&maskx)`. -/
def rune2 (s0 s1 : Nat) : Nat := (s0 % 32) * 64 + s1 % 64

/-- The rune of a three-byte sequence:
`rune(s0&mask3)<<12 | rune(s1&maskx)<<6 | rune(s2&maskx)`. -/
def rune3 (s0 s1 s2 : Nat) : Nat := (s0 % 16) * 4096 + (s1 % 64) * 64 + s2 % 64

/-- The rune of a four-byte sequence:
`rune(s0&mask4)<<18 | rune(s1&maskx)<<12 | rune(s2&maskx)<<6 | rune(s3&maskx)`. -/
def rune4 (s0 s1 s2 s3 : Nat) : Nat :=
  (s0 % 8) * 262144 + (s1 % 64) * 4096 + (s2 % 64) * 64 + s3 % 64

/-- The encoded length announced by a lead byte between 0xC2 and 0xF4
(`first[s0] & 7`). -/
def leadSize (s0 : Nat) : Nat := if s0 < 224 then 2 else if s0 < 240 then 3 else 4

/-- The function `utf8.DecodeRuneInString`: the first rune of `s` and its width
in bytes; `(RuneError, 0)` on the empty string and `(RuneError, 1)` on an
invalid encoding. -/
def DecodeRuneInString (s : GoString) : Nat × Nat :=
  match s with
  | [] => (RuneError, 0)
  | s0 :: t =>
    if s0 < 128 then (s0, 1)
    else if s0 < 194 ∨ 244 < s0 then (RuneError, 1)
    else if s.length < leadSize s0 then (RuneError, 1)
    else
      match t with
      | [] => (RuneError, 1)
      | s1 :: t1 =>
        if !acceptSecond s0 s1 then (RuneError, 1)
        else if leadSize s0 ≤ 2 then (rune2 s0 s1, 2)
        else
          match t1 with
          | [] => (RuneError, 1)
          | s2 :: t2 =>
            if !isCont s2 then (RuneError, 1)
            else if leadSize s0 ≤ 3 then (rune3 s0 s1 s2, 3)
            else
              match t2 with
              | [] => (RuneError, 1)
              | s3 :: _ =>
                if !isCont s3 then (RuneError, 1)
                else (rune4 s0 s1 s2 s3, 4)

/-! ## `path/filepath.Match` (non-Windows: `Separator = '/'`) -/

/-- The constant `filepath.Separator`, the byte `/`. -/
def Separator : Nat := 47

/-- The scan loop of `scanChunk`: the index `i` at which the loop stops, that
is the length of the chunk. A backslash skips the byte after it, brackets
toggle `inrange`, and a `*` outside brackets ends the chunk. -/
def scanIndex : Bool → GoString → Nat
  | _, [] => 0
  | inrange, c :: rest =>
    if c = 92 then
      match rest with
      | [] => 1
      | _ :: rest2 => 2 + scanIndex inrange rest2
    else if c = 91 then 1 + scanIndex true rest
    else if c = 93 then 1 + scanIndex false rest
    else if c = 42 then (if !inrange then 0 else 1 + scanIndex inrange rest)
    else 1 + scanIndex inrange rest

/-- The function `scanChunk`: the next segment of the pattern, a non-star
string possibly preceded by stars; returns `(star, chunk, rest)`. -/
def scanChunk (pattern : GoString) : Bool × GoString × GoString :=
  let star := pattern.head? == some 42
  let pattern := pattern.dropWhile (fun c => c == 42)
  let i := scanIndex false pattern
  (star, pattern.take i, pattern.drop i)

/-- The function `getEsc`: one possibly escaped rune of a character class;
returns `(r, nchunk, err)` where `err = true` stands for `ErrBadPattern`. -/
def getEsc (chunk : GoString) : Nat × GoString × Bool :=
  match chunk with
  | [] => (0, [], true)
  | c :: rest =>
    if c = 45 ∨ c = 93 then (0, [], true)
    else
      let chunk1 := if c = 92 then rest else chunk
      if c = 92 ∧ chunk1 = [] then (0, [], true)
      else
        let (r, n) := DecodeRuneInString chunk1
        let err := decide (r = RuneError ∧ n = 1)
        let nchunk := chunk1.drop n
        (r, nchunk, err || decide (nchunk = []))

/-- The range loop of a character class in `matchChunk`: `chunk` is what
follows `[` and an optional `^`, `r` the rune of the name under test (0 when
the match has already failed). Returns `some (match, chunk)` with the chunk
after the closing bracket, or `none` for `ErrBadPattern`. -/
def classLoop : Nat → Nat → GoString → Bool → Nat → Option (Bool × GoString)
  | 0, _, _, _, _ => none
  | fuel + 1, r, chunk, mtch, nrange =>
    if chunk.head? = some 93 ∧ 0 < nrange then some (mtch, chunk.tail)
    else
      let (lo, chunk1, err1) := getEsc chunk
      if err1 then none
      else
        if chunk1.head? = some 45 then
          let (hi, chunk2, err2) := getEsc chunk1.tail
          if err2 then none
          else classLoop fuel r chunk2 (mtch || decide (lo ≤ r ∧ r ≤ hi)) (nrange + 1)
        else classLoop fuel r chunk1 (mtch || decide (lo ≤ r ∧ r ≤ lo)) (nrange + 1)

/-- The loop of `matchChunk`, with the loop variables `chunk`, `s` and
`failed`. Returns `(rest, ok, err)`; `err = true` stands for `ErrBadPattern`.
Every iteration shortens `chunk`, so `fuel = len(chunk)` is enough. -/
def matchChunkLoop : Nat → GoString → GoString → Bool → GoString × Bool × Bool
  | 0, _, s, failed => if failed then ([], false, false) else (s, true, false)
  | fuel + 1, chunk, s, failed =>
    match chunk with
    | [] => if failed then ([], false, false) else (s, true, false)
    | c :: chunk1 =>
      let failed := failed || decide (s = [])
      if c = 91 then
        -- character class
        let r := if failed then 0 else (DecodeRuneInString s).1
        let s := if failed then s else s.drop (DecodeRuneInString s).2
        let negated := decide (chunk1.head? = some 94)
        let chunk2 := if negated then chunk1.tail else chunk1
        match classLoop (chunk2.length + 1) r chunk2 false 0 with
        | none => ([], false, true)
        | some (mtch, chunk3) =>
          matchChunkLoop fuel chunk3 s (failed || (mtch == negated))
      else if c = 63 then
        let failed2 := failed || decide (s.head? = some Separator)
        let s := if failed then s else s.drop (DecodeRuneInString s).2
        matchChunkLoop fuel chunk1 s failed2
      else if c = 92 then
        match chunk1 with
        | [] => ([], false, true)
        | c2 :: chunk2 =>
          let failed2 := failed || decide (s.head? ≠ some c2)
          let s := if failed then s else s.tail
          matchChunkLoop fuel chunk2 s failed2
      else
        let failed2 := failed || decide (s.head? ≠ some c)
        let s := if failed then s else s.tail
        matchChunkLoop fuel chunk1 s failed2

/-- The function `matchChunk`: whether `chunk` matches the beginning of `s`;
if so, the remainder of `s`. -/
def matchChunk (chunk s : GoString) : GoString × Bool × Bool :=
  matchChunkLoop chunk.length chunk s false

/-- Outcome of the inner loop of `Match` that looks for a match of the chunk
after skipping `i+1` bytes. -/
inductive StarScan where
  | found (t : GoString)
  | bad
  | notFound
  deriving DecidableEq, Repr

/-- The inner loop of `Match` for a starred chunk: try `name[i+1:]` for
`i = 0, 1, ...` while `name[i]` is not the separator. `last` is
`len(pattern) == 0` for the pattern left after the chunk. -/
def starScan (chunk : GoString) (last : Bool) : GoString → StarScan
  | [] => StarScan.notFound
  | c :: rest =>
    if c = Separator then StarScan.notFound
    else
      match matchChunk chunk rest with
      | (t, ok, err) =>
        if ok then
          if last && decide (0 < t.length) then starScan chunk last rest
          else StarScan.found t
        else if err then StarScan.bad
        else starScan chunk last rest

/-- The `Pattern:` loop of `filepath.Match`. Returns `(matched, err)`. Each
iteration consumes at least one byte of the pattern. -/
def MatchLoop : Nat → GoString → GoString → Bool × Bool
  | 0, pattern, name => (decide (pattern = [] ∧ name = []), false)
  | fuel + 1, pattern, name =>
    if pattern = [] then (decide (name = []), false)
    else
      match scanChunk pattern with
      | (star, chunk, pattern1) =>
        if star ∧ chunk = [] then
          -- trailing * matches rest of string unless it has a /
          (!(name.contains Separator), false)
        else
          match matchChunk chunk name with
          | (t, ok, err) =>
            if ok ∧ (t = [] ∨ pattern1 ≠ []) then MatchLoop fuel pattern1 t
            else if err then (false, true)
            else if star then
              match starScan chunk (decide (pattern1 = [])) name with
              | StarScan.found t2 => MatchLoop fuel pattern1 t2
              | StarScan.bad => (false, true)
              | StarScan.notFound => (false, false)
            else (false, false)

/-- The function `filepath.Match(pattern, name)`: `(matched, err)`, where
`err = true` stands for `ErrBadPattern`. The error is reported as Go 1.16 and
later report it (a chunk is read to its end even once the match has failed);
`matched` is the same in earlier versions. -/
def Match (pattern name : GoString) : Bool × Bool :=
  MatchLoop pattern.length pattern name

/-! ## `strconv.ParseBool` and `flag.FlagSet.Parse` -/

/-- The function `strconv.ParseBool`; `none` stands for a syntax error. -/
def ParseBool (str : GoString) : Option Bool :=
  if str = ascii "1" ∨ str = ascii "t" ∨ str = ascii "T" ∨ str = ascii "TRUE"
      ∨ str = ascii "true" ∨ str = ascii "True" then some true
  else if str = ascii "0" ∨ str = ascii "f" ∨ str = ascii "F" ∨ str = ascii "FALSE"
      ∨ str = ascii "false" ∨ str = ascii "False" then some false
  else none

/-- The variables bound to the flag set of `Do`: `*remote`, `*bucketPattern`
and `*apply`. -/
structure Flags where
  remote : GoString
  bucketPattern : GoString
  apply : Bool
  deriving DecidableEq, Repr

/-- The values the three flags are declared with: `""`, `""` and `false`. -/
def Flags.defaults : Flags := ⟨[], [], false⟩

/-- Outcome of `FlagSet.parseOne`: a flag was seen (`usedNext` tells whether
the value was taken from the next argument), the flags are over (`(false, nil)`),
or parsing failed (`(false, err)`, with the flag variables as the failed call
left them). -/
inductive ParseOne where
  | seen (f : Flags) (usedNext : Bool)
  | stop
  | fail (f : Flags)
  deriving DecidableEq, Repr

/-- The function `FlagSet.parseOne` on the flag set of `Do`, applied to the
first argument `s` when `next` is the argument after it (if any). -/
def parseOne (f : Flags) (s : GoString) (next : Option GoString) : ParseOne :=
  match s with
  | [] => ParseOne.stop
  | [_] => ParseOne.stop
  | s0 :: s1 :: s2 =>
    if s0 ≠ 45 then ParseOne.stop
    else if s1 = 45 ∧ s2 = [] then ParseOne.stop  -- "--" terminates the flags
    else
      let name := if s1 = 45 then s2 else s1 :: s2
      match name with
      | [] => ParseOne.fail f  -- bad flag syntax
      | n0 :: nrest =>
        if n0 = 45 ∨ n0 = 61 then ParseOne.fail f  -- bad flag syntax
        else
          -- it's a flag. does it have an argument?
          let hasValue := nrest.contains 61
          let value := (nrest.dropWhile (fun c => c != 61)).tail
          let name := n0 :: nrest.takeWhile (fun c => c != 61)
          if name = ascii "apply" then
            -- boolean flag: doesn't need an arg
            if hasValue then
              match ParseBool value with
              | some b => ParseOne.seen { f with apply := b } false
              | none => ParseOne.fail { f with apply := false }  -- invalid boolean value
            else ParseOne.seen { f with apply := true } false
          else if name = ascii "remote" then
            if hasValue then ParseOne.seen { f with remote := value } false
            else
              match next with
              | some v => ParseOne.seen { f with remote := v } true
              | none => ParseOne.fail f  -- flag needs an argument
          else if name = ascii "bucketPattern" then
            if hasValue then ParseOne.seen { f with bucketPattern := value } false
            else
              match next with
              | some v => ParseOne.seen { f with bucketPattern := v } true
              | none => ParseOne.fail f  -- flag needs an argument
          else ParseOne.fail f  -- ErrHelp for -h/-help, else flag provided but not defined

/-- The function `FlagSet.Parse` with `flag.ContinueOnError`: the flag
variables after parsing and whether an error is returned. -/
def Parse (f : Flags) : List GoString → Flags × Bool
  | [] => (f, false)
  | s :: rest =>
    match parseOne f s rest.head? with
    | ParseOne.seen f1 false => Parse f1 rest
    | ParseOne.seen f1 true =>
      match rest with
      | [] => (f1, false)
      | _ :: rest1 => Parse f1 rest1
    | ParseOne.stop => (f, false)
    | ParseOne.fail f1 => (f1, true)

/-! ## Data model and collaborators -/

/-- The struct `remote_storage.Bucket`, of which `Do` reads the name. -/
structure RemoteBucket where
  Name : GoString
  deriving DecidableEq, Repr

/-- The message `remote_pb.RemoteStorageLocation`. -/
structure RemoteStorageLocation where
  Name : GoString
  Bucket : GoString
  Path : GoString
  deriving DecidableEq, Repr

/-- Modelled from the spec: `util.FullPath.Child` (weed/util is not among the
sources). The direct child path: the parent and the name joined by one `/`,
with no other normalisation. -/
def Child (fp name : GoString) : GoString :=
  if fp.getLast? = some 47 then fp ++ name else fp ++ 47 :: name

/-- The `error` returned by `Do`: an error of a collaborator handed back as it
is, or one made by `fmt.Errorf`. -/
inductive GoError (E : Type) where
  | collaborator (e : E)
  | errorf (msg : GoString)
  deriving DecidableEq, Repr

/-- One observable step of `Do`: a call of a collaborator with its arguments
and the error it returned, or a write of `Do` to the writer. -/
inductive Call (E Conf Client : Type) where
  | listExistingRemoteStorageMounts (err : Option E)
  | ReadRemoteStorageConf (name : GoString) (err : Option E)
  | GetRemoteStorage (conf : Conf) (err : Option E)
  | ListBuckets (client : Client) (err : Option E)
  | readFilerBucketsPath (err : Option E)
  | Fprintf (text : GoString)
  | syncMetadata (dir : GoString) (isMount : Bool) (conf : Conf)
      (loc : RemoteStorageLocation) (err : Option E)
  | InsertMountMapping (dir : GoString) (loc : RemoteStorageLocation) (err : Option E)
  deriving DecidableEq, Repr

/-- The collaborators of `Do`, acting on a world state `σ` (filer, remote
storage, mapping store; `commandEnv` and what the collaborators themselves
print on `writer` belong to it). `Error` is the method `err.Error()` and
`formatLocation` the rendering of a location by the verb `%+v`. -/
structure Env (σ E Conf Client : Type) where
  listExistingRemoteStorageMounts : σ → Option E × σ
  ReadRemoteStorageConf : GoString → σ → Except E Conf × σ
  GetRemoteStorage : Conf → σ → Except E Client × σ
  ListBuckets : Client → σ → Except E (List RemoteBucket) × σ
  readFilerBucketsPath : σ → Except E GoString × σ
  syncMetadata : GoString → Bool → Conf → RemoteStorageLocation → σ → Option E × σ
  InsertMountMapping : GoString → RemoteStorageLocation → σ → Option E × σ
  Error : E → GoString
  formatLocation : RemoteStorageLocation → GoString

/-- What a run of `Do` yields: the returned error, the calls made in order,
and the world state left behind. -/
structure Outcome (σ E Conf Client : Type) where
  err : Option (GoError E)
  trace : List (Call E Conf Client)
  state : σ

/-- The outcome `o` after the steps `pre`. -/
def Outcome.after {σ E Conf Client : Type} (pre : List (Call E Conf Client))
    (o : Outcome σ E Conf Client) : Outcome σ E Conf Client :=
  { o with trace := pre ++ o.trace }

/-! ## `commandRemoteMountBuckets.Do` -/

section Command

variable {σ E Conf Client : Type}

/-- The `for _, bucket := range buckets` loop of `Do` (lines 79-107). -/
def mountLoop (env : Env σ E Conf Client) (remote bucketPattern : GoString) (apply : Bool)
    (remoteConf : Conf) (fillerBucketsPath : GoString) :
    List RemoteBucket → σ → Outcome σ E Conf Client
  | [], st => ⟨none, [], st⟩
  | bucket :: rest, st =>
    if bucketPattern ≠ [] ∧ (Match bucketPattern bucket.Name).1 = false then
      mountLoop env remote bucketPattern apply remoteConf fillerBucketsPath rest st
    else
      let line := Call.Fprintf (ascii "bucket " ++ bucket.Name ++ [10])
      if apply then
        let dir := Child fillerBucketsPath bucket.Name
        let remoteStorageLocation : RemoteStorageLocation :=
          { Name := remote, Bucket := bucket.Name, Path := ascii "/" }
        -- sync metadata from remote
        match env.syncMetadata dir true remoteConf remoteStorageLocation st with
        | (some err, st1) =>
          ⟨some (GoError.errorf (ascii "pull metadata on "
              ++ env.formatLocation remoteStorageLocation ++ ascii ": " ++ env.Error err)),
            [line, Call.syncMetadata dir true remoteConf remoteStorageLocation (some err)], st1⟩
        | (none, st1) =>
          -- store a mount configuration in filer
          match env.InsertMountMapping dir remoteStorageLocation st1 with
          | (some err, st2) =>
            ⟨some (GoError.errorf (ascii "save mount mapping " ++ dir ++ ascii " to "
                ++ env.formatLocation remoteStorageLocation ++ ascii ": " ++ env.Error err)),
              [line, Call.syncMetadata dir true remoteConf remoteStorageLocation none,
                Call.InsertMountMapping dir remoteStorageLocation (some err)], st2⟩
          | (none, st2) =>
            (mountLoop env remote bucketPattern apply remoteConf fillerBucketsPath rest st2).after
              [line, Call.syncMetadata dir true remoteConf remoteStorageLocation none,
                Call.InsertMountMapping dir remoteStorageLocation none]
      else
        (mountLoop env remote bucketPattern apply remoteConf fillerBucketsPath rest st).after [line]

/-- The method `commandRemoteMountBuckets.Do(args, commandEnv, writer)`. -/
def Do (env : Env σ E Conf Client) (args : List GoString) (st : σ) : Outcome σ E Conf Client :=
  match Parse Flags.defaults args with
  | (_, true) => ⟨none, [], st⟩
  | (flags, false) =>
    if flags.remote = [] then
      match env.listExistingRemoteStorageMounts st with
      | (err, st1) =>
        ⟨err.map GoError.collaborator, [Call.listExistingRemoteStorageMounts err], st1⟩
    else
      -- find configuration for remote storage
      match env.ReadRemoteStorageConf flags.remote st with
      | (Except.error err, st1) =>
        ⟨some (GoError.errorf (ascii "find configuration for " ++ flags.remote ++ ascii ": "
            ++ env.Error err)),
          [Call.ReadRemoteStorageConf flags.remote (some err)], st1⟩
      | (Except.ok remoteConf, st1) =>
        -- get storage client
        match env.GetRemoteStorage remoteConf st1 with
        | (Except.error err, st2) =>
          ⟨some (GoError.errorf (ascii "get storage client for " ++ flags.remote ++ ascii ": "
              ++ env.Error err)),
            [Call.ReadRemoteStorageConf flags.remote none,
              Call.GetRemoteStorage remoteConf (some err)], st2⟩
        | (Except.ok remoteStorageClient, st2) =>
          match env.ListBuckets remoteStorageClient st2 with
          | (Except.error err, st3) =>
            ⟨some (GoError.errorf (ascii "list buckets on " ++ flags.remote ++ ascii ": "
                ++ env.Error err)),
              [Call.ReadRemoteStorageConf flags.remote none,
                Call.GetRemoteStorage remoteConf none,
                Call.ListBuckets remoteStorageClient (some err)], st3⟩
          | (Except.ok buckets, st3) =>
            match env.readFilerBucketsPath st3 with
            | (Except.error err, st4) =>
              ⟨some (GoError.errorf (ascii "read filer buckets path: " ++ env.Error err)),
                [Call.ReadRemoteStorageConf flags.remote none,
                  Call.GetRemoteStorage remoteConf none,
                  Call.ListBuckets remoteStorageClient none,
                  Call.readFilerBucketsPath (some err)], st4⟩
            | (Except.ok fillerBucketsPath, st4) =>
              (mountLoop env flags.remote flags.bucketPattern flags.apply remoteConf
                  fillerBucketsPath buckets st4).after
                [Call.ReadRemoteStorageConf flags.remote none,
                  Call.GetRemoteStorage remoteConf none,
                  Call.ListBuckets remoteStorageClient none,
                  Call.readFilerBucketsPath none]

end Command

/-! ## Traces, shapes of a run and example worlds -/

section Definitions

variable {σ E Conf Client : Type}

/-- The error a step returned (`none` for a write). -/
def Call.error : Call E Conf Client → Option E
  | Call.listExistingRemoteStorageMounts err => err
  | Call.ReadRemoteStorageConf _ err => err
  | Call.GetRemoteStorage _ err => err
  | Call.ListBuckets _ err => err
  | Call.readFilerBucketsPath err => err
  | Call.Fprintf _ => none
  | Call.syncMetadata _ _ _ _ err => err
  | Call.InsertMountMapping _ _ err => err

/-- The step is a call that returned an error. -/
def Call.failed (c : Call E Conf Client) : Bool := c.error.isSome

/-- The step is a `syncMetadata` call. -/
def Call.isSync : Call E Conf Client → Bool
  | Call.syncMetadata _ _ _ _ _ => true
  | _ => false

/-- The step is an `InsertMountMapping` call. -/
def Call.isInsert : Call E Conf Client → Bool
  | Call.InsertMountMapping _ _ _ => true
  | _ => false

/-- The step is a metadata pull or a mapping write. -/
def Call.isApply (c : Call E Conf Client) : Bool := c.isSync || c.isInsert

/-- The step is a write of `Do` to the writer. -/
def Call.isWrite : Call E Conf Client → Bool
  | Call.Fprintf _ => true
  | _ => false

/-- The texts `Do` wrote to the writer, in order. -/
def written (trace : List (Call E Conf Client)) : List GoString :=
  trace.filterMap (fun c => match c with
    | Call.Fprintf text => some text
    | _ => none)

/-- The buckets `Do` retains: all of them for the empty pattern, else those
for which `filepath.Match` reports a match. -/
def matching (bucketPattern : GoString) (buckets : List RemoteBucket) : List RemoteBucket :=
  buckets.filter (fun b => decide (bucketPattern = []) || (Match bucketPattern b.Name).1)

/-- The line `Do` writes for a bucket: `"bucket %s\n"`. -/
def bucketLine (b : RemoteBucket) : GoString := ascii "bucket " ++ b.Name ++ [10]

/-- The location `Do` builds for a bucket. -/
def locationOf (remote : GoString) (b : RemoteBucket) : RemoteStorageLocation :=
  { Name := remote, Bucket := b.Name, Path := ascii "/" }

/-- The steps of one bucket mounted without error: the line, the pull, the
mapping write. -/
def mountedSteps (remote : GoString) (remoteConf : Conf) (root : GoString) (b : RemoteBucket) :
    List (Call E Conf Client) :=
  [Call.Fprintf (bucketLine b),
    Call.syncMetadata (Child root b.Name) true remoteConf (locationOf remote b) none,
    Call.InsertMountMapping (Child root b.Name) (locationOf remote b) none]

/-- The four discovery calls of a run in which they all succeed. -/
def discoverySteps (remote : GoString) (remoteConf : Conf) (client : Client) :
    List (Call E Conf Client) :=
  [Call.ReadRemoteStorageConf remote none, Call.GetRemoteStorage remoteConf none,
    Call.ListBuckets client none, Call.readFilerBucketsPath none]

/-- The message of the error `Do` returns when a pull fails. -/
def pullMessage (env : Env σ E Conf Client) (remote : GoString) (b : RemoteBucket) (e : E) :
    GoString :=
  ascii "pull metadata on " ++ env.formatLocation (locationOf remote b) ++ ascii ": "
    ++ env.Error e

/-- The message of the error `Do` returns when a mapping write fails. -/
def saveMessage (env : Env σ E Conf Client) (remote root : GoString) (b : RemoteBucket)
    (e : E) : GoString :=
  ascii "save mount mapping " ++ Child root b.Name ++ ascii " to "
    ++ env.formatLocation (locationOf remote b) ++ ascii ": " ++ env.Error e

/-- The steps of a bucket whose pull fails with `e`. -/
def pullFailedSteps (remote : GoString) (remoteConf : Conf) (root : GoString) (b : RemoteBucket)
    (e : E) : List (Call E Conf Client) :=
  [Call.Fprintf (bucketLine b),
    Call.syncMetadata (Child root b.Name) true remoteConf (locationOf remote b) (some e)]

/-- The steps of a bucket whose mapping write fails with `e`. -/
def saveFailedSteps (remote : GoString) (remoteConf : Conf) (root : GoString) (b : RemoteBucket)
    (e : E) : List (Call E Conf Client) :=
  [Call.Fprintf (bucketLine b),
    Call.syncMetadata (Child root b.Name) true remoteConf (locationOf remote b) none,
    Call.InsertMountMapping (Child root b.Name) (locationOf remote b) (some e)]

/-- The three ways an apply-mode loop can end. -/
def ApplyShape (env : Env σ E Conf Client) (remote : GoString) (conf : Conf) (root : GoString)
    (ms : List RemoteBucket) (o : Outcome σ E Conf Client) : Prop :=
  (o.err = none ∧ o.trace = ms.flatMap (mountedSteps remote conf root)) ∨
  (∃ k b e, ms[k]? = some b ∧ o.err = some (GoError.errorf (pullMessage env remote b e)) ∧
    o.trace = (ms.take k).flatMap (mountedSteps remote conf root)
      ++ pullFailedSteps remote conf root b e) ∨
  (∃ k b e, ms[k]? = some b ∧ o.err = some (GoError.errorf (saveMessage env remote root b e)) ∧
    o.trace = (ms.take k).flatMap (mountedSteps remote conf root)
      ++ saveFailedSteps remote conf root b e)

/-- The failure points of a run with a remote name: the failed call and the
message of the error `Do` makes of it. -/
inductive Fatal (env : Env σ E Conf Client) (remote : GoString) :
    Call E Conf Client → GoString → Prop where
  | conf (e : E) :
      Fatal env remote (Call.ReadRemoteStorageConf remote (some e))
        (ascii "find configuration for " ++ remote ++ ascii ": " ++ env.Error e)
  | client (conf : Conf) (e : E) :
      Fatal env remote (Call.GetRemoteStorage conf (some e))
        (ascii "get storage client for " ++ remote ++ ascii ": " ++ env.Error e)
  | list (client : Client) (e : E) :
      Fatal env remote (Call.ListBuckets client (some e))
        (ascii "list buckets on " ++ remote ++ ascii ": " ++ env.Error e)
  | root (e : E) :
      Fatal env remote (Call.readFilerBucketsPath (some e))
        (ascii "read filer buckets path: " ++ env.Error e)
  | pull (conf : Conf) (root : GoString) (b : RemoteBucket) (e : E) :
      Fatal env remote
        (Call.syncMetadata (Child root b.Name) true conf (locationOf remote b) (some e))
        (pullMessage env remote b e)
  | save (root : GoString) (b : RemoteBucket) (e : E) :
      Fatal env remote
        (Call.InsertMountMapping (Child root b.Name) (locationOf remote b) (some e))
        (saveMessage env remote root b e)

/-- How a run ends: without error and without failed call, or at the first
failed call, with the error made of it. -/
def RunShape (env : Env σ E Conf Client) (remote : GoString) (o : Outcome σ E Conf Client) :
    Prop :=
  (o.err = none ∧ ∀ y ∈ o.trace, y.failed = false) ∨
  (∃ ok x msg, o.trace = ok ++ [x] ∧ (∀ y ∈ ok, y.failed = false) ∧
    o.err = some (GoError.errorf msg) ∧ Fatal env remote x msg)

/-- The pull and the mapping write of a bucket mounted without error. -/
def mountedCalls (remote : GoString) (remoteConf : Conf) (root : GoString) (b : RemoteBucket) :
    List (Call E Conf Client) :=
  [Call.syncMetadata (Child root b.Name) true remoteConf (locationOf remote b) none,
    Call.InsertMountMapping (Child root b.Name) (locationOf remote b) none]

/-- The mapping store of the examples: local directory and remote location. -/
abbrev MountStore := List (GoString × RemoteStorageLocation)

/-- Writing a mapping replaces the one recorded for the directory, if any. -/
def MountStore.upsert (st : MountStore) (dir : GoString) (loc : RemoteStorageLocation) :
    MountStore :=
  (dir, loc) :: st.filter (fun m => decide (m.1 ≠ dir))

/-- The rendering of a location used in the examples. -/
def sampleFormat (loc : RemoteStorageLocation) : GoString :=
  ascii "name:" ++ loc.Name ++ ascii " bucket:" ++ loc.Bucket ++ ascii " path:" ++ loc.Path

/-- The environment of the examples: the remote `cloud1` is configured and
lists `buckets`; the buckets root is `/buckets` unless `rootErr` is set; the
pull and the mapping write fail for the bucket names selected by `pullFails`
and `saveFails`. Errors are their own text. -/
def sampleEnv (buckets : List RemoteBucket) (rootErr : Option GoString)
    (pullFails saveFails : GoString → Bool) : Env MountStore GoString GoString Unit where
  listExistingRemoteStorageMounts := fun st => (none, st)
  ReadRemoteStorageConf := fun name st =>
    if name = ascii "cloud1" then (Except.ok name, st)
    else (Except.error (ascii "not found"), st)
  GetRemoteStorage := fun _ st => (Except.ok (), st)
  ListBuckets := fun _ st => (Except.ok buckets, st)
  readFilerBucketsPath := fun st =>
    match rootErr with
    | some e => (Except.error e, st)
    | none => (Except.ok (ascii "/buckets"), st)
  syncMetadata := fun _ _ _ loc st =>
    if pullFails loc.Bucket then (some (ascii "pull failed"), st) else (none, st)
  InsertMountMapping := fun dir loc st =>
    if saveFails loc.Bucket then (some (ascii "save failed"), st)
    else (none, st.upsert dir loc)
  Error := fun e => e
  formatLocation := sampleFormat

/-- The local directories that have a mapping in the store. -/
def MountStore.dirs (st : MountStore) : List GoString := st.map Prod.fst

/-- The local directories of the mapping writes that succeeded, in order. -/
def writtenDirs (trace : List (Call E Conf Client)) : List GoString :=
  trace.filterMap (fun c => match c with
    | Call.InsertMountMapping dir _ none => some dir
    | _ => none)

/-- Spec-side definition, following the wording of the mapping store (the
local directory is the key, and re-mounting a directory overwrites its
mapping: upsert). `mapped s` are the local directories that have a mapping in
the world `s`. No collaborator of a mount run drops a mapping, and a mapping
write upon a directory that already has a mapping does not fail. -/
structure UpsertStore (env : Env σ E Conf Client) (mapped : σ → List GoString) : Prop where
  conf_keeps : ∀ name s, ∀ d ∈ mapped s, d ∈ mapped (env.ReadRemoteStorageConf name s).2
  client_keeps : ∀ conf s, ∀ d ∈ mapped s, d ∈ mapped (env.GetRemoteStorage conf s).2
  list_keeps : ∀ client s, ∀ d ∈ mapped s, d ∈ mapped (env.ListBuckets client s).2
  root_keeps : ∀ s, ∀ d ∈ mapped s, d ∈ mapped (env.readFilerBucketsPath s).2
  pull_keeps : ∀ dir m conf loc s, ∀ d ∈ mapped s,
    d ∈ mapped (env.syncMetadata dir m conf loc s).2
  write_keeps : ∀ dir loc s, ∀ d ∈ mapped s, d ∈ mapped (env.InsertMountMapping dir loc s).2
  upsert : ∀ dir loc s, dir ∈ mapped s → (env.InsertMountMapping dir loc s).1 = none

/-- An environment whose collaborators see the mapping store, as `syncMetadata`
and `InsertMountMapping` do through `commandEnv`: the remote `cloud1` is
configured and lists `buckets`, the buckets root is `/buckets`, the store
replaces the mapping of a directory that has one and takes a mapping for a
new directory only while it holds fewer than `capacity` mappings, and, when
`refuseMounted` is set, the pull fails on a directory that already has a
mapping. Errors are their own text. -/
def storeEnv (buckets : List RemoteBucket) (capacity : Nat) (refuseMounted : Bool) :
    Env MountStore GoString GoString Unit where
  listExistingRemoteStorageMounts := fun st => (none, st)
  ReadRemoteStorageConf := fun name st =>
    if name = ascii "cloud1" then (Except.ok name, st)
    else (Except.error (ascii "not found"), st)
  GetRemoteStorage := fun _ st => (Except.ok (), st)
  ListBuckets := fun _ st => (Except.ok buckets, st)
  readFilerBucketsPath := fun st => (Except.ok (ascii "/buckets"), st)
  syncMetadata := fun dir _ _ _ st =>
    if refuseMounted = true ∧ dir ∈ st.dirs then (some (ascii "already mounted"), st)
    else (none, st)
  InsertMountMapping := fun dir loc st =>
    if dir ∈ st.dirs ∨ st.length < capacity then (none, st.upsert dir loc)
    else (some (ascii "store is full"), st)
  Error := fun e => e
  formatLocation := sampleFormat

/-- The bucket listing of the scenarios: `logs-2023`, `logs-2024`, `media`. -/
def sampleBuckets : List RemoteBucket :=
  [⟨ascii "logs-2023"⟩, ⟨ascii "logs-2024"⟩, ⟨ascii "media"⟩]

/-- The pull of the examples for the bucket `name`, with its result. -/
def samplePull (name : GoString) (err : Option GoString) : Call GoString GoString Unit :=
  Call.syncMetadata (ascii "/buckets/" ++ name) true (ascii "cloud1")
    ⟨ascii "cloud1", name, ascii "/"⟩ err

/-- The mapping write of the examples for the bucket `name`, with its result. -/
def sampleSave (name : GoString) (err : Option GoString) : Call GoString GoString Unit :=
  Call.InsertMountMapping (ascii "/buckets/" ++ name) ⟨ascii "cloud1", name, ascii "/"⟩ err

/-- The discovery calls of the examples, all successful. -/
def sampleDiscovery : List (Call GoString GoString Unit) :=
  [Call.ReadRemoteStorageConf (ascii "cloud1") none, Call.GetRemoteStorage (ascii "cloud1") none,
    Call.ListBuckets () none, Call.readFilerBucketsPath none]

/-- A pattern made of `*`, `?` and literal bytes only: it has no `[` and no
backslash. -/
def simplePattern (p : GoString) : Prop := 91 ∉ p ∧ 92 ∉ p

instance (p : GoString) : Decidable (simplePattern p) :=
  inferInstanceAs (Decidable (91 ∉ p ∧ 92 ∉ p))

/-- A name made of ASCII bytes, so that every character is one byte. -/
def asciiName (s : GoString) : Prop := ∀ c ∈ s, c < 128

instance (s : GoString) : Decidable (asciiName s) :=
  inferInstanceAs (Decidable (∀ c ∈ s, c < 128))

/-- Spec-side definition, following the wording of the bucket filter: a
full-string wildcard match in which `*` matches any run of bytes (of any
length, also none) none of which is excluded by `sep`, `?` matches exactly one
byte not excluded by `sep`, and any other byte matches itself. -/
inductive Glob (sep : Nat → Prop) : GoString → GoString → Prop where
  | nil : Glob sep [] []
  | star {p s : GoString} (run : GoString) :
      (∀ c ∈ run, ¬ sep c) → Glob sep p s → Glob sep (42 :: p) (run ++ s)
  | any {p s : GoString} (c : Nat) : ¬ sep c → Glob sep p s → Glob sep (63 :: p) (c :: s)
  | lit {p s : GoString} (c : Nat) :
      c ≠ 42 → c ≠ 63 → Glob sep p s → Glob sep (c :: p) (c :: s)

/-- The wildcard match of the bucket filter as the claim words it: `*` matches
any run of characters, of any kind. -/
def GlobAnyRun (p s : GoString) : Prop := Glob (fun _ => False) p s

/-- The wildcard match in which neither `*` nor `?` matches the separator
`/`. -/
def GlobNoSeparator (p s : GoString) : Prop := Glob (fun c => c = Separator) p s

/-- A chunk without `*`, `[` and backslash matched byte by byte against the
beginning of `s`: the remainder of `s` when every `?` meets a byte other than
the separator and every other byte meets itself. -/
def chunkPrefix : GoString → GoString → Option GoString
  | [], s => some s
  | _ :: _, [] => none
  | k :: chunk, x :: s =>
    if k = 63 then (if x = Separator then none else chunkPrefix chunk s)
    else if k = x then chunkPrefix chunk s
    else none

/-- The bytes of one validly encoded character: `utf8.DecodeRuneInString` reads
all of them and does not answer `(RuneError, 1)`. -/
def validRune (item : GoString) : Prop :=
  item ≠ [] ∧ (DecodeRuneInString item).2 = item.length ∧
    ¬ ((DecodeRuneInString item).1 = RuneError ∧ (DecodeRuneInString item).2 = 1)

/-- Spec-side definition, after the pattern syntax documented for
`filepath.Match`: a character of a class is `c` (`c` other than backslash, `-`
and `]`) or a backslash followed by `c`. -/
inductive ClassItem : GoString → Prop where
  | plain (item : GoString) : validRune item → item.head? ≠ some 92 → item.head? ≠ some 45 →
      item.head? ≠ some 93 → ClassItem item
  | escaped (item : GoString) : validRune item → ClassItem (92 :: item)

/-- A character range of a class: `c` or `lo '-' hi`. -/
inductive ClassRange : GoString → Prop where
  | single {lo : GoString} : ClassItem lo → ClassRange lo
  | range {lo hi : GoString} : ClassItem lo → ClassItem hi → ClassRange (lo ++ 45 :: hi)

/-- One or more character ranges in a row (a class must be non-empty). -/
inductive ClassRanges : GoString → Prop where
  | one {r : GoString} : ClassRange r → ClassRanges r
  | more {r rs : GoString} : ClassRange r → ClassRanges rs → ClassRanges (r ++ rs)

/-- Spec-side definition of a syntactically valid pattern, after the syntax
documented for `filepath.Match`: a pattern is a sequence of terms, a term being
`*`, `?`, a class `'[' [ '^' ] { character-range } ']'`, a character other than
`*`, `?`, backslash and `[`, or a backslash followed by a character. A `^`
right after `[` is always the negation. A pattern that is not `WellFormed` is
malformed. -/
inductive WellFormed : GoString → Prop where
  | nil : WellFormed []
  | star {p : GoString} : WellFormed p → WellFormed (42 :: p)
  | any {p : GoString} : WellFormed p → WellFormed (63 :: p)
  | escape {p : GoString} (c : Nat) : WellFormed p → WellFormed (92 :: c :: p)
  | cls {rs p : GoString} : rs.head? ≠ some 94 → ClassRanges rs → WellFormed p →
      WellFormed (91 :: (rs ++ 93 :: p))
  | negated {rs p : GoString} : ClassRanges rs → WellFormed p →
      WellFormed (91 :: 94 :: (rs ++ 93 :: p))
  | lit {p : GoString} (c : Nat) : c ≠ 42 → c ≠ 63 → c ≠ 92 → c ≠ 91 → WellFormed p →
      WellFormed (c :: p)

end Definitions

/-! ## Lemmas -/

section Lemmas

variable {σ E Conf Client : Type}

theorem after_err (pre : List (Call E Conf Client)) (o : Outcome σ E Conf Client) :
    (o.after pre).err = o.err := rfl

theorem after_trace (pre : List (Call E Conf Client)) (o : Outcome σ E Conf Client) :
    (o.after pre).trace = pre ++ o.trace := rfl

theorem after_state (pre : List (Call E Conf Client)) (o : Outcome σ E Conf Client) :
    (o.after pre).state = o.state := rfl

/-- The loop with a pattern is the loop without pattern on the retained
buckets. -/
theorem mountLoop_matching (env : Env σ E Conf Client) (remote p : GoString) (apply : Bool)
    (conf : Conf) (root : GoString) (bs : List RemoteBucket) (st : σ) :
    mountLoop env remote p apply conf root bs st
      = mountLoop env remote [] apply conf root (matching p bs) st := by
  induction bs generalizing st with
  | nil => simp [matching, mountLoop]
  | cons b rest ih =>
    by_cases hp : p = []
    · subst hp
      simp [matching]
    · by_cases hm : (Match p b.Name).1 = true
      · have hf : matching p (b :: rest) = b :: matching p rest := by
          simp [matching, hm]
        rw [hf]
        simp only [mountLoop, hm, ih]
        simp
      · have hf : matching p (b :: rest) = matching p rest := by
          simp [matching, hm, hp]
        rw [hf, ← ih]
        simp [mountLoop, hm, hp]

/-- Dry run: the loop writes one line per bucket and calls nothing. -/
theorem mountLoop_dry (env : Env σ E Conf Client) (remote : GoString)
    (conf : Conf) (root : GoString) (bs : List RemoteBucket) (st : σ) :
    mountLoop env remote [] false conf root bs st
      = ⟨none, bs.map (fun b => Call.Fprintf (bucketLine b)), st⟩ := by
  induction bs generalizing st with
  | nil => simp [mountLoop]
  | cons b rest ih => simp [mountLoop, ih, Outcome.after, bucketLine]

theorem ApplyShape.cons {env : Env σ E Conf Client} {remote : GoString} {conf : Conf}
    {root : GoString} {ms : List RemoteBucket} {o : Outcome σ E Conf Client} (b : RemoteBucket)
    (h : ApplyShape env remote conf root ms o) :
    ApplyShape env remote conf root (b :: ms) (o.after (mountedSteps remote conf root b)) := by
  rcases h with ⟨h1, h2⟩ | ⟨k, b1, e, hk, h1, h2⟩ | ⟨k, b1, e, hk, h1, h2⟩
  · exact Or.inl ⟨h1, by simp [after_trace, h2]⟩
  · exact Or.inr (Or.inl ⟨k + 1, b1, e, by simpa using hk, h1, by simp [after_trace, h2]⟩)
  · exact Or.inr (Or.inr ⟨k + 1, b1, e, by simpa using hk, h1, by simp [after_trace, h2]⟩)

/-- Apply mode: the loop mounts the buckets in order and stops at the first
pull or mapping write that fails. -/
theorem mountLoop_apply (env : Env σ E Conf Client) (remote : GoString)
    (conf : Conf) (root : GoString) (ms : List RemoteBucket) (st : σ) :
    ApplyShape env remote conf root ms (mountLoop env remote [] true conf root ms st) := by
  induction ms generalizing st with
  | nil => exact Or.inl ⟨by simp [mountLoop], by simp [mountLoop]⟩
  | cons b rest ih =>
    rcases hs : env.syncMetadata (Child root b.Name) true conf (locationOf remote b) st
      with ⟨_ | e, st1⟩
    · rcases hi : env.InsertMountMapping (Child root b.Name) (locationOf remote b) st1
        with ⟨_ | e, st2⟩
      · have := ApplyShape.cons b (ih st2)
        simp only [locationOf] at hs hi
        simpa [mountLoop, locationOf, hs, hi, mountedSteps, bucketLine] using this
      · simp only [locationOf] at hs hi
        refine Or.inr (Or.inr ⟨0, b, e, by simp, ?_, ?_⟩)
        · simp [mountLoop, locationOf, hs, hi, saveMessage]
        · simp [mountLoop, locationOf, hs, hi, saveFailedSteps, bucketLine]
    · simp only [locationOf] at hs
      refine Or.inr (Or.inl ⟨0, b, e, by simp, ?_, ?_⟩)
      · simp [mountLoop, locationOf, hs, pullMessage]
      · simp [mountLoop, locationOf, hs, pullFailedSteps, bucketLine]

/-- Apply mode with pulls and mapping writes that never fail: every bucket
is mounted. -/
theorem mountLoop_apply_ok (env : Env σ E Conf Client) (remote : GoString)
    (conf : Conf) (root : GoString) (ms : List RemoteBucket) (st : σ)
    (hpull : ∀ dir m c loc s, (env.syncMetadata dir m c loc s).1 = none)
    (hsave : ∀ dir loc s, (env.InsertMountMapping dir loc s).1 = none) :
    (mountLoop env remote [] true conf root ms st).err = none ∧
    (mountLoop env remote [] true conf root ms st).trace
      = ms.flatMap (mountedSteps remote conf root) := by
  induction ms generalizing st with
  | nil => simp [mountLoop]
  | cons b rest ih =>
    rcases hs : env.syncMetadata (Child root b.Name) true conf (locationOf remote b) st
      with ⟨e1, st1⟩
    have h1 := hpull (Child root b.Name) true conf (locationOf remote b) st
    rw [hs] at h1
    simp only at h1
    subst h1
    rcases hi : env.InsertMountMapping (Child root b.Name) (locationOf remote b) st1
      with ⟨e2, st2⟩
    have h2 := hsave (Child root b.Name) (locationOf remote b) st1
    rw [hi] at h2
    simp only at h2
    subst h2
    simp only [locationOf] at hs hi
    have := ih st2
    simp [mountLoop, hs, hi, after_err, after_trace, this.1, this.2, mountedSteps,
      bucketLine, locationOf]

/-- A run with a remote name whose discovery calls all succeed: the four
discovery calls, then the loop over the retained buckets. -/
theorem Do_discovered (env : Env σ E Conf Client) (args : List GoString) (st : σ)
    (flags : Flags) (conf : Conf) (client : Client) (buckets : List RemoteBucket)
    (root : GoString) (st1 st2 st3 st4 : σ)
    (hparse : Parse Flags.defaults args = (flags, false))
    (hremote : flags.remote ≠ [])
    (hconf : env.ReadRemoteStorageConf flags.remote st = (Except.ok conf, st1))
    (hclient : env.GetRemoteStorage conf st1 = (Except.ok client, st2))
    (hlist : env.ListBuckets client st2 = (Except.ok buckets, st3))
    (hroot : env.readFilerBucketsPath st3 = (Except.ok root, st4)) :
    Do env args st
      = (mountLoop env flags.remote [] flags.apply conf root
          (matching flags.bucketPattern buckets) st4).after
          (discoverySteps flags.remote conf client) := by
  simp only [Do, hparse, hremote, if_false, hconf, hclient, hlist, hroot, discoverySteps]
  rw [mountLoop_matching]

theorem written_append (a b : List (Call E Conf Client)) :
    written (a ++ b) = written a ++ written b := by
  simp [written, List.filterMap_append]

theorem written_lines (bs : List RemoteBucket) :
    written (bs.map (fun b => (Call.Fprintf (bucketLine b) : Call E Conf Client)))
      = bs.map bucketLine := by
  induction bs with
  | nil => rfl
  | cons b rest ih => simpa [written] using ih

/-- A failed call that comes after calls that all succeeded is found at one
place only. -/
theorem failed_call_is_last (ok : List (Call E Conf Client)) (x : Call E Conf Client)
    (pre post : List (Call E Conf Client)) (c : Call E Conf Client)
    (h : ok ++ [x] = pre ++ c :: post) (hok : ∀ y ∈ ok, y.failed = false)
    (hc : c.failed = true) : pre = ok ∧ c = x ∧ post = [] := by
  induction ok generalizing pre with
  | nil =>
    cases pre with
    | nil =>
      simp only [List.nil_append, List.cons.injEq] at h
      exact ⟨rfl, h.1.symm, h.2.symm⟩
    | cons p pre1 =>
      simp only [List.nil_append, List.cons_append, List.cons.injEq] at h
      exact absurd h.2.symm (by simp)
  | cons y ok1 ih =>
    cases pre with
    | nil =>
      simp only [List.nil_append, List.cons_append, List.cons.injEq] at h
      have := hok y (List.mem_cons_self _ _)
      rw [h.1, hc] at this
      exact absurd this (by simp)
    | cons p pre1 =>
      simp only [List.cons_append, List.cons.injEq] at h
      have := ih pre1 h.2 (fun z hz => hok z (List.mem_cons_of_mem _ hz))
      exact ⟨by rw [h.1, this.1], this.2⟩

theorem mountedSteps_ok (remote : GoString) (conf : Conf) (root : GoString)
    (ms : List RemoteBucket) :
    ∀ y ∈ ms.flatMap (mountedSteps remote conf root : RemoteBucket → List (Call E Conf Client)),
      y.failed = false := by
  intro y hy
  simp only [List.mem_flatMap, mountedSteps] at hy
  obtain ⟨b, _, hb⟩ := hy
  simp only [List.mem_cons, List.mem_singleton, List.not_mem_nil, or_false] at hb
  rcases hb with h | h | h <;> subst h <;> rfl

theorem RunShape.of_apply {env : Env σ E Conf Client} {remote : GoString} {conf : Conf}
    {root : GoString} {ms : List RemoteBucket} {o : Outcome σ E Conf Client}
    (h : ApplyShape env remote conf root ms o) : RunShape env remote o := by
  rcases h with ⟨h1, h2⟩ | ⟨k, b, e, _, h1, h2⟩ | ⟨k, b, e, _, h1, h2⟩
  · exact Or.inl ⟨h1, by rw [h2]; exact mountedSteps_ok remote conf root ms⟩
  · refine Or.inr ⟨(ms.take k).flatMap (mountedSteps remote conf root)
        ++ [Call.Fprintf (bucketLine b)], _, _, ?_, ?_, h1, Fatal.pull conf root b e⟩
    · rw [h2]; simp [pullFailedSteps]
    · intro y hy
      rcases List.mem_append.1 hy with hy | hy
      · exact mountedSteps_ok remote conf root _ y hy
      · simp only [List.mem_singleton] at hy
        subst hy
        rfl
  · refine Or.inr ⟨(ms.take k).flatMap (mountedSteps remote conf root)
        ++ [Call.Fprintf (bucketLine b),
          Call.syncMetadata (Child root b.Name) true conf (locationOf remote b) none],
        _, _, ?_, ?_, h1, Fatal.save root b e⟩
    · rw [h2]; simp [saveFailedSteps]
    · intro y hy
      rcases List.mem_append.1 hy with hy | hy
      · exact mountedSteps_ok remote conf root _ y hy
      · simp only [List.mem_cons, List.mem_singleton, List.not_mem_nil, or_false] at hy
        rcases hy with h | h <;> subst h <;> rfl

theorem RunShape.after {env : Env σ E Conf Client} {remote : GoString}
    {o : Outcome σ E Conf Client} (pre : List (Call E Conf Client))
    (hpre : ∀ y ∈ pre, y.failed = false) (h : RunShape env remote o) :
    RunShape env remote (o.after pre) := by
  rcases h with ⟨h1, h2⟩ | ⟨ok, x, msg, h1, h2, h3, h4⟩
  · refine Or.inl ⟨h1, ?_⟩
    intro y hy
    rw [after_trace] at hy
    rcases List.mem_append.1 hy with hy | hy
    · exact hpre y hy
    · exact h2 y hy
  · refine Or.inr ⟨pre ++ ok, x, msg, ?_, ?_, h3, h4⟩
    · rw [after_trace, h1, List.append_assoc]
    · intro y hy
      rcases List.mem_append.1 hy with hy | hy
      · exact hpre y hy
      · exact h2 y hy

/-- Every run with a remote name and `-apply` ends as `RunShape` says. -/
theorem Do_shape (env : Env σ E Conf Client) (args : List GoString) (st : σ) (flags : Flags)
    (hparse : Parse Flags.defaults args = (flags, false))
    (hremote : flags.remote ≠ []) :
    RunShape env flags.remote (Do env args st) := by
  simp only [Do, hparse, hremote, if_false]
  rcases h1 : env.ReadRemoteStorageConf flags.remote st with ⟨_ | conf, st1⟩
  · exact Or.inr ⟨[], _, _, rfl, by simp, rfl, Fatal.conf _⟩
  dsimp only
  rcases h2 : env.GetRemoteStorage conf st1 with ⟨_ | client, st2⟩
  · exact Or.inr ⟨[_], _, _, rfl, by simp [Call.failed, Call.error], rfl, Fatal.client conf _⟩
  dsimp only
  rcases h3 : env.ListBuckets client st2 with ⟨_ | buckets, st3⟩
  · exact Or.inr ⟨[_, _], _, _, rfl, by simp [Call.failed, Call.error], rfl,
      Fatal.list client _⟩
  dsimp only
  rcases h4 : env.readFilerBucketsPath st3 with ⟨_ | root, st4⟩
  · exact Or.inr ⟨[_, _, _], _, _, rfl, by simp [Call.failed, Call.error], rfl, Fatal.root _⟩
  dsimp only
  refine RunShape.after _ (by simp [Call.failed, Call.error]) ?_
  rw [mountLoop_matching]
  cases ha : flags.apply
  · rw [mountLoop_dry]
    refine Or.inl ⟨rfl, ?_⟩
    intro y hy
    simp only [List.mem_map] at hy
    obtain ⟨b, _, hb⟩ := hy
    subst hb
    rfl
  · exact RunShape.of_apply (mountLoop_apply env flags.remote conf root _ st4)

theorem filter_isApply_mounted (remote : GoString) (conf : Conf) (root : GoString)
    (ms : List RemoteBucket) :
    (ms.flatMap (mountedSteps remote conf root : RemoteBucket → List (Call E Conf Client))).filter Call.isApply
      = ms.flatMap (mountedCalls remote conf root) := by
  rw [List.filter_flatMap]
  simp only [mountedSteps, Call.isApply, Call.isSync, Call.isInsert, List.filter_cons,
    Bool.or_false, Bool.or_true, Bool.false_eq_true, if_false, if_true, List.filter_nil]
  rfl

theorem countP_isSync_mounted (remote : GoString) (conf : Conf) (root : GoString)
    (ms : List RemoteBucket) :
    (ms.flatMap (mountedSteps remote conf root : RemoteBucket → List (Call E Conf Client))).countP Call.isSync
      = ms.length := by
  induction ms with
  | nil => rfl
  | cons b rest ih =>
    rw [List.flatMap_cons, List.countP_append, ih]
    simp [mountedSteps, Call.isSync, List.countP_cons]
    omega

theorem countP_isInsert_mounted (remote : GoString) (conf : Conf) (root : GoString)
    (ms : List RemoteBucket) :
    (ms.flatMap (mountedSteps remote conf root : RemoteBucket → List (Call E Conf Client))).countP Call.isInsert
      = ms.length := by
  induction ms with
  | nil => rfl
  | cons b rest ih =>
    rw [List.flatMap_cons, List.countP_append, ih]
    simp [mountedSteps, Call.isInsert, List.countP_cons]
    omega

theorem length_take_of_getElem? {α : Type} (l : List α) (k : Nat) (a : α)
    (h : l[k]? = some a) : (l.take k).length = k := by
  have hk : k < l.length := by
    rcases Nat.lt_or_ge k l.length with h1 | h1
    · exact h1
    · rw [List.getElem?_eq_none h1] at h
      exact absurd h (by simp)
  rw [List.length_take]
  omega

theorem dirs_upsert (st : MountStore) (dir : GoString) (loc : RemoteStorageLocation)
    (d : GoString) : d ∈ (st.upsert dir loc).dirs ↔ d = dir ∨ d ∈ st.dirs := by
  simp only [MountStore.dirs, MountStore.upsert, List.map_cons, List.mem_cons, List.mem_map,
    List.mem_filter, decide_eq_true_eq]
  constructor
  · rintro (h | ⟨m, ⟨hm, _⟩, rfl⟩)
    · exact Or.inl h
    · exact Or.inr ⟨m, hm, rfl⟩
  · rintro (h | ⟨m, hm, rfl⟩)
    · exact Or.inl h
    · by_cases hd : m.1 = dir
      · exact Or.inl hd
      · exact Or.inr ⟨m, ⟨hm, hd⟩, rfl⟩

theorem writtenDirs_append (a b : List (Call E Conf Client)) :
    writtenDirs (a ++ b) = writtenDirs a ++ writtenDirs b := by
  simp [writtenDirs, List.filterMap_append]

theorem writtenDirs_mounted (remote : GoString) (conf : Conf) (root : GoString)
    (ms : List RemoteBucket) :
    writtenDirs (ms.flatMap
        (mountedSteps remote conf root : RemoteBucket → List (Call E Conf Client)))
      = ms.map (fun b => Child root b.Name) := by
  induction ms with
  | nil => rfl
  | cons b rest ih =>
    rw [List.flatMap_cons, writtenDirs_append, ih]
    simp [mountedSteps, writtenDirs]

/-- An apply-mode loop that returns nil has mounted every bucket. -/
theorem mountLoop_ok_trace (env : Env σ E Conf Client) (remote : GoString)
    (conf : Conf) (root : GoString) (ms : List RemoteBucket) (st : σ)
    (h : (mountLoop env remote [] true conf root ms st).err = none) :
    (mountLoop env remote [] true conf root ms st).trace
      = ms.flatMap (mountedSteps remote conf root) := by
  rcases mountLoop_apply env remote conf root ms st with ⟨_, h1⟩ | ⟨k, b, e, _, h1, _⟩ |
    ⟨k, b, e, _, h1, _⟩
  · exact h1
  · rw [h1] at h
    exact absurd h (by simp)
  · rw [h1] at h
    exact absurd h (by simp)

/-- An apply-mode loop on a world whose store already holds a mapping for
every bucket at hand, when no pull of the loop fails and a write upon an
existing mapping does not fail: every bucket is mounted again. -/
theorem mountLoop_again (env : Env σ E Conf Client) (mapped : σ → List GoString)
    (remote : GoString) (conf : Conf) (root : GoString) (ms : List RemoteBucket) (st : σ)
    (hstore : UpsertStore env mapped)
    (hheld : ∀ b ∈ ms, Child root b.Name ∈ mapped st)
    (hpull : ∀ c ∈ (mountLoop env remote [] true conf root ms st).trace,
      c.isSync = true → c.failed = false) :
    (mountLoop env remote [] true conf root ms st).err = none ∧
    (mountLoop env remote [] true conf root ms st).trace
      = ms.flatMap (mountedSteps remote conf root) := by
  induction ms generalizing st with
  | nil => simp [mountLoop]
  | cons b rest ih =>
    rcases hs : env.syncMetadata (Child root b.Name) true conf (locationOf remote b) st
      with ⟨_ | e, st1⟩
    · have hk1 : ∀ d ∈ mapped st, d ∈ mapped st1 := by
        intro d hd
        have := hstore.pull_keeps (Child root b.Name) true conf (locationOf remote b) st d hd
        rwa [hs] at this
      have hi1 := hstore.upsert (Child root b.Name) (locationOf remote b) st1
        (hk1 _ (hheld b (List.mem_cons_self _ _)))
      rcases hi : env.InsertMountMapping (Child root b.Name) (locationOf remote b) st1
        with ⟨e2, st2⟩
      rw [hi] at hi1
      simp only at hi1
      subst hi1
      have hk2 : ∀ d ∈ mapped st1, d ∈ mapped st2 := by
        intro d hd
        have := hstore.write_keeps (Child root b.Name) (locationOf remote b) st1 d hd
        rwa [hi] at this
      have hstep : mountLoop env remote [] true conf root (b :: rest) st
          = (mountLoop env remote [] true conf root rest st2).after
              (mountedSteps remote conf root b) := by
        simp only [locationOf] at hs hi
        simp [mountLoop, hs, hi, mountedSteps, bucketLine, locationOf]
      rw [hstep, after_trace] at hpull
      obtain ⟨h1, h2⟩ := ih st2
        (fun b1 hb1 => hk2 _ (hk1 _ (hheld b1 (List.mem_cons_of_mem _ hb1))))
        (fun c hc => hpull c (List.mem_append_right _ hc))
      rw [hstep]
      exact ⟨by rw [after_err]; exact h1, by rw [after_trace, h2]; rfl⟩
    · have htr : (mountLoop env remote [] true conf root (b :: rest) st).trace
          = pullFailedSteps remote conf root b e := by
        simp only [locationOf] at hs
        simp [mountLoop, hs, pullFailedSteps, bucketLine, locationOf]
      have := hpull (Call.syncMetadata (Child root b.Name) true conf (locationOf remote b)
        (some e)) (by rw [htr]; simp [pullFailedSteps]) rfl
      simp [Call.failed, Call.error] at this

/-- The store of `storeEnv` is an upsert store. -/
theorem storeEnv_upsertStore (buckets : List RemoteBucket) (capacity : Nat)
    (refuseMounted : Bool) :
    UpsertStore (storeEnv buckets capacity refuseMounted) MountStore.dirs where
  conf_keeps := by
    intro name s d hd
    simp only [storeEnv]
    split_ifs <;> exact hd
  client_keeps := fun _ _ _ hd => hd
  list_keeps := fun _ _ _ hd => hd
  root_keeps := fun _ _ hd => hd
  pull_keeps := by
    intro dir m conf loc s d hd
    simp only [storeEnv]
    split_ifs <;> exact hd
  write_keeps := by
    intro dir loc s d hd
    simp only [storeEnv]
    split_ifs
    · exact (dirs_upsert _ _ _ _).2 (Or.inr hd)
    · exact hd
  upsert := by
    intro dir loc s hd
    simp [storeEnv, hd]

/-! ### `filepath.Match` on patterns without brackets and backslashes -/

theorem scanIndex_cons (inrange : Bool) (c : Nat) (rest : GoString) (h92 : c ≠ 92) :
    scanIndex inrange (c :: rest)
      = if c = 91 then 1 + scanIndex true rest
        else if c = 93 then 1 + scanIndex false rest
        else if c = 42 then (if !inrange then 0 else 1 + scanIndex inrange rest)
        else 1 + scanIndex inrange rest := by
  cases rest <;> simp [scanIndex, h92]

theorem scanIndex_simple (p : GoString) (h91 : 91 ∉ p) (h92 : 92 ∉ p) :
    p.take (scanIndex false p) = p.takeWhile (fun c => c != 42) ∧
    p.drop (scanIndex false p) = p.dropWhile (fun c => c != 42) := by
  induction p with
  | nil => simp [scanIndex]
  | cons c rest ih =>
    have hc91 : c ≠ 91 := fun h => h91 (by simp [h])
    have hc92 : c ≠ 92 := fun h => h92 (by simp [h])
    have ih1 := ih (fun h => h91 (List.mem_cons_of_mem _ h))
      (fun h => h92 (List.mem_cons_of_mem _ h))
    rw [scanIndex_cons false c rest hc92]
    by_cases h42 : c = 42
    · subst h42
      simp
    · by_cases h93 : c = 93
      · subst h93
        simp [List.takeWhile_cons, List.dropWhile_cons, Nat.add_comm 1, ih1]
      · simp [hc91, h42, h93, List.takeWhile_cons, List.dropWhile_cons,
          Nat.add_comm 1, ih1]

theorem DecodeRuneInString_ascii (x : Nat) (s : GoString) (hx : x < 128) :
    DecodeRuneInString (x :: s) = (x, 1) := by
  simp [DecodeRuneInString, hx]

/-- Once the match has failed, a chunk without brackets and backslashes is
read to its end and reported as not matching. -/
theorem matchChunkLoop_failed (fuel : Nat) (chunk s : GoString)
    (h91 : 91 ∉ chunk) (h92 : 92 ∉ chunk) :
    matchChunkLoop fuel chunk s true = ([], false, false) := by
  induction fuel generalizing chunk s with
  | zero => simp [matchChunkLoop]
  | succ fuel ih =>
    cases chunk with
    | nil => simp [matchChunkLoop]
    | cons c rest =>
      have hc91 : c ≠ 91 := fun h => h91 (by simp [h])
      have hc92 : c ≠ 92 := fun h => h92 (by simp [h])
      have hr91 : 91 ∉ rest := fun h => h91 (List.mem_cons_of_mem _ h)
      have hr92 : 92 ∉ rest := fun h => h92 (List.mem_cons_of_mem _ h)
      by_cases h63 : c = 63
      · simp [matchChunkLoop, h63, ih _ _ hr91 hr92]
      · simp [matchChunkLoop, hc91, hc92, h63, ih _ _ hr91 hr92]

/-- On an ASCII name, `matchChunk` for a chunk without brackets and
backslashes is the byte-by-byte match `chunkPrefix`. -/
theorem matchChunkLoop_simple (fuel : Nat) (chunk s : GoString)
    (hfuel : chunk.length ≤ fuel) (h91 : 91 ∉ chunk) (h92 : 92 ∉ chunk) (hs : asciiName s) :
    matchChunkLoop fuel chunk s false
      = match chunkPrefix chunk s with
        | some t => (t, true, false)
        | none => ([], false, false) := by
  induction fuel generalizing chunk s with
  | zero =>
    have : chunk = [] := List.length_eq_zero.1 (Nat.le_zero.1 hfuel)
    subst this
    simp [matchChunkLoop, chunkPrefix]
  | succ fuel ih =>
    cases chunk with
    | nil => simp [matchChunkLoop, chunkPrefix]
    | cons c rest =>
      have hc91 : c ≠ 91 := fun h => h91 (by simp [h])
      have hc92 : c ≠ 92 := fun h => h92 (by simp [h])
      have hr91 : 91 ∉ rest := fun h => h91 (List.mem_cons_of_mem _ h)
      have hr92 : 92 ∉ rest := fun h => h92 (List.mem_cons_of_mem _ h)
      have hlen : rest.length ≤ fuel := by simpa using hfuel
      cases s with
      | nil =>
        by_cases h63 : c = 63
        · simp [matchChunkLoop, chunkPrefix, h63, matchChunkLoop_failed _ _ _ hr91 hr92]
        · simp [matchChunkLoop, chunkPrefix, hc91, hc92, h63,
            matchChunkLoop_failed _ _ _ hr91 hr92]
      | cons x s1 =>
        have hx : x < 128 := hs x (by simp)
        have hs1 : asciiName s1 := fun y hy => hs y (List.mem_cons_of_mem _ hy)
        by_cases h63 : c = 63
        · subst h63
          by_cases hsep : x = Separator
          · simp [matchChunkLoop, chunkPrefix, hsep, matchChunkLoop_failed _ _ _ hr91 hr92]
          · simp [matchChunkLoop, chunkPrefix, hsep, DecodeRuneInString_ascii x s1 hx,
              ih rest s1 hlen hr91 hr92 hs1]
        · by_cases hcx : c = x
          · subst hcx
            simp [matchChunkLoop, chunkPrefix, hc91, hc92, h63, ih rest s1 hlen hr91 hr92 hs1]
          · have hxc : ¬ x = c := fun h => hcx h.symm
            simp [matchChunkLoop, chunkPrefix, hc91, hc92, h63, hcx, hxc,
              matchChunkLoop_failed _ _ _ hr91 hr92]

theorem matchChunk_simple (chunk s : GoString)
    (h91 : 91 ∉ chunk) (h92 : 92 ∉ chunk) (hs : asciiName s) :
    matchChunk chunk s
      = match chunkPrefix chunk s with
        | some t => (t, true, false)
        | none => ([], false, false) :=
  matchChunkLoop_simple chunk.length chunk s (Nat.le_refl _) h91 h92 hs

/-! ### The wildcard match of the spec -/

theorem Glob.nil_iff (sep : Nat → Prop) (n : GoString) : Glob sep [] n ↔ n = [] := by
  constructor
  · intro h
    cases h
    rfl
  · intro h
    subst h
    exact Glob.nil

theorem Glob.star_iff (sep : Nat → Prop) (p n : GoString) :
    Glob sep (42 :: p) n ↔ ∃ run s, n = run ++ s ∧ (∀ c ∈ run, ¬ sep c) ∧ Glob sep p s := by
  constructor
  · intro h
    cases h with
    | star run hrun hrest => exact ⟨run, _, rfl, hrun, hrest⟩
    | lit c h42 _ _ => exact absurd rfl h42
  · rintro ⟨run, s, rfl, hrun, hrest⟩
    exact Glob.star run hrun hrest

theorem Glob.any_iff (sep : Nat → Prop) (p n : GoString) :
    Glob sep (63 :: p) n ↔ ∃ x s, n = x :: s ∧ ¬ sep x ∧ Glob sep p s := by
  constructor
  · intro h
    cases h with
    | any x hx hrest => exact ⟨x, _, rfl, hx, hrest⟩
    | lit c _ h63 _ => exact absurd rfl h63
  · rintro ⟨x, s, rfl, hx, hrest⟩
    exact Glob.any x hx hrest

theorem Glob.lit_iff (sep : Nat → Prop) (k : Nat) (p n : GoString) (h42 : k ≠ 42)
    (h63 : k ≠ 63) : Glob sep (k :: p) n ↔ ∃ s, n = k :: s ∧ Glob sep p s := by
  constructor
  · intro h
    cases h with
    | star run _ _ => exact absurd rfl h42
    | any x _ _ => exact absurd rfl h63
    | lit c _ _ hrest => exact ⟨_, rfl, hrest⟩
  · rintro ⟨s, rfl, hrest⟩
    exact Glob.lit k h42 h63 hrest

/-- A star absorbs a run without excluded bytes in front of what it matched. -/
theorem Glob.star_absorb (sep : Nat → Prop) (p t u : GoString) (hu : ∀ c ∈ u, ¬ sep c)
    (h : Glob sep (42 :: p) t) : Glob sep (42 :: p) (u ++ t) := by
  obtain ⟨run, s, rfl, hrun, hrest⟩ := (Glob.star_iff sep p t).1 h
  rw [← List.append_assoc]
  refine Glob.star (u ++ run) ?_ hrest
  intro c hc
  rcases List.mem_append.1 hc with hc | hc
  · exact hu c hc
  · exact hrun c hc

/-- Two stars in a row match what one star matches. -/
theorem Glob.star_star (sep : Nat → Prop) (p n : GoString) :
    Glob sep (42 :: 42 :: p) n ↔ Glob sep (42 :: p) n := by
  constructor
  · intro h
    obtain ⟨run, s, rfl, hrun, hrest⟩ := (Glob.star_iff sep _ n).1 h
    exact Glob.star_absorb sep p s run hrun hrest
  · intro h
    have := @Glob.star sep _ _ [] (by simp) h
    simpa using this

/-- Leading stars reduce to one. -/
theorem Glob.leading_stars (sep : Nat → Prop) (q n : GoString) :
    Glob sep (42 :: q) n ↔ Glob sep (42 :: q.dropWhile (fun c => c == 42)) n := by
  induction q with
  | nil => simp
  | cons c rest ih =>
    by_cases hc : c = 42
    · subst hc
      rw [Glob.star_star, ih]
      simp
    · simp [List.dropWhile_cons, hc]

/-- A lone star matches the names without excluded byte. -/
theorem Glob.only_star (sep : Nat → Prop) (n : GoString) :
    Glob sep [42] n ↔ ∀ c ∈ n, ¬ sep c := by
  rw [Glob.star_iff]
  constructor
  · rintro ⟨run, s, rfl, hrun, hrest⟩
    rw [(Glob.nil_iff sep s).1 hrest]
    simpa using hrun
  · intro h
    exact ⟨n, [], by simp, h, Glob.nil⟩

/-- A chunk without star in front of a pattern: the chunk matches the
beginning of the name byte by byte and the pattern matches the remainder. -/
theorem Glob.chunk_iff (chunk rest n : GoString) (h42 : 42 ∉ chunk) :
    GlobNoSeparator (chunk ++ rest) n
      ↔ ∃ t, chunkPrefix chunk n = some t ∧ GlobNoSeparator rest t := by
  induction chunk generalizing n with
  | nil => simp [chunkPrefix]
  | cons k chunk1 ih =>
    have hk42 : k ≠ 42 := fun h => h42 (by simp [h])
    have h42' : 42 ∉ chunk1 := fun h => h42 (List.mem_cons_of_mem _ h)
    by_cases h63 : k = 63
    · subst h63
      rw [List.cons_append, GlobNoSeparator, Glob.any_iff]
      constructor
      · rintro ⟨x, s, rfl, hx, hrest⟩
        obtain ⟨t, ht, hg⟩ := (ih s h42').1 hrest
        exact ⟨t, by simp [chunkPrefix, hx, ht], hg⟩
      · rintro ⟨t, ht, hg⟩
        cases n with
        | nil => simp [chunkPrefix] at ht
        | cons x s =>
          by_cases hx : x = Separator
          · simp [chunkPrefix, hx] at ht
          · simp only [chunkPrefix, hx, if_true, if_false] at ht
            exact ⟨x, s, rfl, hx, (ih s h42').2 ⟨t, ht, hg⟩⟩
    · rw [List.cons_append, GlobNoSeparator, Glob.lit_iff _ k _ _ hk42 h63]
      constructor
      · rintro ⟨s, rfl, hrest⟩
        obtain ⟨t, ht, hg⟩ := (ih s h42').1 hrest
        exact ⟨t, by simp [chunkPrefix, h63, ht], hg⟩
      · rintro ⟨t, ht, hg⟩
        cases n with
        | nil => simp [chunkPrefix] at ht
        | cons x s =>
          by_cases hx : k = x
          · subst hx
            simp only [chunkPrefix, h63, if_true, if_false] at ht
            exact ⟨s, rfl, (ih s h42').2 ⟨t, ht, hg⟩⟩
          · simp [chunkPrefix, h63, hx] at ht

/-- What a byte-by-byte match of a chunk says about the name: the remainder is
the name without its first `len(chunk)` bytes, and a `/` of the name meets a
`/` of the chunk, and conversely. -/
theorem chunkPrefix_spec (chunk s t : GoString) (h : chunkPrefix chunk s = some t) :
    chunk.length ≤ s.length ∧ t = s.drop chunk.length ∧
    ∀ (j c x : Nat), chunk[j]? = some c → s[j]? = some x →
      (c = Separator ↔ x = Separator) := by
  induction chunk generalizing s with
  | nil =>
    simp only [chunkPrefix, Option.some.injEq] at h
    simp [h]
  | cons k chunk1 ih =>
    cases s with
    | nil => simp [chunkPrefix] at h
    | cons y s1 =>
      have hstep : chunkPrefix chunk1 s1 = some t ∧ (k = Separator ↔ y = Separator) := by
        by_cases h63 : k = 63
        · subst h63
          by_cases hy : y = Separator
          · simp [chunkPrefix, hy] at h
          · simp only [chunkPrefix, hy, if_true, if_false] at h
            exact ⟨h, ⟨fun hk => absurd hk (by decide), fun hy1 => absurd hy1 hy⟩⟩
        · by_cases hky : k = y
          · subst hky
            simp only [chunkPrefix, h63, if_true, if_false] at h
            exact ⟨h, Iff.rfl⟩
          · simp [chunkPrefix, h63, hky] at h
      obtain ⟨h1, h2, h3⟩ := ih s1 hstep.1
      refine ⟨by simpa using h1, by simpa using h2, ?_⟩
      intro j c x hc hx
      cases j with
      | zero =>
        simp only [List.getElem?_cons_zero, Option.some.injEq] at hc hx
        subst hc hx
        exact hstep.2
      | succ j =>
        simp only [List.getElem?_cons_succ] at hc hx
        exact h3 j c x hc hx

/-- When a chunk matches at the beginning of a name and again after a run
without `/`, no `/` lies between the ends of the two matches. -/
theorem chunkPrefix_overlap (chunk run s t0 t : GoString)
    (hrun : ∀ c ∈ run, c ≠ Separator)
    (h0 : chunkPrefix chunk (run ++ s) = some t0)
    (h1 : chunkPrefix chunk s = some t) :
    ∃ u, t0 = u ++ t ∧ ∀ c ∈ u, c ≠ Separator := by
  rcases Nat.eq_zero_or_pos run.length with hz | hpos
  · -- the run is empty: the two matches are the same
    have hrn : run = [] := List.length_eq_zero.1 hz
    subst hrn
    rw [List.nil_append, h1] at h0
    exact ⟨[], by simpa using h0.symm, by simp⟩
  obtain ⟨hlen0, ht0, hm0⟩ := chunkPrefix_spec chunk (run ++ s) t0 h0
  obtain ⟨hlen1, ht1, hm1⟩ := chunkPrefix_spec chunk s t h1
  -- no `/` among the bytes the second match covers
  have key : ∀ j, j < chunk.length → (run ++ s)[run.length + j]? ≠ some Separator := by
    intro j
    induction j using Nat.strong_induction_on with
    | _ j ih =>
      intro hj hsep
      have hcj : chunk[j]? = some chunk[j] := List.getElem?_eq_getElem hj
      have hsj : s[j]? = some Separator := by
        rw [List.getElem?_append_right (Nat.le_add_right _ _)] at hsep
        simpa using hsep
      have hc : chunk[j] = Separator := (hm1 j _ _ hcj hsj).2 rfl
      have hj0 : j < (run ++ s).length := Nat.lt_of_lt_of_le hj hlen0
      have hx : (run ++ s)[j]? = some (run ++ s)[j] := List.getElem?_eq_getElem hj0
      have hxs : (run ++ s)[j] = Separator := (hm0 j _ _ hcj hx).1 hc
      rw [hxs] at hx
      rcases Nat.lt_or_ge j run.length with hlt | hge
      · rw [List.getElem?_append_left hlt] at hx
        exact hrun Separator (List.mem_iff_getElem?.2 ⟨_, hx⟩) rfl
      · have hjk : run.length + (j - run.length) = j := by omega
        exact ih (j - run.length) (by omega) (by omega) (by rw [hjk]; exact hx)
  refine ⟨((run ++ s).drop chunk.length).take run.length, ?_, ?_⟩
  · rw [ht0, ht1]
    have hs : List.drop chunk.length s
        = List.drop run.length (List.drop chunk.length (run ++ s)) := by
      rw [List.drop_drop, ← List.drop_append chunk.length]
      congr 1
      omega
    rw [hs]
    exact (List.take_append_drop run.length _).symm
  · intro c hc hsep
    subst hsep
    obtain ⟨i, hi⟩ := List.mem_iff_getElem?.1 hc
    have hik : i < run.length := by
      by_contra hge
      rw [List.getElem?_take_eq_none (Nat.le_of_not_lt hge)] at hi
      exact absurd hi (by simp)
    rw [List.getElem?_take_of_lt hik, List.getElem?_drop] at hi
    rcases Nat.lt_or_ge (chunk.length + i) run.length with hlt | hge
    · rw [List.getElem?_append_left hlt] at hi
      exact hrun Separator (List.mem_iff_getElem?.2 ⟨_, hi⟩) rfl
    · have hjk : run.length + (chunk.length + i - run.length) = chunk.length + i := by omega
      exact key (chunk.length + i - run.length) (by omega) (by rw [hjk]; exact hi)

theorem asciiName_of_chunkPrefix (chunk s t : GoString) (hs : asciiName s)
    (h : chunkPrefix chunk s = some t) : asciiName t := by
  rw [(chunkPrefix_spec chunk s t h).2.1]
  intro c hc
  exact hs c (List.mem_of_mem_drop hc)

/-- One step of the inner loop of `Match` on an ASCII name, for a chunk
without brackets and backslashes. -/
theorem starScan_cons (chunk : GoString) (last : Bool) (c : Nat) (name : GoString)
    (h91 : 91 ∉ chunk) (h92 : 92 ∉ chunk) (hs : asciiName name) :
    starScan chunk last (c :: name)
      = if c = Separator then StarScan.notFound
        else match chunkPrefix chunk name with
          | some t =>
            if last = true ∧ t ≠ [] then starScan chunk last name else StarScan.found t
          | none => starScan chunk last name := by
  rw [starScan, matchChunk_simple chunk name h91 h92 hs]
  by_cases hc : c = Separator
  · simp [hc]
  · cases hm : chunkPrefix chunk name with
    | none => simp [hc]
    | some t =>
      cases last <;> simp [hc, List.length_pos]

/-- What the inner loop finds is a match of the chunk after a non-empty run
without `/`. -/
theorem starScan_sound (chunk : GoString) (last : Bool) (name t0 : GoString)
    (h91 : 91 ∉ chunk) (h92 : 92 ∉ chunk) (hs : asciiName name)
    (h : starScan chunk last name = StarScan.found t0) :
    ∃ run s, name = run ++ s ∧ run ≠ [] ∧ (∀ c ∈ run, c ≠ Separator) ∧
      chunkPrefix chunk s = some t0 ∧ (last = true → t0 = []) := by
  induction name with
  | nil => simp [starScan] at h
  | cons c name1 ih =>
    have hs1 : asciiName name1 := fun y hy => hs y (List.mem_cons_of_mem _ hy)
    rw [starScan_cons chunk last c name1 h91 h92 hs1] at h
    by_cases hc : c = Separator
    · simp [hc] at h
    · simp only [hc, if_false] at h
      have hlater : starScan chunk last name1 = StarScan.found t0 →
          ∃ run s, c :: name1 = run ++ s ∧ run ≠ [] ∧ (∀ c ∈ run, c ≠ Separator) ∧
            chunkPrefix chunk s = some t0 ∧ (last = true → t0 = []) := by
        intro h1
        obtain ⟨run, s, hn, _, hrun, hm, hl⟩ := ih hs1 h1
        refine ⟨c :: run, s, by simp [hn], by simp, ?_, hm, hl⟩
        intro x hx
        rcases List.mem_cons.1 hx with rfl | hx
        · exact hc
        · exact hrun x hx
      cases hm : chunkPrefix chunk name1 with
      | none =>
        rw [hm] at h
        exact hlater h
      | some t =>
        rw [hm] at h
        dsimp only at h
        by_cases hcond : last = true ∧ t ≠ []
        · rw [if_pos hcond] at h
          exact hlater h
        · rw [if_neg hcond] at h
          simp only [StarScan.found.injEq] at h
          subst h
          refine ⟨[c], name1, rfl, by simp, by simpa using hc, hm, ?_⟩
          intro hl
          by_contra hne
          exact hcond ⟨hl, hne⟩

/-- The inner loop never reports a bad pattern for a chunk without brackets
and backslashes. -/
theorem starScan_not_bad (chunk : GoString) (last : Bool) (name : GoString)
    (h91 : 91 ∉ chunk) (h92 : 92 ∉ chunk) (hs : asciiName name) :
    starScan chunk last name ≠ StarScan.bad := by
  induction name with
  | nil => simp [starScan]
  | cons c name1 ih =>
    have hs1 : asciiName name1 := fun y hy => hs y (List.mem_cons_of_mem _ hy)
    rw [starScan_cons chunk last c name1 h91 h92 hs1]
    by_cases hc : c = Separator
    · simp [hc]
    · simp only [hc, if_false]
      cases hm : chunkPrefix chunk name1 with
      | none => exact ih hs1
      | some t =>
        dsimp only
        by_cases hcond : last = true ∧ t ≠ []
        · rw [if_pos hcond]
          exact ih hs1
        · rw [if_neg hcond]
          simp

/-- The match the inner loop stops at is as good as any later one: if the
rest of the pattern matches after some match of the chunk, it matches after
the first one the loop accepts. -/
theorem starScan_complete (chunk rest : GoString) (name run s t : GoString)
    (h91 : 91 ∉ chunk) (h92 : 92 ∉ chunk) (hs : asciiName name)
    (hrest : rest = [] ∨ ∃ r, rest = 42 :: r)
    (hn : name = run ++ s) (hne : run ≠ []) (hrun : ∀ c ∈ run, c ≠ Separator)
    (hm : chunkPrefix chunk s = some t) (hg : GlobNoSeparator rest t) :
    ∃ t0, starScan chunk (decide (rest = [])) name = StarScan.found t0 ∧
      GlobNoSeparator rest t0 := by
  induction name generalizing run with
  | nil =>
    cases run with
    | nil => exact absurd rfl hne
    | cons c run1 => simp at hn
  | cons c name1 ih =>
    have hs1 : asciiName name1 := fun y hy => hs y (List.mem_cons_of_mem _ hy)
    cases run with
    | nil => exact absurd rfl hne
    | cons c1 run1 =>
      simp only [List.cons_append, List.cons.injEq] at hn
      obtain ⟨hc, hn1⟩ := hn
      subst hc
      have hcsep : c ≠ Separator := hrun c (by simp)
      have hrun1 : ∀ x ∈ run1, x ≠ Separator := fun x hx => hrun x (List.mem_cons_of_mem _ hx)
      rw [starScan_cons chunk _ c name1 h91 h92 hs1]
      simp only [hcsep, if_false]
      cases hm1 : chunkPrefix chunk name1 with
      | none =>
        have hne1 : run1 ≠ [] := by
          intro h
          subst h
          simp only [List.nil_append] at hn1
          rw [hn1, hm] at hm1
          exact absurd hm1 (by simp)
        exact ih run1 hs1 hn1 hne1 hrun1
      | some t1 =>
        dsimp only
        by_cases hcond : decide (rest = []) = true ∧ t1 ≠ []
        · rw [if_pos hcond]
          have hne1 : run1 ≠ [] := by
            intro h
            subst h
            simp only [List.nil_append] at hn1
            rw [hn1, hm] at hm1
            simp only [Option.some.injEq] at hm1
            have hr : rest = [] := of_decide_eq_true hcond.1
            rw [hr] at hg
            have := (Glob.nil_iff _ t).1 hg
            exact hcond.2 (by rw [← hm1, this])
          exact ih run1 hs1 hn1 hne1 hrun1
        · rw [if_neg hcond]
          refine ⟨t1, rfl, ?_⟩
          rw [hn1] at hm1
          obtain ⟨u, hu, husep⟩ := chunkPrefix_overlap chunk run1 s t1 t hrun1 hm1 hm
          rcases hrest with hr | ⟨r, hr⟩
          · subst hr
            have ht1 : t1 = [] := by
              by_contra hne
              exact hcond ⟨by simp, hne⟩
            rw [ht1]
            exact Glob.nil
          · subst hr
            rw [hu]
            exact Glob.star_absorb _ r t u husep hg

theorem mem_of_mem_dropWhile {q : Nat → Bool} {l : GoString} {x : Nat}
    (h : x ∈ l.dropWhile q) : x ∈ l :=
  (List.dropWhile_sublist q).subset h

theorem mem_of_mem_takeWhile {q : Nat → Bool} {l : GoString} {x : Nat}
    (h : x ∈ l.takeWhile q) : x ∈ l :=
  (List.takeWhile_sublist q).subset h

/-- On a pattern without brackets and backslashes `scanChunk` drops the
leading stars and cuts at the next star. -/
theorem scanChunk_simple (p : GoString) (h91 : 91 ∉ p) (h92 : 92 ∉ p) :
    scanChunk p = (p.head? == some 42,
      (p.dropWhile (fun c => c == 42)).takeWhile (fun c => c != 42),
      (p.dropWhile (fun c => c == 42)).dropWhile (fun c => c != 42)) := by
  have h := scanIndex_simple (p.dropWhile (fun c => c == 42))
    (fun hm => h91 (mem_of_mem_dropWhile hm)) (fun hm => h92 (mem_of_mem_dropWhile hm))
  simp only [scanChunk, h.1, h.2]

/-- What follows a chunk is empty or starts with a star. -/
theorem dropWhile_ne_star (l : GoString) :
    l.dropWhile (fun c => c != 42) = [] ∨ ∃ r, l.dropWhile (fun c => c != 42) = 42 :: r := by
  induction l with
  | nil => simp
  | cons c rest ih =>
    by_cases hc : c = 42
    · subst hc
      exact Or.inr ⟨rest, by simp⟩
    · simpa [List.dropWhile_cons, hc] using ih

/-- After the leading stars, a pattern is empty or starts with another byte. -/
theorem takeWhile_ne_star_of_dropWhile (l : GoString)
    (h : (l.dropWhile (fun c => c == 42)).takeWhile (fun c => c != 42) = []) :
    l.dropWhile (fun c => c == 42) = [] := by
  induction l with
  | nil => simp
  | cons c rest ih =>
    by_cases hc : c = 42
    · subst hc
      simpa using ih (by simpa using h)
    · simp [List.dropWhile_cons, List.takeWhile_cons, hc] at h

theorem length_dropWhile_le (q : Nat → Bool) (l : GoString) :
    (l.dropWhile q).length ≤ l.length :=
  (List.dropWhile_sublist q).length_le

/-- Refinement: on a pattern made of `*`, `?` and literal bytes and an ASCII
name, the `Pattern:` loop of `filepath.Match` decides the wildcard match in
which `*` and `?` do not match `/`. -/
theorem MatchLoop_simple (fuel : Nat) (p n : GoString) (hfuel : p.length ≤ fuel)
    (h91 : 91 ∉ p) (h92 : 92 ∉ p) (hn : asciiName n) :
    (MatchLoop fuel p n).1 = true ↔ GlobNoSeparator p n := by
  induction fuel generalizing p n with
  | zero =>
    have : p = [] := List.length_eq_zero.1 (Nat.le_zero.1 hfuel)
    subst this
    simp [MatchLoop, GlobNoSeparator, Glob.nil_iff]
  | succ fuel ih =>
    by_cases hp : p = []
    · subst hp
      simp [MatchLoop, GlobNoSeparator, Glob.nil_iff]
    · have hsplit : p.dropWhile (fun c => c == 42)
          = (p.dropWhile (fun c => c == 42)).takeWhile (fun c => c != 42)
            ++ (p.dropWhile (fun c => c == 42)).dropWhile (fun c => c != 42) :=
        (List.takeWhile_append_dropWhile _ _).symm
      generalize hp1 : p.dropWhile (fun c => c == 42) = p1 at hsplit
      generalize hchunk : p1.takeWhile (fun c => c != 42) = chunk at hsplit
      generalize hrest : p1.dropWhile (fun c => c != 42) = rest at hsplit
      have hp1mem : ∀ x, x ∈ p1 → x ∈ p := fun x hx => by
        rw [← hp1] at hx
        exact mem_of_mem_dropWhile hx
      have hc91 : 91 ∉ chunk := fun h => h91 (hp1mem _ (by
        rw [← hchunk] at h; exact mem_of_mem_takeWhile h))
      have hc92 : 92 ∉ chunk := fun h => h92 (hp1mem _ (by
        rw [← hchunk] at h; exact mem_of_mem_takeWhile h))
      have hc42 : 42 ∉ chunk := fun h => by
        rw [← hchunk] at h
        have := List.mem_takeWhile_imp h
        simp at this
      have hr91 : 91 ∉ rest := fun h => h91 (hp1mem _ (by
        rw [← hrest] at h; exact mem_of_mem_dropWhile h))
      have hr92 : 92 ∉ rest := fun h => h92 (hp1mem _ (by
        rw [← hrest] at h; exact mem_of_mem_dropWhile h))
      have hshape : rest = [] ∨ ∃ r, rest = 42 :: r := by
        rw [← hrest]; exact dropWhile_ne_star p1
      have hlen : rest.length ≤ fuel := by
        have h1 : p1.length = chunk.length + rest.length := by rw [hsplit]; simp
        have h2 : p1.length ≤ p.length := by rw [← hp1]; exact length_dropWhile_le _ _
        have h3 : chunk ≠ [] ∨ p1.length < p.length := by
          cases p with
          | nil => exact absurd rfl hp
          | cons c q =>
            by_cases hc : c = 42
            · right
              rw [← hp1]
              simp only [List.dropWhile_cons, hc, beq_self_eq_true, if_true, List.length_cons]
              exact Nat.lt_succ_of_le (length_dropWhile_le _ _)
            · left
              rw [← hchunk, ← hp1]
              simp [List.dropWhile_cons, List.takeWhile_cons, hc]
        rcases h3 with h3 | h3
        · have : 0 < chunk.length := List.length_pos.2 h3
          omega
        · omega
      have hih : ∀ t, asciiName t →
          ((MatchLoop fuel rest t).1 = true ↔ GlobNoSeparator rest t) :=
        fun t ht => ih rest t hlen hr91 hr92 ht
      have hlast : ∀ t, GlobNoSeparator rest t → (t = [] ∨ rest ≠ []) := by
        intro t hg
        by_cases hr : rest = []
        · left
          rw [hr] at hg
          exact (Glob.nil_iff _ t).1 hg
        · exact Or.inr hr
      rw [MatchLoop]
      simp only [hp, if_false]
      rw [scanChunk_simple p h91 h92, hp1, hchunk, hrest]
      dsimp only
      rw [matchChunk_simple chunk n hc91 hc92 hn]
      cases hstar : (p.head? == some 42)
      · -- the pattern does not start with a star
        have hpp1 : p1 = p := by
          rw [← hp1]
          cases p with
          | nil => rfl
          | cons c q =>
            have hc : c ≠ 42 := by
              intro hc
              simp [hc] at hstar
            simp [List.dropWhile_cons, hc]
        have hg : GlobNoSeparator p n
            ↔ ∃ t, chunkPrefix chunk n = some t ∧ GlobNoSeparator rest t := by
          rw [← hpp1, hsplit]
          exact Glob.chunk_iff chunk rest n hc42
        rw [hg]
        simp only [Bool.false_eq_true, false_and, if_false]
        cases hm : chunkPrefix chunk n with
        | none => simp
        | some t =>
          have ht : asciiName t := asciiName_of_chunkPrefix chunk n t hn hm
          by_cases hcond : t = [] ∨ rest ≠ []
          · simp only [true_and, hcond, if_true, Option.some.injEq, exists_eq_left']
            exact hih t ht
          · simp only [true_and, hcond, if_false, Option.some.injEq, exists_eq_left']
            constructor
            · intro h
              exact absurd h (by simp)
            · intro h
              exact absurd (hlast t h) hcond
      · -- the pattern starts with a star
        have hg : GlobNoSeparator p n
            ↔ ∃ run s, n = run ++ s ∧ (∀ c ∈ run, c ≠ Separator) ∧
              ∃ t, chunkPrefix chunk s = some t ∧ GlobNoSeparator rest t := by
          cases p with
          | nil => exact absurd rfl hp
          | cons c q =>
            have hc : c = 42 := by simpa using hstar
            subst hc
            have hq : q.dropWhile (fun c => c == 42) = p1 := by
              rw [← hp1]; simp
            rw [GlobNoSeparator, Glob.leading_stars, hq, hsplit, Glob.star_iff]
            constructor
            · rintro ⟨run, s, hns, hrun, hgs⟩
              exact ⟨run, s, hns, hrun, (Glob.chunk_iff chunk rest s hc42).1 hgs⟩
            · rintro ⟨run, s, hns, hrun, hgs⟩
              exact ⟨run, s, hns, hrun, (Glob.chunk_iff chunk rest s hc42).2 hgs⟩
        rw [hg]
        by_cases hce : chunk = []
        · -- trailing star
          subst hce
          have hr : rest = [] := by
            have := takeWhile_ne_star_of_dropWhile p (by rw [hp1]; exact hchunk)
            rw [hp1] at this
            rw [← hrest, this]
            rfl
          subst hr
          simp only [true_and, if_true]
          constructor
          · intro h
            refine ⟨n, [], by simp, ?_, [], by simp [chunkPrefix], Glob.nil⟩
            intro c hc hsep
            subst hsep
            have hnot : Separator ∉ n := by simpa using h
            exact hnot hc
          · rintro ⟨run, s, hns, hrun, t, hm, hgt⟩
            simp only [chunkPrefix, Option.some.injEq] at hm
            have ht := (Glob.nil_iff _ t).1 hgt
            subst hm ht hns
            simp only [List.append_nil, Bool.not_eq_true', List.contains_eq_any_beq,
              List.any_eq_false, beq_iff_eq]
            intro x hx hxs
            exact hrun x hx hxs.symm
        · simp only [hce, and_false, if_false, true_and]
          -- the scan for a later match
          have hscan_sound : ∀ t2, starScan chunk (decide (rest = [])) n = StarScan.found t2 →
              (MatchLoop fuel rest t2).1 = true →
              ∃ run s, n = run ++ s ∧ (∀ c ∈ run, c ≠ Separator) ∧
                ∃ t, chunkPrefix chunk s = some t ∧ GlobNoSeparator rest t := by
            intro t2 hf hml
            obtain ⟨run, s, hns, _, hrun, hm, _⟩ :=
              starScan_sound chunk _ n t2 hc91 hc92 hn hf
            have hs : asciiName s := fun c hc => hn c (by rw [hns]; simp [hc])
            exact ⟨run, s, hns, hrun, t2, hm,
              (hih t2 (asciiName_of_chunkPrefix chunk s t2 hs hm)).1 hml⟩
          have hscan : (match starScan chunk (decide (rest = [])) n with
                | StarScan.found t2 => MatchLoop fuel rest t2
                | StarScan.bad => (false, true)
                | StarScan.notFound => (false, false)).1 = true →
              ∃ run s, n = run ++ s ∧ (∀ c ∈ run, c ≠ Separator) ∧
                ∃ t, chunkPrefix chunk s = some t ∧ GlobNoSeparator rest t := by
            intro h
            cases hf : starScan chunk (decide (rest = [])) n with
            | found t2 =>
              rw [hf] at h
              exact hscan_sound t2 hf h
            | bad => rw [hf] at h; exact absurd h (by simp)
            | notFound => rw [hf] at h; exact absurd h (by simp)
          have hscan_complete : ∀ run s t, n = run ++ s → run ≠ [] →
              (∀ c ∈ run, c ≠ Separator) → chunkPrefix chunk s = some t →
              GlobNoSeparator rest t →
              (match starScan chunk (decide (rest = [])) n with
                | StarScan.found t2 => MatchLoop fuel rest t2
                | StarScan.bad => (false, true)
                | StarScan.notFound => (false, false)).1 = true := by
            intro run s t hns hne hrun hm hgt
            obtain ⟨t0, hf, hg0⟩ := starScan_complete chunk rest n run s t hc91 hc92 hn
              hshape hns hne hrun hm hgt
            rw [hf]
            obtain ⟨run0, s0, hns0, _, _, hm0, _⟩ :=
              starScan_sound chunk _ n t0 hc91 hc92 hn hf
            have hs0 : asciiName s0 := fun c hc => hn c (by rw [hns0]; simp [hc])
            exact (hih t0 (asciiName_of_chunkPrefix chunk s0 t0 hs0 hm0)).2 hg0
          cases hm : chunkPrefix chunk n with
          | none =>
            dsimp only
            simp only [Bool.false_eq_true, false_and, if_false]
            constructor
            · exact hscan
            · rintro ⟨run, s, hns, hrun, t, hmt, hgt⟩
              have hne : run ≠ [] := by
                intro h
                subst h
                simp only [List.nil_append] at hns
                rw [← hns, hm] at hmt
                exact absurd hmt (by simp)
              exact hscan_complete run s t hns hne hrun hmt hgt
          | some t1 =>
            have ht1 : asciiName t1 := asciiName_of_chunkPrefix chunk n t1 hn hm
            dsimp only
            by_cases hcond : t1 = [] ∨ rest ≠ []
            · simp only [true_and, hcond, if_true]
              rw [hih t1 ht1]
              constructor
              · intro h
                exact ⟨[], n, rfl, by simp, t1, hm, h⟩
              · rintro ⟨run, s, hns, hrun, t, hmt, hgt⟩
                rw [hns] at hm
                obtain ⟨u, hu, husep⟩ := chunkPrefix_overlap chunk run s t1 t hrun hm hmt
                rcases hshape with hr | ⟨r, hr⟩
                · subst hr
                  have : t1 = [] := by
                    rcases hcond with h | h
                    · exact h
                    · exact absurd rfl h
                  rw [this]
                  exact Glob.nil
                · subst hr
                  rw [hu]
                  exact Glob.star_absorb _ r t u husep hgt
            · simp only [true_and, hcond, if_false, Bool.false_eq_true]
              constructor
              · exact hscan
              · rintro ⟨run, s, hns, hrun, t, hmt, hgt⟩
                have hne : run ≠ [] := by
                  intro h
                  subst h
                  simp only [List.nil_append] at hns
                  rw [← hns, hm] at hmt
                  simp only [Option.some.injEq] at hmt
                  subst hmt
                  exact hcond (hlast t1 hgt)
                exact hscan_complete run s t hns hne hrun hmt hgt

/-- Refinement: `filepath.Match` on a pattern made of `*`, `?` and literal
bytes and an ASCII name reports no error and decides the wildcard match in
which `*` and `?` do not match `/`. -/
theorem Match_simple (p n : GoString) (hp : simplePattern p) (hn : asciiName n) :
    (Match p n).1 = true ↔ GlobNoSeparator p n :=
  MatchLoop_simple p.length p n (Nat.le_refl _) hp.1 hp.2 hn

theorem written_mounted (remote : GoString) (conf : Conf) (root : GoString)
    (ms : List RemoteBucket) :
    written (ms.flatMap (mountedSteps remote conf root : RemoteBucket → List (Call E Conf Client)))
      = ms.map bucketLine := by
  induction ms with
  | nil => rfl
  | cons b rest ih =>
    rw [List.flatMap_cons, written_append, ih]
    simp [mountedSteps, written]

/-- On ASCII names and a non-empty pattern made of `*`, `?` and literal bytes,
the retained buckets are those a predicate deciding the wildcard match
selects, in listing order and with multiplicity. -/
theorem matching_eq_filter (p : GoString) (buckets : List RemoteBucket)
    (hp : p ≠ []) (hsimple : simplePattern p) (hascii : ∀ b ∈ buckets, asciiName b.Name)
    (keep : RemoteBucket → Bool)
    (hkeep : ∀ b ∈ buckets, keep b = true ↔ GlobNoSeparator p b.Name) :
    matching p buckets = buckets.filter keep := by
  unfold matching
  apply List.filter_congr
  intro b hb
  have h1 := Match_simple p b.Name hsimple (hascii b hb)
  have h2 := hkeep b hb
  simp only [hp, decide_False, Bool.false_or]
  cases hk : keep b with
  | true => exact h1.2 (h2.1 hk)
  | false =>
    cases hm : (Match p b.Name).1 with
    | false => rfl
    | true =>
      have := h2.2 (h1.1 hm)
      rw [hk] at this
      exact absurd this (by simp)

/-- On the sample listing, the names that match `logs-*` are those that start
with `logs-`. -/
theorem sample_logs_star :
    ∀ b ∈ sampleBuckets,
      (ascii "logs-").isPrefixOf b.Name = true ↔ GlobNoSeparator (ascii "logs-*") b.Name := by
  intro b hb
  have hsimple : simplePattern (ascii "logs-*") := by decide
  have hascii : asciiName b.Name := by
    revert b
    decide
  rw [← Match_simple (ascii "logs-*") b.Name hsimple hascii]
  revert b
  decide

/-! ### Well-formed patterns -/

theorem leadSize_cases (s0 : Nat) : leadSize s0 = 2 ∨ leadSize s0 = 3 ∨ leadSize s0 = 4 := by
  unfold leadSize
  split_ifs <;> simp

/-- The width of a decoded rune: at least one byte of a non-empty string, and
no more bytes than the string has. -/
theorem DecodeRuneInString_width (s : GoString) (hs : s ≠ []) :
    1 ≤ (DecodeRuneInString s).2 ∧ (DecodeRuneInString s).2 ≤ s.length := by
  rcases s with _ | ⟨s0, _ | ⟨s1, _ | ⟨s2, _ | ⟨s3, t⟩⟩⟩⟩
  · exact absurd rfl hs
  all_goals
    simp only [DecodeRuneInString, List.length_cons, List.length_nil]
    split_ifs <;> simp

/-- A valid decoding reads exactly the bytes of the rune. -/
theorem DecodeRuneInString_take (s : GoString)
    (hv : ¬ ((DecodeRuneInString s).1 = RuneError ∧ (DecodeRuneInString s).2 = 1)) :
    DecodeRuneInString (s.take (DecodeRuneInString s).2) = DecodeRuneInString s := by
  cases s with
  | nil => rfl
  | cons s0 t =>
    have hsz := leadSize_cases s0
    by_cases h0 : s0 < 128
    · simp [DecodeRuneInString, h0]
    by_cases h1 : s0 < 194 ∨ 244 < s0
    · exact absurd (by simp [DecodeRuneInString, h0, h1]) hv
    cases t with
    | nil =>
      have hl : 1 < leadSize s0 := by omega
      exact absurd (by simp [DecodeRuneInString, h0, h1, hl]) hv
    | cons s1 t1 =>
      by_cases ha : acceptSecond s0 s1 = true
      swap
      · have ha1 : acceptSecond s0 s1 = false := by simpa using ha
        exact absurd (by simp [DecodeRuneInString, h0, h1, ha1]) hv
      by_cases h2 : leadSize s0 ≤ 2
      · have hl : ¬ (t1.length + 1 + 1 < leadSize s0) := by omega
        have hl2 : ¬ (2 < leadSize s0) := by omega
        simp [DecodeRuneInString, h0, h1, hl, ha, h2, hl2]
      cases t1 with
      | nil =>
        have hl : 2 < leadSize s0 := by omega
        exact absurd (by simp [DecodeRuneInString, h0, h1, hl]) hv
      | cons s2 t2 =>
        by_cases hc2 : isCont s2 = true
        swap
        · have hc21 : isCont s2 = false := by simpa using hc2
          exact absurd (by simp [DecodeRuneInString, h0, h1, ha, h2, hc21]) hv
        by_cases h3 : leadSize s0 ≤ 3
        · have hl : ¬ (t2.length + 1 + 1 + 1 < leadSize s0) := by omega
          have hl3 : ¬ (3 < leadSize s0) := by omega
          simp [DecodeRuneInString, h0, h1, hl, ha, h2, hc2, h3, hl3]
        cases t2 with
        | nil =>
          have hl : 3 < leadSize s0 := by omega
          exact absurd (by simp [DecodeRuneInString, h0, h1, hl]) hv
        | cons s3 t3 =>
          by_cases hc3 : isCont s3 = true
          swap
          · have hc31 : isCont s3 = false := by simpa using hc3
            exact absurd (by simp [DecodeRuneInString, h0, h1, ha, h2, hc2, h3, hc31]) hv
          have hl : ¬ (t3.length + 1 + 1 + 1 + 1 < leadSize s0) := by omega
          have hl4 : ¬ (4 < leadSize s0) := by omega
          simp [DecodeRuneInString, h0, h1, hl, ha, h2, hc2, h3, hc3, hl4]

theorem classItem_ne_nil {item : GoString} (h : ClassItem item) : item ≠ [] := by
  cases h with
  | plain _ hv _ _ _ => exact hv.1
  | escaped _ _ => simp

theorem classRange_ne_nil {r : GoString} (h : ClassRange r) : r ≠ [] := by
  cases h with
  | single h1 => exact classItem_ne_nil h1
  | range h1 _ =>
    intro h
    exact classItem_ne_nil h1 (List.append_eq_nil.1 h).1

theorem classRanges_ne_nil {rs : GoString} (h : ClassRanges rs) : rs ≠ [] := by
  cases h with
  | one h1 => exact classRange_ne_nil h1
  | more h1 _ =>
    intro h
    exact classRange_ne_nil h1 (List.append_eq_nil.1 h).1

/-- When `getEsc` reports no error it has read one character of a class, and
something follows it. -/
theorem getEsc_ok (chunk : GoString) (r : Nat) (nchunk : GoString)
    (h : getEsc chunk = (r, nchunk, false)) :
    ∃ item, chunk = item ++ nchunk ∧ ClassItem item ∧ nchunk ≠ [] := by
  cases chunk with
  | nil => simp [getEsc] at h
  | cons c rest =>
    by_cases h1 : c = 45 ∨ c = 93
    · simp [getEsc, h1] at h
    have hc45 : c ≠ 45 := fun hc => h1 (Or.inl hc)
    have hc93 : c ≠ 93 := fun hc => h1 (Or.inr hc)
    -- the string the rune is decoded from
    have key : ∀ chunk1 : GoString, chunk1 ≠ [] →
        (DecodeRuneInString chunk1).1 = r →
        chunk1.drop (DecodeRuneInString chunk1).2 = nchunk →
        ¬ ((DecodeRuneInString chunk1).1 = RuneError ∧ (DecodeRuneInString chunk1).2 = 1) →
        chunk1 = chunk1.take (DecodeRuneInString chunk1).2 ++ nchunk ∧
          validRune (chunk1.take (DecodeRuneInString chunk1).2) := by
      intro chunk1 hne _ hd hv
      have hw := DecodeRuneInString_width chunk1 hne
      have ht := DecodeRuneInString_take chunk1 hv
      refine ⟨by rw [← hd]; exact (List.take_append_drop _ _).symm, ?_, ?_, ?_⟩
      · intro hnil
        have := congrArg List.length hnil
        rw [List.length_take] at this
        simp only [List.length_nil] at this
        omega
      · rw [ht, List.length_take]
        omega
      · rw [ht]
        exact hv
    by_cases h92 : c = 92
    · subst h92
      cases rest with
      | nil => simp [getEsc] at h
      | cons d rest1 =>
        simp only [getEsc, h1, if_false, if_true, reduceCtorEq, and_false,
          Prod.mk.injEq, Bool.or_eq_false_iff, decide_eq_false_iff_not] at h
        obtain ⟨hr, hd, hv, hne⟩ := h
        obtain ⟨k1, k2⟩ := key (d :: rest1) (by simp) hr hd hv
        refine ⟨92 :: (d :: rest1).take (DecodeRuneInString (d :: rest1)).2, ?_,
          ClassItem.escaped _ k2, by rw [← hd]; exact hne⟩
        rw [List.cons_append, ← k1]
    · simp only [getEsc, h1, h92, if_false, false_and, Prod.mk.injEq,
        Bool.or_eq_false_iff, decide_eq_false_iff_not] at h
      obtain ⟨hr, hd, hv, hne⟩ := h
      obtain ⟨k1, k2⟩ := key (c :: rest) (by simp) hr hd hv
      have hhead : ((c :: rest).take (DecodeRuneInString (c :: rest)).2).head? = some c := by
        have hw := DecodeRuneInString_width (c :: rest) (by simp)
        obtain ⟨m, hm⟩ : ∃ m, (DecodeRuneInString (c :: rest)).2 = m + 1 :=
          ⟨(DecodeRuneInString (c :: rest)).2 - 1, by omega⟩
        rw [hm]
        simp
      refine ⟨(c :: rest).take (DecodeRuneInString (c :: rest)).2, k1,
        ClassItem.plain _ k2 ?_ ?_ ?_, by rw [← hd]; exact hne⟩
      · rw [hhead]; simpa using h92
      · rw [hhead]; simpa using hc45
      · rw [hhead]; simpa using hc93

/-- When the range loop of a class ends without error, it has read one or more
ranges and the closing bracket (no range if some were read before). -/
theorem classLoop_ok (fuel r : Nat) (chunk : GoString) (mtch : Bool) (nrange : Nat)
    (m : Bool) (chunk3 : GoString)
    (h : classLoop fuel r chunk mtch nrange = some (m, chunk3)) :
    ∃ rs, chunk = rs ++ 93 :: chunk3 ∧ ((0 < nrange ∧ rs = []) ∨ ClassRanges rs) := by
  induction fuel generalizing chunk mtch nrange with
  | zero => simp [classLoop] at h
  | succ fuel ih =>
    rw [classLoop] at h
    by_cases hclose : chunk.head? = some 93 ∧ 0 < nrange
    · rw [if_pos hclose] at h
      simp only [Option.some.injEq, Prod.mk.injEq] at h
      refine ⟨[], ?_, Or.inl ⟨hclose.2, rfl⟩⟩
      cases chunk with
      | nil => simp at hclose
      | cons c rest =>
        simp only [List.head?_cons, Option.some.injEq] at hclose
        simp only [List.tail_cons] at h
        rw [hclose.1, h.2]
        rfl
    · rw [if_neg hclose] at h
      rcases hg : getEsc chunk with ⟨lo, chunk1, err1⟩
      rw [hg] at h
      dsimp only at h
      cases err1 with
      | true => simp at h
      | false =>
        simp only [Bool.false_eq_true, if_false] at h
        obtain ⟨item1, hc1, hi1, _⟩ := getEsc_ok chunk lo chunk1 hg
        -- what the rest of the loop has read, after a first range `r1`
        have finish : ∀ (r1 rest1 : GoString), chunk = r1 ++ rest1 → ClassRange r1 →
            (∃ rs, rest1 = rs ++ 93 :: chunk3 ∧ ((0 < nrange + 1 ∧ rs = []) ∨ ClassRanges rs)) →
            ∃ rs, chunk = rs ++ 93 :: chunk3 ∧ ((0 < nrange ∧ rs = []) ∨ ClassRanges rs) := by
          rintro r1 rest1 hch hr1 ⟨rs, hrs, hcase⟩
          rcases hcase with ⟨_, hnil⟩ | hmore
          · subst hnil
            exact ⟨r1, by rw [hch, hrs]; rfl, Or.inr (ClassRanges.one hr1)⟩
          · exact ⟨r1 ++ rs, by rw [hch, hrs, List.append_assoc],
              Or.inr (ClassRanges.more hr1 hmore)⟩
        by_cases hdash : chunk1.head? = some 45
        · rw [if_pos hdash] at h
          rcases hg2 : getEsc chunk1.tail with ⟨hi, chunk2, err2⟩
          rw [hg2] at h
          dsimp only at h
          cases err2 with
          | true => simp at h
          | false =>
            simp only [Bool.false_eq_true, if_false] at h
            obtain ⟨item2, hc2, hi2, _⟩ := getEsc_ok chunk1.tail hi chunk2 hg2
            have hchunk1 : chunk1 = 45 :: chunk1.tail := by
              cases chunk1 with
              | nil => simp at hdash
              | cons d rest1 =>
                simp only [List.head?_cons, Option.some.injEq] at hdash
                rw [hdash]
                rfl
            refine finish (item1 ++ 45 :: item2) chunk2 ?_ (ClassRange.range hi1 hi2)
              (ih chunk2 _ _ h)
            rw [hc1]
            conv_lhs => rw [hchunk1, hc2]
            simp
        · rw [if_neg hdash] at h
          exact finish item1 chunk1 hc1 (ClassRange.single hi1) (ih chunk1 _ _ h)

theorem WellFormed.append {a b : GoString} (ha : WellFormed a) (hb : WellFormed b) :
    WellFormed (a ++ b) := by
  induction ha with
  | nil => exact hb
  | star _ ih => exact WellFormed.star ih
  | any _ ih => exact WellFormed.any ih
  | escape c _ ih => exact WellFormed.escape c ih
  | cls h94 hrs _ ih =>
    have := WellFormed.cls h94 hrs ih
    simpa [List.append_assoc] using this
  | negated hrs _ ih =>
    have := WellFormed.negated hrs ih
    simpa [List.append_assoc] using this
  | lit c h1 h2 h3 h4 _ ih => exact WellFormed.lit c h1 h2 h3 h4 ih

theorem WellFormed.stars (l : GoString) (h : ∀ c ∈ l, c = 42) : WellFormed l := by
  induction l with
  | nil => exact WellFormed.nil
  | cons c rest ih =>
    have hc : c = 42 := h c (by simp)
    subst hc
    exact WellFormed.star (ih (fun x hx => h x (List.mem_cons_of_mem _ hx)))

/-- Leading stars do not spoil a pattern. -/
theorem WellFormed.of_dropWhile (p : GoString)
    (h : WellFormed (p.dropWhile (fun c => c == 42))) : WellFormed p := by
  have hsplit := List.takeWhile_append_dropWhile (fun c => c == 42) p
  rw [← hsplit]
  refine WellFormed.append (WellFormed.stars _ ?_) h
  intro c hc
  simpa using List.mem_takeWhile_imp hc

/-- A chunk that `matchChunk` matches is well formed: to report a match the
loop has read the chunk to its end without error. -/
theorem matchChunkLoop_ok (fuel : Nat) (chunk s : GoString) (failed : Bool)
    (hfuel : chunk.length ≤ fuel)
    (h : (matchChunkLoop fuel chunk s failed).2.1 = true) : WellFormed chunk := by
  induction fuel generalizing chunk s failed with
  | zero =>
    have : chunk = [] := List.length_eq_zero.1 (Nat.le_zero.1 hfuel)
    subst this
    exact WellFormed.nil
  | succ fuel ih =>
    cases chunk with
    | nil => exact WellFormed.nil
    | cons c chunk1 =>
      have hlen : chunk1.length ≤ fuel := by simpa using hfuel
      rw [matchChunkLoop.eq_def] at h
      dsimp only at h
      by_cases h91 : c = 91
      · subst h91
        rw [if_pos rfl] at h
        -- the class
        generalize hcl : classLoop
          ((if decide (chunk1.head? = some 94) = true then chunk1.tail else chunk1).length + 1)
          (if (failed || decide (s = [])) = true then 0 else (DecodeRuneInString s).1)
          (if decide (chunk1.head? = some 94) = true then chunk1.tail else chunk1) false 0
          = res at h
        cases res with
        | none => simp at h
        | some pr =>
          obtain ⟨mtch, chunk3⟩ := pr
          dsimp only at h
          obtain ⟨rs, hrs, hcase⟩ := classLoop_ok _ _ _ _ _ _ _ hcl
          have hranges : ClassRanges rs := by
            rcases hcase with ⟨h0, _⟩ | hr
            · exact absurd h0 (by simp)
            · exact hr
          by_cases hneg : chunk1.head? = some 94
          · simp only [hneg, decide_True, if_true] at hrs
            have hchunk1 : chunk1 = 94 :: chunk1.tail := by
              cases chunk1 with
              | nil => simp at hneg
              | cons d rest1 =>
                simp only [List.head?_cons, Option.some.injEq] at hneg
                rw [hneg]
                rfl
            have hlen3 : chunk3.length ≤ fuel := by
              have h1 := congrArg List.length hchunk1
              have h2 := congrArg List.length hrs
              simp only [List.length_cons, List.length_append] at h1 h2
              omega
            have hwf := ih chunk3 _ _ hlen3 h
            rw [hchunk1, hrs]
            exact WellFormed.negated hranges hwf
          · simp only [hneg, decide_False, Bool.false_eq_true, if_false] at hrs
            have hlen3 : chunk3.length ≤ fuel := by
              have h2 := congrArg List.length hrs
              simp only [List.length_cons, List.length_append] at h2
              omega
            have hwf := ih chunk3 _ _ hlen3 h
            have hhead : rs.head? ≠ some 94 := by
              intro hh
              apply hneg
              rw [hrs]
              cases rs with
              | nil => exact absurd rfl (classRanges_ne_nil hranges)
              | cons d rs1 => simpa using hh
            rw [hrs]
            exact WellFormed.cls hhead hranges hwf
      · rw [if_neg h91] at h
        by_cases h63 : c = 63
        · subst h63
          rw [if_pos rfl] at h
          exact WellFormed.any (ih chunk1 _ _ hlen h)
        · rw [if_neg h63] at h
          by_cases h92 : c = 92
          · subst h92
            rw [if_pos rfl] at h
            cases chunk1 with
            | nil => simp at h
            | cons c2 chunk2 =>
              dsimp only at h
              have hlen2 : chunk2.length ≤ fuel := by
                simp only [List.length_cons] at hlen
                omega
              exact WellFormed.escape c2 (ih chunk2 _ _ hlen2 h)
          · rw [if_neg h92] at h
            have hwf := ih chunk1 _ _ hlen h
            by_cases h42 : c = 42
            · subst h42
              exact WellFormed.star hwf
            · exact WellFormed.lit c h42 h63 h92 h91 hwf

theorem matchChunk_ok (chunk s : GoString) (h : (matchChunk chunk s).2.1 = true) :
    WellFormed chunk :=
  matchChunkLoop_ok chunk.length chunk s false (Nat.le_refl _) h

/-- What the inner loop of `Match` finds is a match of the chunk. -/
theorem starScan_found_ok (chunk : GoString) (last : Bool) (name t : GoString)
    (h : starScan chunk last name = StarScan.found t) :
    ∃ s, (matchChunk chunk s).2.1 = true := by
  induction name with
  | nil => simp [starScan] at h
  | cons c rest ih =>
    rw [starScan] at h
    by_cases hc : c = Separator
    · simp [hc] at h
    · rw [if_neg hc] at h
      rcases hm : matchChunk chunk rest with ⟨t1, ok, err⟩
      rw [hm] at h
      dsimp only at h
      cases ok with
      | true => exact ⟨rest, by rw [hm]⟩
      | false =>
        simp only [Bool.false_eq_true, if_false] at h
        cases err with
        | true => simp at h
        | false =>
          simp only [Bool.false_eq_true, if_false] at h
          exact ih h

/-- A chunk that starts with a byte other than `*` is not empty. -/
theorem scanIndex_pos (c : Nat) (rest : GoString) (hc : c ≠ 42) :
    1 ≤ scanIndex false (c :: rest) := by
  by_cases h92 : c = 92
  · subst h92
    cases rest with
    | nil => simp [scanIndex]
    | cons d rest1 =>
      simp only [scanIndex, if_true]
      omega
  · rw [scanIndex_cons false c rest h92]
    split_ifs <;> omega

/-- What `scanChunk` returns: the pattern without its leading stars is the
chunk followed by the rest, and the rest is shorter than the pattern. -/
theorem scanChunk_split (p : GoString) (hp : p ≠ []) :
    p.dropWhile (fun c => c == 42) = (scanChunk p).2.1 ++ (scanChunk p).2.2 ∧
    (scanChunk p).2.2.length < p.length ∧
    ((scanChunk p).2.1 = [] → p.dropWhile (fun c => c == 42) = []) := by
  have hle := length_dropWhile_le (fun c => c == 42) p
  refine ⟨by simp [scanChunk], ?_, ?_⟩
  · simp only [scanChunk, List.length_drop]
    cases hq : p.dropWhile (fun c => c == 42) with
    | nil =>
      simp only [List.length_nil]
      exact Nat.lt_of_le_of_lt (Nat.sub_le _ _) (List.length_pos.2 hp)
    | cons c rest =>
      have hc : c ≠ 42 := by
        have := List.head_dropWhile_not (fun c => c == 42) p (by rw [hq]; simp)
        simp only [hq, List.head_cons] at this
        simpa using this
      have hpos := scanIndex_pos c rest hc
      rw [hq] at hle
      simp only [List.length_cons] at hle ⊢
      omega
  · intro hnil
    simp only [scanChunk] at hnil
    cases hq : p.dropWhile (fun c => c == 42) with
    | nil => rfl
    | cons c rest =>
      exfalso
      have hc : c ≠ 42 := by
        have := List.head_dropWhile_not (fun c => c == 42) p (by rw [hq]; simp)
        simp only [hq, List.head_cons] at this
        simpa using this
      have hpos := scanIndex_pos c rest hc
      rw [hq] at hnil
      obtain ⟨m, hm⟩ : ∃ m, scanIndex false (c :: rest) = m + 1 :=
        ⟨scanIndex false (c :: rest) - 1, by omega⟩
      rw [hm] at hnil
      simp at hnil

/-- A pattern that matches some name is well formed. -/
theorem MatchLoop_wellFormed (fuel : Nat) (p n : GoString) (hfuel : p.length ≤ fuel)
    (h : (MatchLoop fuel p n).1 = true) : WellFormed p := by
  induction fuel generalizing p n with
  | zero =>
    have : p = [] := List.length_eq_zero.1 (Nat.le_zero.1 hfuel)
    subst this
    exact WellFormed.nil
  | succ fuel ih =>
    by_cases hp : p = []
    · subst hp
      exact WellFormed.nil
    · obtain ⟨hsplit, hlen, hempty⟩ := scanChunk_split p hp
      rw [MatchLoop] at h
      simp only [hp, if_false] at h
      rcases hsc : scanChunk p with ⟨star, chunk, rest⟩
      rw [hsc] at h hsplit hlen hempty
      dsimp only at h hsplit hlen hempty
      have hrest : rest.length ≤ fuel := by omega
      apply WellFormed.of_dropWhile
      rw [hsplit]
      by_cases htrail : star = true ∧ chunk = []
      · rw [hempty htrail.2] at hsplit
        have hr : rest = [] := (List.append_eq_nil.1 hsplit.symm).2
        rw [htrail.2, hr]
        exact WellFormed.nil
      · rw [if_neg htrail] at h
        rcases hm : matchChunk chunk n with ⟨t, ok, err⟩
        rw [hm] at h
        dsimp only at h
        by_cases hfirst : ok = true ∧ (t = [] ∨ rest ≠ [])
        · rw [if_pos hfirst] at h
          have hchunk : WellFormed chunk := matchChunk_ok chunk n (by rw [hm]; exact hfirst.1)
          exact WellFormed.append hchunk (ih rest t hrest h)
        · rw [if_neg hfirst] at h
          cases err with
          | true => simp at h
          | false =>
            simp only [Bool.false_eq_true, if_false] at h
            cases star with
            | false => simp at h
            | true =>
              simp only [if_true] at h
              cases hscan : starScan chunk (decide (rest = [])) n with
              | found t2 =>
                rw [hscan] at h
                dsimp only at h
                obtain ⟨s, hs⟩ := starScan_found_ok chunk _ n t2 hscan
                exact WellFormed.append (matchChunk_ok chunk s hs) (ih rest t2 hrest h)
              | bad => rw [hscan] at h; simp at h
              | notFound => rw [hscan] at h; simp at h

/-- A malformed pattern matches no name. -/
theorem Match_malformed (p n : GoString) (h : ¬ WellFormed p) : (Match p n).1 = false := by
  cases hm : (Match p n).1 with
  | false => rfl
  | true => exact absurd (MatchLoop_wellFormed p.length p n (Nat.le_refl _) hm) h

/-- No bucket is retained under a malformed pattern. -/
theorem matching_malformed (p : GoString) (buckets : List RemoteBucket) (hp : p ≠ [])
    (h : ¬ WellFormed p) : matching p buckets = [] := by
  unfold matching
  rw [List.filter_eq_nil_iff]
  intro b _
  simp [hp, Match_malformed p b.Name h]

/-- A lone `[` is malformed. -/
theorem open_bracket_malformed : ¬ WellFormed (ascii "[") := by
  intro h
  generalize hq : ascii "[" = q at h
  have hq1 : q = [91] := by rw [← hq]; rfl
  cases h with
  | nil => simp at hq1
  | star _ => simp at hq1
  | any _ => simp at hq1
  | escape c _ => simp at hq1
  | cls _ _ _ => simp at hq1
  | negated _ _ => simp at hq1
  | lit c _ _ _ h91 _ =>
    simp only [List.cons.injEq] at hq1
    exact h91 hq1.1

/-! ### The fuel of the loops is enough -/

theorem getEsc_shorter (chunk : GoString) (r : Nat) (nchunk : GoString)
    (h : getEsc chunk = (r, nchunk, false)) : nchunk.length < chunk.length := by
  obtain ⟨item, hc, hi, _⟩ := getEsc_ok chunk r nchunk h
  have hpos : 0 < item.length := List.length_pos.2 (classItem_ne_nil hi)
  rw [hc, List.length_append]
  omega

/-- The range loop of a class gives the same answer for any fuel above the
length of the chunk. -/
theorem classLoop_fuel (fuel1 fuel2 r : Nat) (chunk : GoString) (mtch : Bool) (nrange : Nat)
    (h1 : chunk.length < fuel1) (h2 : chunk.length < fuel2) :
    classLoop fuel1 r chunk mtch nrange = classLoop fuel2 r chunk mtch nrange := by
  induction fuel1 generalizing fuel2 chunk mtch nrange with
  | zero => exact absurd h1 (Nat.not_lt_zero _)
  | succ f1 ih =>
    cases fuel2 with
    | zero => exact absurd h2 (Nat.not_lt_zero _)
    | succ f2 =>
      rw [classLoop, classLoop]
      by_cases hclose : chunk.head? = some 93 ∧ 0 < nrange
      · rw [if_pos hclose, if_pos hclose]
      · rw [if_neg hclose, if_neg hclose]
        rcases hg : getEsc chunk with ⟨lo, chunk1, err1⟩
        dsimp only
        cases err1 with
        | true => rfl
        | false =>
          have hs1 := getEsc_shorter chunk lo chunk1 hg
          simp only [Bool.false_eq_true, if_false]
          by_cases hdash : chunk1.head? = some 45
          · rw [if_pos hdash, if_pos hdash]
            rcases hg2 : getEsc chunk1.tail with ⟨hi, chunk2, err2⟩
            dsimp only
            cases err2 with
            | true => rfl
            | false =>
              have hs2 := getEsc_shorter chunk1.tail hi chunk2 hg2
              have ht : chunk1.tail.length ≤ chunk1.length := by simp
              simp only [Bool.false_eq_true, if_false]
              exact ih f2 chunk2 _ _ (by omega) (by omega)
          · rw [if_neg hdash, if_neg hdash]
            exact ih f2 chunk1 _ _ (by omega) (by omega)

/-- What follows a class is shorter than the class with it. -/
theorem classLoop_shorter (fuel r : Nat) (chunk : GoString) (mtch : Bool) (nrange : Nat)
    (m : Bool) (chunk3 : GoString)
    (h : classLoop fuel r chunk mtch nrange = some (m, chunk3)) :
    chunk3.length < chunk.length := by
  obtain ⟨rs, hrs, _⟩ := classLoop_ok fuel r chunk mtch nrange m chunk3 h
  rw [hrs]
  simp only [List.length_append, List.length_cons]
  omega

/-- The loop of `matchChunk` gives the same answer for any fuel from the
length of the chunk on. -/
theorem matchChunkLoop_fuel (fuel1 fuel2 : Nat) (chunk s : GoString) (failed : Bool)
    (h1 : chunk.length ≤ fuel1) (h2 : chunk.length ≤ fuel2) :
    matchChunkLoop fuel1 chunk s failed = matchChunkLoop fuel2 chunk s failed := by
  induction fuel1 generalizing fuel2 chunk s failed with
  | zero =>
    have : chunk = [] := List.length_eq_zero.1 (Nat.le_zero.1 h1)
    subst this
    cases fuel2 <;> simp [matchChunkLoop]
  | succ f1 ih =>
    cases chunk with
    | nil => cases fuel2 <;> simp [matchChunkLoop]
    | cons c chunk1 =>
      cases fuel2 with
      | zero => simp at h2
      | succ f2 =>
        have hl1 : chunk1.length ≤ f1 := by simpa using h1
        have hl2 : chunk1.length ≤ f2 := by simpa using h2
        rw [matchChunkLoop.eq_def, matchChunkLoop.eq_def (f2 + 1)]
        dsimp only
        by_cases h91 : c = 91
        · subst h91
          rw [if_pos rfl, if_pos rfl]
          generalize hcl : classLoop
            ((if decide (chunk1.head? = some 94) = true then chunk1.tail else chunk1).length + 1)
            (if (failed || decide (s = [])) = true then 0 else (DecodeRuneInString s).1)
            (if decide (chunk1.head? = some 94) = true then chunk1.tail else chunk1) false 0
            = res
          cases res with
          | none => rfl
          | some pr =>
            obtain ⟨mtch, chunk3⟩ := pr
            dsimp only
            have hs3 := classLoop_shorter _ _ _ _ _ _ _ hcl
            have hs2 : (if decide (chunk1.head? = some 94) = true then chunk1.tail
                else chunk1).length ≤ chunk1.length := by
              split_ifs <;> simp
            exact ih f2 chunk3 _ _ (by omega) (by omega)
        · rw [if_neg h91, if_neg h91]
          by_cases h63 : c = 63
          · rw [if_pos h63, if_pos h63]
            exact ih f2 chunk1 _ _ hl1 hl2
          · rw [if_neg h63, if_neg h63]
            by_cases h92 : c = 92
            · rw [if_pos h92, if_pos h92]
              cases chunk1 with
              | nil => rfl
              | cons c2 chunk2 =>
                dsimp only
                simp only [List.length_cons] at hl1 hl2
                exact ih f2 chunk2 _ _ (by omega) (by omega)
            · rw [if_neg h92, if_neg h92]
              exact ih f2 chunk1 _ _ hl1 hl2

/-- The `Pattern:` loop of `Match` gives the same answer for any fuel from the
length of the pattern on: the loop always ends by itself. -/
theorem MatchLoop_fuel (fuel1 fuel2 : Nat) (p n : GoString)
    (h1 : p.length ≤ fuel1) (h2 : p.length ≤ fuel2) :
    MatchLoop fuel1 p n = MatchLoop fuel2 p n := by
  induction fuel1 generalizing fuel2 p n with
  | zero =>
    have : p = [] := List.length_eq_zero.1 (Nat.le_zero.1 h1)
    subst this
    cases fuel2 <;> simp [MatchLoop]
  | succ f1 ih =>
    by_cases hp : p = []
    · subst hp
      cases fuel2 <;> simp [MatchLoop]
    · cases fuel2 with
      | zero =>
        exact absurd (List.length_eq_zero.1 (Nat.le_zero.1 h2)) hp
      | succ f2 =>
        obtain ⟨_, hlen, _⟩ := scanChunk_split p hp
        rw [MatchLoop, MatchLoop]
        simp only [hp, if_false]
        rcases hsc : scanChunk p with ⟨star, chunk, rest⟩
        rw [hsc] at hlen
        dsimp only at hlen ⊢
        have hr1 : rest.length ≤ f1 := by omega
        have hr2 : rest.length ≤ f2 := by omega
        by_cases htrail : star = true ∧ chunk = []
        · rw [if_pos htrail, if_pos htrail]
        · rw [if_neg htrail, if_neg htrail]
          rcases hm : matchChunk chunk n with ⟨t, ok, err⟩
          dsimp only
          by_cases hfirst : ok = true ∧ (t = [] ∨ rest ≠ [])
          · rw [if_pos hfirst, if_pos hfirst]
            exact ih f2 rest t hr1 hr2
          · rw [if_neg hfirst, if_neg hfirst]
            cases err with
            | true => rfl
            | false =>
              simp only [Bool.false_eq_true, if_false]
              cases star with
              | false => rfl
              | true =>
                simp only [if_true]
                cases starScan chunk (decide (rest = [])) n with
                | found t2 => exact ih f2 rest t2 hr1 hr2
                | bad => rfl
                | notFound => rfl

/-! ### A well-formed pattern is read without error -/

theorem acceptSecond_ge (s0 s1 : Nat) (h : acceptSecond s0 s1 = true) : 128 ≤ s1 := by
  unfold acceptSecond at h
  split_ifs at h <;> simp at h <;> omega

theorem isCont_ge (b : Nat) (h : isCont b = true) : 128 ≤ b := by
  unfold isCont at h
  simp at h
  omega

/-- The shapes of a validly encoded character: one ASCII byte, or a lead byte
followed by one, two or three bytes from 128 on. In each case decoding does
not look beyond it. -/
theorem validRune_cases (item : GoString) (h : validRune item) :
    (∀ y ∈ item.tail, 128 ≤ y) ∧
    ∀ q, DecodeRuneInString (item ++ q) = DecodeRuneInString item := by
  obtain ⟨hne, hlen, hv⟩ := h
  cases item with
  | nil => exact absurd rfl hne
  | cons s0 t =>
    have hsz := leadSize_cases s0
    by_cases h0 : s0 < 128
    · have ht : t = [] := by
        simp [DecodeRuneInString, h0] at hlen
        exact hlen
      subst ht
      exact ⟨by simp, fun q => by simp [DecodeRuneInString, h0]⟩
    by_cases h1 : s0 < 194 ∨ 244 < s0
    · exact absurd (by simp [DecodeRuneInString, h0, h1]) hv
    cases t with
    | nil =>
      have hl : 1 < leadSize s0 := by omega
      exact absurd (by simp [DecodeRuneInString, h0, h1, hl]) hv
    | cons s1 t1 =>
      by_cases ha : acceptSecond s0 s1 = true
      swap
      · have ha1 : acceptSecond s0 s1 = false := by simpa using ha
        exact absurd (by simp [DecodeRuneInString, h0, h1, ha1]) hv
      have hs1 := acceptSecond_ge s0 s1 ha
      by_cases h2 : leadSize s0 ≤ 2
      · have hl : ¬ (t1.length + 1 + 1 < leadSize s0) := by omega
        have ht : t1 = [] := by
          simp [DecodeRuneInString, h0, h1, hl, ha, h2] at hlen
          exact hlen
        subst ht
        refine ⟨by simpa using hs1, fun q => ?_⟩
        have hlq : ¬ (q.length + 1 + 1 < leadSize s0) := by omega
        have hl2 : ¬ (2 < leadSize s0) := by omega
        simp [DecodeRuneInString, h0, h1, ha, h2, hlq, hl2]
      cases t1 with
      | nil =>
        have hl : 2 < leadSize s0 := by omega
        exact absurd (by simp [DecodeRuneInString, h0, h1, hl]) hv
      | cons s2 t2 =>
        by_cases hc2 : isCont s2 = true
        swap
        · have hc21 : isCont s2 = false := by simpa using hc2
          exact absurd (by simp [DecodeRuneInString, h0, h1, ha, h2, hc21]) hv
        have hs2 := isCont_ge s2 hc2
        by_cases h3 : leadSize s0 ≤ 3
        · have hl : ¬ (t2.length + 1 + 1 + 1 < leadSize s0) := by omega
          have ht : t2 = [] := by
            simp [DecodeRuneInString, h0, h1, hl, ha, h2, hc2, h3] at hlen
            exact hlen
          subst ht
          refine ⟨by simp [hs1, hs2], fun q => ?_⟩
          have hlq : ¬ (q.length + 1 + 1 + 1 < leadSize s0) := by omega
          have hl3 : ¬ (3 < leadSize s0) := by omega
          simp [DecodeRuneInString, h0, h1, ha, h2, hc2, h3, hlq, hl3]
        cases t2 with
        | nil =>
          have hl : 3 < leadSize s0 := by omega
          exact absurd (by simp [DecodeRuneInString, h0, h1, hl]) hv
        | cons s3 t3 =>
          by_cases hc3 : isCont s3 = true
          swap
          · have hc31 : isCont s3 = false := by simpa using hc3
            exact absurd (by simp [DecodeRuneInString, h0, h1, ha, h2, hc2, h3, hc31]) hv
          have hs3 := isCont_ge s3 hc3
          have hl : ¬ (t3.length + 1 + 1 + 1 + 1 < leadSize s0) := by omega
          have ht : t3 = [] := by
            simp [DecodeRuneInString, h0, h1, hl, ha, h2, hc2, h3, hc3] at hlen
            exact hlen
          subst ht
          refine ⟨by simp [hs1, hs2, hs3], fun q => ?_⟩
          have hlq : ¬ (q.length + 1 + 1 + 1 + 1 < leadSize s0) := by omega
          have hl4 : ¬ (4 < leadSize s0) := by omega
          simp [DecodeRuneInString, h0, h1, ha, h2, hc2, h3, hc3, hlq, hl4]

/-- Inside brackets the scan of `scanChunk` steps over every byte other than a
backslash and `]`. -/
theorem scanIndex_true_append (l q : GoString) (h : ∀ y ∈ l, y ≠ 92 ∧ y ≠ 93) :
    scanIndex true (l ++ q) = l.length + scanIndex true q := by
  induction l with
  | nil => simp
  | cons y rest ih =>
    have hy := h y (by simp)
    have ih1 := ih (fun z hz => h z (List.mem_cons_of_mem _ hz))
    rw [List.cons_append, scanIndex_cons true y _ hy.1, ih1]
    simp only [hy.2, if_false, Bool.not_true, Bool.false_eq_true, ite_self, List.length_cons]
    omega

theorem scanIndex_classItem (item q : GoString) (h : ClassItem item) :
    scanIndex true (item ++ q) = item.length + scanIndex true q := by
  cases h with
  | plain _ hv h92 _ h93 =>
    apply scanIndex_true_append
    intro y hy
    cases item with
    | nil => simp at hy
    | cons c t =>
      rcases List.mem_cons.1 hy with rfl | hy
      · exact ⟨fun hc => h92 (by simp [hc]), fun hc => h93 (by simp [hc])⟩
      · have := (validRune_cases _ hv).1 y (by simpa using hy)
        exact ⟨by omega, by omega⟩
  | escaped item1 hv =>
    cases item1 with
    | nil => exact absurd rfl hv.1
    | cons c t =>
      have ht : ∀ y ∈ t, y ≠ 92 ∧ y ≠ 93 := by
        intro y hy
        have := (validRune_cases _ hv).1 y (by simpa using hy)
        exact ⟨by omega, by omega⟩
      have h1 := scanIndex_true_append t q ht
      have h2 : scanIndex true (92 :: c :: (t ++ q)) = 2 + scanIndex true (t ++ q) := by
        simp [scanIndex]
      rw [List.cons_append, List.cons_append, h2, h1]
      simp only [List.length_cons]
      omega

theorem scanIndex_classRange (r q : GoString) (h : ClassRange r) :
    scanIndex true (r ++ q) = r.length + scanIndex true q := by
  cases h with
  | single h1 => exact scanIndex_classItem _ q h1
  | range h1 h2 =>
    rw [List.append_assoc, scanIndex_classItem _ _ h1, List.cons_append,
      scanIndex_cons true 45 _ (by decide), scanIndex_classItem _ q h2]
    simp only [List.length_append, List.length_cons]
    simp
    omega

theorem scanIndex_classRanges (rs q : GoString) (h : ClassRanges rs) :
    scanIndex true (rs ++ q) = rs.length + scanIndex true q := by
  induction h with
  | one h1 => exact scanIndex_classRange _ q h1
  | more h1 _ ih =>
    rw [List.append_assoc, scanIndex_classRange _ _ h1, ih, List.length_append]
    omega

/-- A character of a class starts with a byte other than `-` and `]`. -/
theorem classItem_head (item q : GoString) (h : ClassItem item) :
    (item ++ q).head? ≠ some 45 ∧ (item ++ q).head? ≠ some 93 := by
  cases h with
  | plain _ hv _ h45 h93 =>
    cases item with
    | nil => exact absurd rfl hv.1
    | cons c t => exact ⟨by simpa using h45, by simpa using h93⟩
  | escaped item1 _ => simp

theorem classRange_head (r q : GoString) (h : ClassRange r) :
    (r ++ q).head? ≠ some 45 ∧ (r ++ q).head? ≠ some 93 := by
  cases h with
  | single h1 => exact classItem_head _ q h1
  | range h1 _ =>
    rw [List.append_assoc]
    exact classItem_head _ _ h1

theorem classRanges_head (rs q : GoString) (h : ClassRanges rs) :
    (rs ++ q).head? ≠ some 45 ∧ (rs ++ q).head? ≠ some 93 := by
  cases h with
  | one h1 => exact classRange_head _ q h1
  | more h1 _ =>
    rw [List.append_assoc]
    exact classRange_head _ _ h1

/-- On a character of a class followed by something, `getEsc` reads the
character and reports no error. -/
theorem getEsc_classItem (item q : GoString) (h : ClassItem item) (hq : q ≠ []) :
    ∃ r, getEsc (item ++ q) = (r, q, false) := by
  have key : ∀ it : GoString, validRune it →
      (DecodeRuneInString (it ++ q)).2 = it.length ∧
      ¬ ((DecodeRuneInString (it ++ q)).1 = RuneError ∧ (DecodeRuneInString (it ++ q)).2 = 1) := by
    intro it hv
    rw [(validRune_cases it hv).2 q]
    exact ⟨hv.2.1, hv.2.2⟩
  cases h with
  | plain _ hv h92 h45 h93 =>
    cases item with
    | nil => exact absurd rfl hv.1
    | cons c t =>
      have hc92 : c ≠ 92 := fun hc => h92 (by simp [hc])
      have hc45 : c ≠ 45 := fun hc => h45 (by simp [hc])
      have hc93 : c ≠ 93 := fun hc => h93 (by simp [hc])
      obtain ⟨k1, k2⟩ := key (c :: t) hv
      refine ⟨(DecodeRuneInString ((c :: t) ++ q)).1, ?_⟩
      have hdrop : List.drop (DecodeRuneInString (c :: (t ++ q))).2 (c :: (t ++ q)) = q := by
        have := k1
        rw [List.cons_append] at this
        rw [this, ← List.cons_append]
        simp
      rw [List.cons_append] at k2
      simp only [List.cons_append, getEsc, hc45, hc93, hc92, or_self, if_false, false_and,
        hdrop, Prod.mk.injEq, true_and, Bool.or_eq_false_iff, decide_eq_false_iff_not]
      exact ⟨k2, hq⟩
  | escaped item1 hv =>
    cases item1 with
    | nil => exact absurd rfl hv.1
    | cons c t =>
      obtain ⟨k1, k2⟩ := key (c :: t) hv
      refine ⟨(DecodeRuneInString ((c :: t) ++ q)).1, ?_⟩
      have hdrop : List.drop (DecodeRuneInString (c :: (t ++ q))).2 (c :: (t ++ q)) = q := by
        have := k1
        rw [List.cons_append] at this
        rw [this, ← List.cons_append]
        simp
      rw [List.cons_append] at k2
      simp only [List.cons_append, getEsc, reduceCtorEq, or_self, if_false, if_true, and_false,
        hdrop, Prod.mk.injEq, true_and, Bool.or_eq_false_iff, decide_eq_false_iff_not]
      rw [if_neg (by decide)]
      simp only [Prod.mk.injEq, true_and, Bool.or_eq_false_iff, decide_eq_false_iff_not]
      exact ⟨k2, hq⟩

/-- One turn of the range loop over a range followed by more of the class. -/
theorem classLoop_range (fuel r : Nat) (r1 rest : GoString) (mtch : Bool) (nrange : Nat)
    (h : ClassRange r1) (hrest : rest ≠ []) (h45 : rest.head? ≠ some 45) :
    ∃ m, classLoop (fuel + 1) r (r1 ++ rest) mtch nrange
      = classLoop fuel r rest m (nrange + 1) := by
  have hhead := (classRange_head r1 rest h).2
  have hclose : ¬ ((r1 ++ rest).head? = some 93 ∧ 0 < nrange) := fun hc => hhead hc.1
  cases h with
  | single h1 =>
    obtain ⟨lo, hg⟩ := getEsc_classItem r1 rest h1 hrest
    refine ⟨mtch || decide (lo ≤ r ∧ r ≤ lo), ?_⟩
    rw [classLoop, if_neg hclose, hg]
    dsimp only
    simp only [Bool.false_eq_true, if_false, h45]
  | range h1 h2 =>
    rename_i lo hi
    obtain ⟨x, hg⟩ := getEsc_classItem lo (45 :: (hi ++ rest)) h1 (by simp)
    obtain ⟨y, hg2⟩ := getEsc_classItem hi rest h2 hrest
    refine ⟨mtch || decide (x ≤ r ∧ r ≤ y), ?_⟩
    rw [classLoop, if_neg hclose]
    rw [List.append_assoc, List.cons_append, hg]
    dsimp only
    simp only [Bool.false_eq_true, if_false, List.head?_cons, if_true, List.tail_cons, hg2]

/-- The range loop reads the ranges of a class and its closing bracket. -/
theorem classLoop_ranges (rs q : GoString) (h : ClassRanges rs) :
    ∀ (fuel r : Nat) (mtch : Bool) (nrange : Nat), (rs ++ 93 :: q).length < fuel →
      ∃ m, classLoop fuel r (rs ++ 93 :: q) mtch nrange = some (m, q) := by
  induction h with
  | one h1 =>
    rename_i r1
    intro fuel r mtch nrange hfuel
    have hpos : 0 < r1.length := List.length_pos.2 (classRange_ne_nil h1)
    simp only [List.length_append, List.length_cons] at hfuel
    obtain ⟨f, rfl⟩ : ∃ f, fuel = f + 1 := ⟨fuel - 1, by omega⟩
    obtain ⟨f1, rfl⟩ : ∃ f1, f = f1 + 1 := ⟨f - 1, by omega⟩
    obtain ⟨m, hm⟩ := classLoop_range (f1 + 1) r r1 (93 :: q) mtch nrange h1 (by simp) (by simp)
    rw [hm, classLoop]
    simp
  | more h1 h2 ih =>
    rename_i r1 rs1
    intro fuel r mtch nrange hfuel
    have hpos : 0 < r1.length := List.length_pos.2 (classRange_ne_nil h1)
    simp only [List.length_append, List.length_cons] at hfuel
    obtain ⟨f, rfl⟩ : ∃ f, fuel = f + 1 := ⟨fuel - 1, by omega⟩
    have hne : rs1 ++ 93 :: q ≠ [] := by simp
    obtain ⟨m, hm⟩ := classLoop_range f r r1 (rs1 ++ 93 :: q) mtch nrange h1 hne
      (classRanges_head rs1 _ h2).1
    rw [List.append_assoc, hm]
    exact ih f r m (nrange + 1) (by
      simp only [List.length_append, List.length_cons]
      omega)

theorem matchChunkLoop_nil_no_error (fuel : Nat) (s : GoString) (failed : Bool) :
    (matchChunkLoop fuel [] s failed).2.2 = false := by
  cases fuel <;> cases failed <;> simp [matchChunkLoop]

/-- The scan and the cut of a class body: ranges, the closing bracket, and
what follows. -/
theorem scan_class_body (rs q : GoString) (h : ClassRanges rs) :
    scanIndex true (rs ++ 93 :: q) = rs.length + (scanIndex false q + 1) ∧
    (rs ++ 93 :: q).take (rs.length + (scanIndex false q + 1))
      = rs ++ 93 :: q.take (scanIndex false q) ∧
    (rs ++ 93 :: q).drop (rs.length + (scanIndex false q + 1))
      = q.drop (scanIndex false q) := by
  refine ⟨?_, ?_, ?_⟩
  · rw [scanIndex_classRanges rs _ h, scanIndex_cons true 93 q (by decide)]
    simp only [if_true, reduceCtorEq, if_false]
    simp
    omega
  · rw [List.take_append, List.take_succ_cons]
  · rw [List.drop_append, List.drop_succ_cons]

/-- The class step of `matchChunk`: when the range loop reads the class and
what follows is read without error, so is the chunk. -/
theorem matchChunkLoop_class_no_error (fuel : Nat) (chunk1 chunk3 s : GoString) (failed : Bool)
    (hcl : ∀ r, ∃ m, classLoop
      ((if decide (chunk1.head? = some 94) = true then chunk1.tail else chunk1).length + 1) r
      (if decide (chunk1.head? = some 94) = true then chunk1.tail else chunk1) false 0
        = some (m, chunk3))
    (hrec : ∀ s failed, (matchChunkLoop fuel chunk3 s failed).2.2 = false) :
    (matchChunkLoop (fuel + 1) (91 :: chunk1) s failed).2.2 = false := by
  rw [matchChunkLoop.eq_def]
  dsimp only
  rw [if_pos rfl]
  obtain ⟨m, hm⟩ := hcl (if (failed || decide (s = [])) = true then 0
    else (DecodeRuneInString s).1)
  rw [hm]
  exact hrec _ _

/-- The chunk `scanChunk` cuts off a well-formed pattern is read by
`matchChunk` without error, whatever the name, and what is left of the
pattern is well formed. -/
theorem wellFormed_chunk (p : GoString) (h : WellFormed p) :
    (∀ fuel s failed, (p.take (scanIndex false p)).length ≤ fuel →
      (matchChunkLoop fuel (p.take (scanIndex false p)) s failed).2.2 = false) ∧
    WellFormed (p.drop (scanIndex false p)) := by
  induction h with
  | nil => exact ⟨fun fuel s failed _ => by simp [scanIndex, matchChunkLoop_nil_no_error],
      by simpa [scanIndex] using WellFormed.nil⟩
  | @star q hq _ =>
    have hi : scanIndex false (42 :: q) = 0 := by
      rw [scanIndex_cons false 42 q (by decide)]
      simp
    rw [hi]
    exact ⟨fun fuel s failed _ => by simp [matchChunkLoop_nil_no_error],
      by simpa using WellFormed.star hq⟩
  | @any q _ ih =>
    have hi : scanIndex false (63 :: q) = scanIndex false q + 1 := by
      rw [scanIndex_cons false 63 q (by decide)]
      simp
      omega
    rw [hi, List.take_succ_cons, List.drop_succ_cons]
    refine ⟨?_, ih.2⟩
    intro fuel s failed hfuel
    obtain ⟨f, rfl⟩ : ∃ f, fuel = f + 1 := ⟨fuel - 1, by simp only [List.length_cons] at hfuel; omega⟩
    rw [matchChunkLoop.eq_def]
    dsimp only
    rw [if_neg (by decide), if_pos rfl]
    exact ih.1 f _ _ (by simp only [List.length_cons] at hfuel; omega)
  | @escape q c _ ih =>
    have hi : scanIndex false (92 :: c :: q) = scanIndex false q + 1 + 1 := by
      simp only [scanIndex, if_true]
      omega
    rw [hi, List.take_succ_cons, List.take_succ_cons, List.drop_succ_cons, List.drop_succ_cons]
    refine ⟨?_, ih.2⟩
    intro fuel s failed hfuel
    obtain ⟨f, rfl⟩ : ∃ f, fuel = f + 1 := ⟨fuel - 1, by simp only [List.length_cons] at hfuel; omega⟩
    rw [matchChunkLoop.eq_def]
    dsimp only
    rw [if_neg (by decide), if_neg (by decide), if_pos rfl]
    exact ih.1 f _ _ (by simp only [List.length_cons] at hfuel; omega)
  | @lit q c h42 h63 h92 h91 _ ih =>
    have hi : scanIndex false (c :: q) = scanIndex false q + 1 := by
      rw [scanIndex_cons false c q h92]
      simp only [h91, h42, if_false, ite_self]
      omega
    rw [hi, List.take_succ_cons, List.drop_succ_cons]
    refine ⟨?_, ih.2⟩
    intro fuel s failed hfuel
    obtain ⟨f, rfl⟩ : ∃ f, fuel = f + 1 := ⟨fuel - 1, by simp only [List.length_cons] at hfuel; omega⟩
    rw [matchChunkLoop.eq_def]
    dsimp only
    rw [if_neg h91, if_neg h63, if_neg h92]
    exact ih.1 f _ _ (by simp only [List.length_cons] at hfuel; omega)
  | @cls rs q h94 hrs _ ih =>
    obtain ⟨b1, b2, b3⟩ := scan_class_body rs q hrs
    have hi : scanIndex false (91 :: (rs ++ 93 :: q))
        = rs.length + (scanIndex false q + 1) + 1 := by
      rw [scanIndex_cons false 91 _ (by decide), if_pos rfl, b1]
      omega
    rw [hi, List.take_succ_cons, List.drop_succ_cons, b2, b3]
    refine ⟨?_, ih.2⟩
    intro fuel s failed hfuel
    obtain ⟨f, rfl⟩ : ∃ f, fuel = f + 1 := ⟨fuel - 1, by simp only [List.length_cons] at hfuel; omega⟩
    have hhead : (rs ++ 93 :: q.take (scanIndex false q)).head? ≠ some 94 := by
      cases rs with
      | nil => exact absurd rfl (classRanges_ne_nil hrs)
      | cons d rs1 => simpa using h94
    apply matchChunkLoop_class_no_error
    · intro r
      simp only [hhead, decide_False, Bool.false_eq_true, if_false]
      exact classLoop_ranges rs _ hrs _ r false 0 (Nat.lt_succ_self _)
    · intro s1 failed1
      refine ih.1 f s1 failed1 ?_
      simp only [List.length_cons, List.length_append] at hfuel
      omega
  | @negated rs q hrs _ ih =>
    obtain ⟨b1, b2, b3⟩ := scan_class_body rs q hrs
    have hi : scanIndex false (91 :: 94 :: (rs ++ 93 :: q))
        = rs.length + (scanIndex false q + 1) + 1 + 1 := by
      rw [scanIndex_cons false 91 _ (by decide), if_pos rfl,
        scanIndex_cons true 94 _ (by decide), b1]
      simp
      omega
    rw [hi, List.take_succ_cons, List.take_succ_cons, List.drop_succ_cons, List.drop_succ_cons,
      b2, b3]
    refine ⟨?_, ih.2⟩
    intro fuel s failed hfuel
    obtain ⟨f, rfl⟩ : ∃ f, fuel = f + 1 := ⟨fuel - 1, by simp only [List.length_cons] at hfuel; omega⟩
    apply matchChunkLoop_class_no_error
    · intro r
      simp only [List.head?_cons, decide_True, if_true, List.tail_cons]
      exact classLoop_ranges rs _ hrs _ r false 0 (Nat.lt_succ_self _)
    · intro s1 failed1
      refine ih.1 f s1 failed1 ?_
      simp only [List.length_cons, List.length_append] at hfuel
      omega

/-- Without its leading stars a well-formed pattern is well formed. -/
theorem WellFormed.dropWhile_star (p : GoString) (h : WellFormed p) :
    WellFormed (p.dropWhile (fun c => c == 42)) := by
  induction p with
  | nil => exact h
  | cons c rest ih =>
    by_cases hc : c = 42
    · subst hc
      have hrest : WellFormed rest := by
        cases h with
        | star h1 => exact h1
        | lit c h42 _ _ _ _ => exact absurd rfl h42
      simpa using ih hrest
    · simpa [List.dropWhile_cons, hc] using h

/-- When `matchChunk` never reports an error for a chunk, neither does the
inner loop of `Match`. -/
theorem starScan_no_error (chunk : GoString) (last : Bool) (name : GoString)
    (h : ∀ s, (matchChunk chunk s).2.2 = false) :
    starScan chunk last name ≠ StarScan.bad := by
  induction name with
  | nil => simp [starScan]
  | cons c rest ih =>
    rw [starScan]
    by_cases hc : c = Separator
    · simp [hc]
    · rw [if_neg hc]
      have herr := h rest
      rcases hm : matchChunk chunk rest with ⟨t1, ok, err⟩
      rw [hm] at herr
      dsimp only at herr ⊢
      subst herr
      cases ok with
      | true =>
        simp only [if_true]
        split_ifs
        · exact ih
        · simp
      | false =>
        simp only [Bool.false_eq_true, if_false]
        exact ih

/-- A well-formed pattern never makes `Match` report `ErrBadPattern`. -/
theorem MatchLoop_no_error (fuel : Nat) (p n : GoString) (hfuel : p.length ≤ fuel)
    (h : WellFormed p) : (MatchLoop fuel p n).2 = false := by
  induction fuel generalizing p n with
  | zero => simp [MatchLoop]
  | succ fuel ih =>
    by_cases hp : p = []
    · subst hp
      simp [MatchLoop]
    · obtain ⟨_, hlen, _⟩ := scanChunk_split p hp
      have hwf := wellFormed_chunk _ (WellFormed.dropWhile_star p h)
      rw [MatchLoop]
      simp only [hp, if_false]
      rcases hsc : scanChunk p with ⟨star, chunk, rest⟩
      rw [hsc] at hlen
      have hchunk : chunk = (p.dropWhile (fun c => c == 42)).take
          (scanIndex false (p.dropWhile (fun c => c == 42))) := by
        have := congrArg (fun x => x.2.1) hsc
        simpa [scanChunk] using this.symm
      have hrest : rest = (p.dropWhile (fun c => c == 42)).drop
          (scanIndex false (p.dropWhile (fun c => c == 42))) := by
        have := congrArg (fun x => x.2.2) hsc
        simpa [scanChunk] using this.symm
      rw [← hchunk, ← hrest] at hwf
      dsimp only at hlen ⊢
      have hr : rest.length ≤ fuel := by omega
      have hmc : ∀ s, (matchChunk chunk s).2.2 = false :=
        fun s => hwf.1 chunk.length s false (Nat.le_refl _)
      by_cases htrail : star = true ∧ chunk = []
      · rw [if_pos htrail]
      · rw [if_neg htrail]
        have herr := hmc n
        rcases hm : matchChunk chunk n with ⟨t, ok, err⟩
        rw [hm] at herr
        dsimp only at herr ⊢
        subst herr
        by_cases hfirst : ok = true ∧ (t = [] ∨ rest ≠ [])
        · rw [if_pos hfirst]
          exact ih rest t hr hwf.2
        · rw [if_neg hfirst]
          simp only [Bool.false_eq_true, if_false]
          cases star with
          | false => rfl
          | true =>
            simp only [if_true]
            cases hscan : starScan chunk (decide (rest = [])) n with
            | found t2 => exact ih rest t2 hr hwf.2
            | bad => exact absurd hscan (starScan_no_error chunk _ n hmc)
            | notFound => rfl

/-- Only a malformed pattern makes `Match` report `ErrBadPattern`. -/
theorem Match_error_malformed (p n : GoString) (h : (Match p n).2 = true) :
    ¬ WellFormed p := by
  intro hwf
  have := MatchLoop_no_error p.length p n (Nat.le_refl _) hwf
  unfold Match at h
  rw [this] at h
  exact absurd h (by simp)

end Lemmas

/-! ## Theorems -/

section Claims

variable {σ E Conf Client : Type}

/-- C1. Dry run has no side effects: when `apply` is false, the remote name is
not empty and config resolution, client construction, `ListBuckets` and the
buckets-root read succeed, `Do` makes no `syncMetadata` and no
`InsertMountMapping` call, writes one line per retained bucket, in listing
order, leaves the world as the discovery calls left it, and returns nil. -/
theorem dry_run_has_no_side_effects (env : Env σ E Conf Client) (args : List GoString) (st : σ)
    (flags : Flags) (conf : Conf) (client : Client) (buckets : List RemoteBucket)
    (root : GoString) (st1 st2 st3 st4 : σ)
    (hparse : Parse Flags.defaults args = (flags, false))
    (hremote : flags.remote ≠ [])
    (hdry : flags.apply = false)
    (hconf : env.ReadRemoteStorageConf flags.remote st = (Except.ok conf, st1))
    (hclient : env.GetRemoteStorage conf st1 = (Except.ok client, st2))
    (hlist : env.ListBuckets client st2 = (Except.ok buckets, st3))
    (hroot : env.readFilerBucketsPath st3 = (Except.ok root, st4)) :
    (Do env args st).err = none ∧
    (Do env args st).trace.countP Call.isSync = 0 ∧
    (Do env args st).trace.countP Call.isInsert = 0 ∧
    written (Do env args st).trace = (matching flags.bucketPattern buckets).map bucketLine ∧
    (Do env args st).state = st4 := by
  rw [Do_discovered env args st flags conf client buckets root st1 st2 st3 st4
    hparse hremote hconf hclient hlist hroot, hdry, mountLoop_dry]
  refine ⟨rfl, ?_, ?_, ?_, rfl⟩
  · simp [after_trace, discoverySteps, List.countP_eq_zero, Call.isSync]
  · simp [after_trace, discoverySteps, List.countP_eq_zero, Call.isInsert]
  · rw [after_trace, written_append, written_lines]
    simp [discoverySteps, written]

/-- Scenario of C1: buckets `logs-2023`, `logs-2024`, `media`, pattern
`logs-*`, no `-apply`: the two `logs-` buckets are reported and nothing is
pulled or recorded. -/
theorem dry_run_has_no_side_effects_witness :
    (Do (sampleEnv sampleBuckets none (fun _ => false) (fun _ => false))
        [ascii "-remote=cloud1", ascii "-bucketPattern=logs-*"] []).err = none ∧
    (Do (sampleEnv sampleBuckets none (fun _ => false) (fun _ => false))
        [ascii "-remote=cloud1", ascii "-bucketPattern=logs-*"] []).trace.countP Call.isSync = 0 ∧
    (Do (sampleEnv sampleBuckets none (fun _ => false) (fun _ => false))
        [ascii "-remote=cloud1", ascii "-bucketPattern=logs-*"] []).trace.countP Call.isInsert = 0 ∧
    written (Do (sampleEnv sampleBuckets none (fun _ => false) (fun _ => false))
        [ascii "-remote=cloud1", ascii "-bucketPattern=logs-*"] []).trace
      = (matching (ascii "logs-*") sampleBuckets).map bucketLine ∧
    (Do (sampleEnv sampleBuckets none (fun _ => false) (fun _ => false))
        [ascii "-remote=cloud1", ascii "-bucketPattern=logs-*"] []).state = [] ∧
    (matching (ascii "logs-*") sampleBuckets).map bucketLine
      = [ascii "bucket logs-2023\n", ascii "bucket logs-2024\n"] :=
  have h := dry_run_has_no_side_effects
    (sampleEnv sampleBuckets none (fun _ => false) (fun _ => false))
    [ascii "-remote=cloud1", ascii "-bucketPattern=logs-*"] []
    ⟨ascii "cloud1", ascii "logs-*", false⟩ (ascii "cloud1") () sampleBuckets (ascii "/buckets")
    [] [] [] [] (by decide) (by decide) rfl rfl rfl rfl rfl
  ⟨h.1, h.2.1, h.2.2.1, h.2.2.2.1, h.2.2.2.2, by decide⟩

/-- C3. Apply-mode call trace: when `apply` is true, the remote name is not
empty and every collaborator succeeds, `Do` returns nil and its pulls and
mapping writes are, for each retained bucket in listing order,
`syncMetadata(dir, true, remoteConf, loc)` then `InsertMountMapping(dir, loc)`
with `dir = FullPath(root).Child(name)` and
`loc = {Name: remote, Bucket: name, Path: "/"}`. -/
theorem apply_mode_call_trace (env : Env σ E Conf Client) (args : List GoString) (st : σ)
    (flags : Flags) (conf : Conf) (client : Client) (buckets : List RemoteBucket)
    (root : GoString) (st1 st2 st3 st4 : σ)
    (hparse : Parse Flags.defaults args = (flags, false))
    (hremote : flags.remote ≠ [])
    (happly : flags.apply = true)
    (hconf : env.ReadRemoteStorageConf flags.remote st = (Except.ok conf, st1))
    (hclient : env.GetRemoteStorage conf st1 = (Except.ok client, st2))
    (hlist : env.ListBuckets client st2 = (Except.ok buckets, st3))
    (hroot : env.readFilerBucketsPath st3 = (Except.ok root, st4))
    (hpull : ∀ dir m c loc s, (env.syncMetadata dir m c loc s).1 = none)
    (hsave : ∀ dir loc s, (env.InsertMountMapping dir loc s).1 = none) :
    (Do env args st).err = none ∧
    (Do env args st).trace.filter Call.isApply
      = (matching flags.bucketPattern buckets).flatMap (fun b =>
          [Call.syncMetadata (Child root b.Name) true conf
              { Name := flags.remote, Bucket := b.Name, Path := ascii "/" } none,
            Call.InsertMountMapping (Child root b.Name)
              { Name := flags.remote, Bucket := b.Name, Path := ascii "/" } none]) := by
  rw [Do_discovered env args st flags conf client buckets root st1 st2 st3 st4
    hparse hremote hconf hclient hlist hroot, happly]
  have h := mountLoop_apply_ok env flags.remote conf root
    (matching flags.bucketPattern buckets) st4 hpull hsave
  refine ⟨by rw [after_err]; exact h.1, ?_⟩
  rw [after_trace, h.2, List.filter_append, List.filter_flatMap]
  simp [discoverySteps, mountedSteps, Call.isApply, Call.isSync, Call.isInsert, locationOf]

/-- Scenario of C3: buckets `logs-2023`, `logs-2024`, `media`, empty pattern,
`-apply`, root `/buckets`: three pulls and three mapping writes, each pull
right before its own mapping write, on `/buckets/logs-2023`,
`/buckets/logs-2024` and `/buckets/media`. -/
theorem apply_mode_call_trace_witness :
    (Do (sampleEnv sampleBuckets none (fun _ => false) (fun _ => false))
        [ascii "-remote=cloud1", ascii "-apply"] []).err = none ∧
    (Do (sampleEnv sampleBuckets none (fun _ => false) (fun _ => false))
        [ascii "-remote=cloud1", ascii "-apply"] []).trace.filter Call.isApply
      = [Call.syncMetadata (ascii "/buckets/logs-2023") true (ascii "cloud1")
            ⟨ascii "cloud1", ascii "logs-2023", ascii "/"⟩ none,
          Call.InsertMountMapping (ascii "/buckets/logs-2023")
            ⟨ascii "cloud1", ascii "logs-2023", ascii "/"⟩ none,
          Call.syncMetadata (ascii "/buckets/logs-2024") true (ascii "cloud1")
            ⟨ascii "cloud1", ascii "logs-2024", ascii "/"⟩ none,
          Call.InsertMountMapping (ascii "/buckets/logs-2024")
            ⟨ascii "cloud1", ascii "logs-2024", ascii "/"⟩ none,
          Call.syncMetadata (ascii "/buckets/media") true (ascii "cloud1")
            ⟨ascii "cloud1", ascii "media", ascii "/"⟩ none,
          Call.InsertMountMapping (ascii "/buckets/media")
            ⟨ascii "cloud1", ascii "media", ascii "/"⟩ none] :=
  have h := apply_mode_call_trace
    (sampleEnv sampleBuckets none (fun _ => false) (fun _ => false))
    [ascii "-remote=cloud1", ascii "-apply"] []
    ⟨ascii "cloud1", [], true⟩ (ascii "cloud1") () sampleBuckets (ascii "/buckets")
    [] [] [] [] (by decide) (by decide) rfl rfl rfl rfl rfl
    (fun _ _ _ _ _ => rfl) (fun _ _ _ => rfl)
  ⟨h.1, h.2.trans (by decide)⟩

/-- C5, as amended. Status mode: when the flag set accepts the arguments and
leaves `remote` empty, whatever `bucketPattern` and `apply` are, `Do` calls
`listExistingRemoteStorageMounts` and nothing else, and returns the error of
that call unchanged. -/
theorem status_mode_when_flags_parse (env : Env σ E Conf Client) (args : List GoString) (st : σ)
    (flags : Flags)
    (hparse : Parse Flags.defaults args = (flags, false))
    (hremote : flags.remote = []) :
    (Do env args st).trace
      = [Call.listExistingRemoteStorageMounts (env.listExistingRemoteStorageMounts st).1] ∧
    (Do env args st).err
      = (env.listExistingRemoteStorageMounts st).1.map GoError.collaborator ∧
    (Do env args st).state = (env.listExistingRemoteStorageMounts st).2 := by
  simp [Do, hparse, hremote]

/-- Status mode at `-bucketPattern=x -apply` without `-remote`. -/
theorem status_mode_when_flags_parse_witness :
    (Do (sampleEnv sampleBuckets none (fun _ => false) (fun _ => false))
        [ascii "-bucketPattern=x", ascii "-apply"] []).trace
      = [Call.listExistingRemoteStorageMounts
          ((sampleEnv sampleBuckets none (fun _ => false)
            (fun _ => false)).listExistingRemoteStorageMounts []).1] ∧
    (Do (sampleEnv sampleBuckets none (fun _ => false) (fun _ => false))
        [ascii "-bucketPattern=x", ascii "-apply"] []).err
      = ((sampleEnv sampleBuckets none (fun _ => false)
            (fun _ => false)).listExistingRemoteStorageMounts []).1.map GoError.collaborator ∧
    (Do (sampleEnv sampleBuckets none (fun _ => false) (fun _ => false))
        [ascii "-bucketPattern=x", ascii "-apply"] []).state
      = ((sampleEnv sampleBuckets none (fun _ => false)
            (fun _ => false)).listExistingRemoteStorageMounts []).2 :=
  status_mode_when_flags_parse
    (sampleEnv sampleBuckets none (fun _ => false) (fun _ => false))
    [ascii "-bucketPattern=x", ascii "-apply"] [] ⟨[], ascii "x", true⟩ (by decide) rfl

/-- C5 as stated fails: with the arguments `-apply=maybe` the remote flag is
absent (the variable keeps its default `""`), yet `Do` makes no call at all,
not even `listExistingRemoteStorageMounts`. -/
theorem status_mode_counterexample :
    (Parse Flags.defaults [ascii "-apply=maybe"]).1.remote = [] ∧
    (Do (sampleEnv sampleBuckets none (fun _ => false) (fun _ => false))
        [ascii "-apply=maybe"] []).trace = [] ∧
    ¬ (∃ err, (Do (sampleEnv sampleBuckets none (fun _ => false) (fun _ => false))
        [ascii "-apply=maybe"] []).trace = [Call.listExistingRemoteStorageMounts err]) := by
  refine ⟨by decide, by decide, ?_⟩
  rintro ⟨err, h⟩
  have h0 : (Do (sampleEnv sampleBuckets none (fun _ => false) (fun _ => false))
      [ascii "-apply=maybe"] []).trace = [] := by decide
  rw [h0] at h
  exact List.noConfusion h

/-- C8. Mount target naming is injective in the bucket name: for every
buckets root, `FullPath(root).Child(name1) = FullPath(root).Child(name2)` only
when `name1 = name2`, whatever bytes the names contain. -/
theorem mount_target_injective (root name1 name2 : GoString) :
    Child root name1 = Child root name2 ↔ name1 = name2 := by
  constructor
  · intro h
    unfold Child at h
    split at h
    · exact List.append_cancel_left h
    · have := List.append_cancel_left h
      exact List.cons_injective this
  · intro h
    rw [h]

/-- C10. Flag-parse failures are swallowed: when the flag set rejects the
arguments, `Do` returns nil, writes nothing and calls no collaborator. -/
theorem rejected_flags_are_swallowed (env : Env σ E Conf Client) (args : List GoString)
    (st : σ) (hreject : (Parse Flags.defaults args).2 = true) :
    (Do env args st).err = none ∧ (Do env args st).trace = [] ∧ (Do env args st).state = st := by
  unfold Do
  split
  · exact ⟨rfl, rfl, rfl⟩
  · rename_i flags h
    rw [h] at hreject
    exact absurd hreject (by simp)

/-- An unknown flag and a non-boolean value for `apply`: the argument lists
`-remote=cloud1 -bogus` and `-remote=cloud1 -apply=maybe` are rejected, and
`Do` returns nil without a step. -/
theorem rejected_flags_are_swallowed_witness :
    ((Parse Flags.defaults [ascii "-remote=cloud1", ascii "-bogus"]).2 = true ∧
      (Do (sampleEnv sampleBuckets none (fun _ => false) (fun _ => false))
        [ascii "-remote=cloud1", ascii "-bogus"] []).err = none ∧
      (Do (sampleEnv sampleBuckets none (fun _ => false) (fun _ => false))
        [ascii "-remote=cloud1", ascii "-bogus"] []).trace = [] ∧
      (Do (sampleEnv sampleBuckets none (fun _ => false) (fun _ => false))
        [ascii "-remote=cloud1", ascii "-bogus"] []).state = []) ∧
    ((Parse Flags.defaults [ascii "-remote=cloud1", ascii "-apply=maybe"]).2 = true ∧
      (Do (sampleEnv sampleBuckets none (fun _ => false) (fun _ => false))
        [ascii "-remote=cloud1", ascii "-apply=maybe"] []).err = none ∧
      (Do (sampleEnv sampleBuckets none (fun _ => false) (fun _ => false))
        [ascii "-remote=cloud1", ascii "-apply=maybe"] []).trace = [] ∧
      (Do (sampleEnv sampleBuckets none (fun _ => false) (fun _ => false))
        [ascii "-remote=cloud1", ascii "-apply=maybe"] []).state = []) :=
  ⟨⟨by decide, rejected_flags_are_swallowed
      (sampleEnv sampleBuckets none (fun _ => false) (fun _ => false))
      [ascii "-remote=cloud1", ascii "-bogus"] [] (by decide)⟩,
    ⟨by decide, rejected_flags_are_swallowed
      (sampleEnv sampleBuckets none (fun _ => false) (fun _ => false))
      [ascii "-remote=cloud1", ascii "-apply=maybe"] [] (by decide)⟩⟩

/-- C2. Fail-fast with partial effects: in apply mode, once discovery has
succeeded, let `c` be a call of the run that failed. Then `Do` returns an
error, `c` is the first failing call and the last step of the run. If `c` is
the pull of the retained bucket number `k` (counting from 0, that is `k` pulls
were made before it), the pulls and mapping writes of the run are: one
successful pull followed by one successful mapping write for each of the `k`
retained buckets before it, in listing order, then the failed pull, and
nothing else. If `c` is the mapping write of the retained bucket number `k`,
they are the same `k` pairs, then the successful pull and the failed mapping
write of bucket `k`, and nothing else. -/
theorem fail_fast_partial_effects (env : Env σ E Conf Client) (args : List GoString) (st : σ)
    (flags : Flags) (conf : Conf) (client : Client) (buckets : List RemoteBucket)
    (root : GoString) (st1 st2 st3 st4 : σ)
    (pre post : List (Call E Conf Client)) (c : Call E Conf Client) (k : Nat)
    (hparse : Parse Flags.defaults args = (flags, false))
    (hremote : flags.remote ≠ [])
    (happly : flags.apply = true)
    (hconf : env.ReadRemoteStorageConf flags.remote st = (Except.ok conf, st1))
    (hclient : env.GetRemoteStorage conf st1 = (Except.ok client, st2))
    (hlist : env.ListBuckets client st2 = (Except.ok buckets, st3))
    (hroot : env.readFilerBucketsPath st3 = (Except.ok root, st4))
    (htrace : (Do env args st).trace = pre ++ c :: post)
    (hc : c.failed = true) :
    (Do env args st).err ≠ none ∧ post = [] ∧ (∀ x ∈ pre, x.failed = false) ∧
    (c.isSync = true → pre.countP Call.isSync = k →
      ∃ b e, (matching flags.bucketPattern buckets)[k]? = some b ∧
        c = Call.syncMetadata (Child root b.Name) true conf (locationOf flags.remote b) (some e) ∧
        (Do env args st).trace.filter Call.isApply
          = ((matching flags.bucketPattern buckets).take k).flatMap
              (mountedCalls flags.remote conf root) ++ [c]) ∧
    (c.isInsert = true → pre.countP Call.isInsert = k →
      ∃ b e, (matching flags.bucketPattern buckets)[k]? = some b ∧
        c = Call.InsertMountMapping (Child root b.Name) (locationOf flags.remote b) (some e) ∧
        (Do env args st).trace.filter Call.isApply
          = ((matching flags.bucketPattern buckets).take k).flatMap
              (mountedCalls flags.remote conf root)
            ++ [Call.syncMetadata (Child root b.Name) true conf (locationOf flags.remote b) none,
                c]) := by
  have hdo := Do_discovered env args st flags conf client buckets root st1 st2 st3 st4
    hparse hremote hconf hclient hlist hroot
  rw [happly] at hdo
  have hshape := mountLoop_apply env flags.remote conf root
    (matching flags.bucketPattern buckets) st4
  rw [hdo, after_trace] at htrace
  rw [hdo, after_err, after_trace]
  have hdisc : ∀ y ∈ discoverySteps (E := E) flags.remote conf client, y.failed = false := by
    simp [discoverySteps, Call.failed, Call.error]
  have hdiscA : (discoverySteps (E := E) flags.remote conf client).filter Call.isApply = [] := by
    simp [discoverySteps, Call.isApply, Call.isSync, Call.isInsert]
  have hdiscS : (discoverySteps (E := E) flags.remote conf client).countP Call.isSync = 0 := by
    simp [discoverySteps, Call.isSync, List.countP_eq_zero]
  have hdiscI : (discoverySteps (E := E) flags.remote conf client).countP Call.isInsert = 0 := by
    simp [discoverySteps, Call.isInsert, List.countP_eq_zero]
  rcases hshape with ⟨_, h2⟩ | ⟨k1, b, e, hk1, h1, h2⟩ | ⟨k1, b, e, hk1, h1, h2⟩
  · -- no call failed: `c` cannot exist
    exfalso
    have hmem : c ∈ discoverySteps flags.remote conf client
        ++ (mountLoop env flags.remote [] true conf root
          (matching flags.bucketPattern buckets) st4).trace := by
      rw [htrace]; simp
    rw [h2] at hmem
    rcases List.mem_append.1 hmem with hm | hm
    · rw [hdisc c hm] at hc; exact absurd hc (by simp)
    · rw [mountedSteps_ok flags.remote conf root _ c hm] at hc; exact absurd hc (by simp)
  · -- the pull of bucket `k1` failed
    have hlen := length_take_of_getElem? _ k1 b hk1
    rw [h2] at htrace ⊢
    have hsplit := failed_call_is_last
      (discoverySteps flags.remote conf client
        ++ (((matching flags.bucketPattern buckets).take k1).flatMap
          (mountedSteps flags.remote conf root) ++ [Call.Fprintf (bucketLine b)]))
      (Call.syncMetadata (Child root b.Name) true conf (locationOf flags.remote b) (some e))
      pre post c (by rw [← htrace]; simp [pullFailedSteps]) (by
        intro y hy
        rcases List.mem_append.1 hy with hy | hy
        · exact hdisc y hy
        · rcases List.mem_append.1 hy with hy | hy
          · exact mountedSteps_ok flags.remote conf root _ y hy
          · simp only [List.mem_singleton] at hy
            subst hy; rfl) hc
    obtain ⟨hpreq, hceq, hpost⟩ := hsplit
    refine ⟨by rw [h1]; simp, hpost, ?_, ?_, ?_⟩
    · rw [hpreq]
      intro y hy
      rcases List.mem_append.1 hy with hy | hy
      · exact hdisc y hy
      · rcases List.mem_append.1 hy with hy | hy
        · exact mountedSteps_ok flags.remote conf root _ y hy
        · simp only [List.mem_singleton] at hy
          subst hy; rfl
    · intro _ hk
      have : k = k1 := by
        rw [← hk, hpreq, List.countP_append, List.countP_append, hdiscS,
          countP_isSync_mounted, hlen]
        simp [Call.isSync]
      subst this
      refine ⟨b, e, hk1, hceq, ?_⟩
      rw [List.filter_append, List.filter_append, hdiscA, filter_isApply_mounted, hceq]
      simp [pullFailedSteps, Call.isApply, Call.isSync, Call.isInsert]
    · intro hins
      rw [hceq] at hins
      exact absurd hins (by simp [Call.isInsert])
  · -- the mapping write of bucket `k1` failed
    have hlen := length_take_of_getElem? _ k1 b hk1
    rw [h2] at htrace ⊢
    have hsplit := failed_call_is_last
      (discoverySteps flags.remote conf client
        ++ (((matching flags.bucketPattern buckets).take k1).flatMap
          (mountedSteps flags.remote conf root) ++ [Call.Fprintf (bucketLine b),
            Call.syncMetadata (Child root b.Name) true conf (locationOf flags.remote b) none]))
      (Call.InsertMountMapping (Child root b.Name) (locationOf flags.remote b) (some e))
      pre post c (by rw [← htrace]; simp [saveFailedSteps]) (by
        intro y hy
        rcases List.mem_append.1 hy with hy | hy
        · exact hdisc y hy
        · rcases List.mem_append.1 hy with hy | hy
          · exact mountedSteps_ok flags.remote conf root _ y hy
          · simp only [List.mem_cons, List.mem_singleton, List.not_mem_nil, or_false] at hy
            rcases hy with h | h <;> subst h <;> rfl) hc
    obtain ⟨hpreq, hceq, hpost⟩ := hsplit
    refine ⟨by rw [h1]; simp, hpost, ?_, ?_, ?_⟩
    · rw [hpreq]
      intro y hy
      rcases List.mem_append.1 hy with hy | hy
      · exact hdisc y hy
      · rcases List.mem_append.1 hy with hy | hy
        · exact mountedSteps_ok flags.remote conf root _ y hy
        · simp only [List.mem_cons, List.mem_singleton, List.not_mem_nil, or_false] at hy
          rcases hy with h | h <;> subst h <;> rfl
    · intro hsync
      rw [hceq] at hsync
      exact absurd hsync (by simp [Call.isSync])
    · intro _ hk
      have : k = k1 := by
        rw [← hk, hpreq, List.countP_append, List.countP_append, hdiscI,
          countP_isInsert_mounted, hlen]
        simp [Call.isInsert]
      subst this
      refine ⟨b, e, hk1, hceq, ?_⟩
      rw [List.filter_append, List.filter_append, hdiscA, filter_isApply_mounted, hceq]
      simp [saveFailedSteps, Call.isApply, Call.isSync, Call.isInsert]

/-- Two runs on `logs-2023`, `logs-2024`, `media` with `-apply`: in the first
the pull of `logs-2024` fails, in the second its mapping write. In both,
`logs-2023` is mounted and `media` is not touched. -/
theorem fail_fast_partial_effects_witness :
    ((Do (sampleEnv sampleBuckets none (fun n => n == ascii "logs-2024") (fun _ => false))
        [ascii "-remote=cloud1", ascii "-apply"] []).err ≠ none ∧
      (Do (sampleEnv sampleBuckets none (fun n => n == ascii "logs-2024") (fun _ => false))
        [ascii "-remote=cloud1", ascii "-apply"] []).trace.filter Call.isApply
        = [samplePull (ascii "logs-2023") none, sampleSave (ascii "logs-2023") none,
            samplePull (ascii "logs-2024") (some (ascii "pull failed"))]) ∧
    ((Do (sampleEnv sampleBuckets none (fun _ => false) (fun n => n == ascii "logs-2024"))
        [ascii "-remote=cloud1", ascii "-apply"] []).err ≠ none ∧
      (Do (sampleEnv sampleBuckets none (fun _ => false) (fun n => n == ascii "logs-2024"))
        [ascii "-remote=cloud1", ascii "-apply"] []).trace.filter Call.isApply
        = [samplePull (ascii "logs-2023") none, sampleSave (ascii "logs-2023") none,
            samplePull (ascii "logs-2024") none,
            sampleSave (ascii "logs-2024") (some (ascii "save failed"))]) :=
  have h1 := fail_fast_partial_effects
    (sampleEnv sampleBuckets none (fun n => n == ascii "logs-2024") (fun _ => false))
    [ascii "-remote=cloud1", ascii "-apply"] []
    ⟨ascii "cloud1", [], true⟩ (ascii "cloud1") () sampleBuckets (ascii "/buckets")
    [] [] [] []
    (sampleDiscovery ++ [Call.Fprintf (ascii "bucket logs-2023\n"),
      samplePull (ascii "logs-2023") none, sampleSave (ascii "logs-2023") none,
      Call.Fprintf (ascii "bucket logs-2024\n")])
    []
    (samplePull (ascii "logs-2024") (some (ascii "pull failed")))
    1 (by decide) (by decide) rfl rfl rfl rfl rfl (by decide) rfl
  have h2 := fail_fast_partial_effects
    (sampleEnv sampleBuckets none (fun _ => false) (fun n => n == ascii "logs-2024"))
    [ascii "-remote=cloud1", ascii "-apply"] []
    ⟨ascii "cloud1", [], true⟩ (ascii "cloud1") () sampleBuckets (ascii "/buckets")
    [] [] [] []
    (sampleDiscovery ++ [Call.Fprintf (ascii "bucket logs-2023\n"),
      samplePull (ascii "logs-2023") none, sampleSave (ascii "logs-2023") none,
      Call.Fprintf (ascii "bucket logs-2024\n"), samplePull (ascii "logs-2024") none])
    []
    (sampleSave (ascii "logs-2024") (some (ascii "save failed")))
    1 (by decide) (by decide) rfl rfl rfl rfl rfl (by decide) rfl
  ⟨⟨h1.1, by
      obtain ⟨b, e, _, _, ht⟩ := h1.2.2.2.1 rfl (by decide)
      rw [ht]
      decide⟩,
    ⟨h2.1, by
      obtain ⟨b, e, hb, _, ht⟩ := h2.2.2.2.2 rfl (by decide)
      have hb1 : b = ⟨ascii "logs-2024"⟩ := Option.some.inj (hb.symm.trans (by decide))
      subst hb1
      rw [ht]
      decide⟩⟩

/-- C9, as amended. Fatal errors propagate with context: in a run with a remote
name, a collaborator call that fails is the last step of the run, and `Do`
returns an error made by `fmt.Errorf` whose message ends with the text of the
collaborator's error. For config resolution, client construction and bucket
listing the message contains the remote name; for the pull and the mapping
write it contains the rendering of the location, whose name is the remote
name and whose bucket is the bucket at hand (and, for the mapping write, the
local directory); for the buckets-root read the message is
`read filer buckets path: ` followed by the error text, and nothing else. -/
theorem fatal_errors_propagate (env : Env σ E Conf Client) (args : List GoString) (st : σ)
    (flags : Flags) (pre post : List (Call E Conf Client)) (c : Call E Conf Client) (e : E)
    (hparse : Parse Flags.defaults args = (flags, false))
    (hremote : flags.remote ≠ [])
    (htrace : (Do env args st).trace = pre ++ c :: post)
    (hc : c.error = some e) :
    post = [] ∧
    ∃ msg, (Do env args st).err = some (GoError.errorf msg) ∧ env.Error e <:+ msg ∧
      (∀ name, c = Call.ReadRemoteStorageConf name (some e) → flags.remote <:+: msg) ∧
      (∀ conf, c = Call.GetRemoteStorage conf (some e) → flags.remote <:+: msg) ∧
      (∀ client, c = Call.ListBuckets client (some e) → flags.remote <:+: msg) ∧
      (c = Call.readFilerBucketsPath (some e) →
        msg = ascii "read filer buckets path: " ++ env.Error e) ∧
      (∀ dir m conf loc, c = Call.syncMetadata dir m conf loc (some e) →
        loc.Name = flags.remote ∧ env.formatLocation loc <:+: msg) ∧
      (∀ dir loc, c = Call.InsertMountMapping dir loc (some e) →
        loc.Name = flags.remote ∧ dir <:+: msg ∧ env.formatLocation loc <:+: msg) := by
  have hfailed : c.failed = true := by simp [Call.failed, hc]
  rcases Do_shape env args st flags hparse hremote with ⟨_, h2⟩ | ⟨ok, x, msg, h1, h2, h3, h4⟩
  · exfalso
    have := h2 c (by rw [htrace]; simp)
    rw [hfailed] at this
    exact absurd this (by simp)
  · rw [h1] at htrace
    obtain ⟨_, hcx, hpost⟩ := failed_call_is_last ok x pre post c htrace h2 hfailed
    subst hcx
    refine ⟨hpost, msg, h3, ?_⟩
    cases h4 with
    | conf e1 =>
      simp only [Call.error, Option.some.injEq] at hc
      subst hc
      refine ⟨⟨_, rfl⟩, ?_, ?_, ?_, ?_, ?_, ?_⟩
      · intro _ _
        exact ⟨ascii "find configuration for ", ascii ": " ++ env.Error e1, by simp⟩
      all_goals simp
    | client conf1 e1 =>
      simp only [Call.error, Option.some.injEq] at hc
      subst hc
      refine ⟨⟨_, rfl⟩, ?_, ?_, ?_, ?_, ?_, ?_⟩
      · simp
      · intro _ _
        exact ⟨ascii "get storage client for ", ascii ": " ++ env.Error e1, by simp⟩
      all_goals simp
    | list client1 e1 =>
      simp only [Call.error, Option.some.injEq] at hc
      subst hc
      refine ⟨⟨_, rfl⟩, ?_, ?_, ?_, ?_, ?_, ?_⟩
      · simp
      · simp
      · intro _ _
        exact ⟨ascii "list buckets on ", ascii ": " ++ env.Error e1, by simp⟩
      all_goals simp
    | root e1 =>
      simp only [Call.error, Option.some.injEq] at hc
      subst hc
      refine ⟨⟨_, rfl⟩, ?_, ?_, ?_, ?_, ?_, ?_⟩
      all_goals simp
    | pull conf1 root1 b e1 =>
      simp only [Call.error, Option.some.injEq] at hc
      subst hc
      refine ⟨⟨_, rfl⟩, ?_, ?_, ?_, ?_, ?_, ?_⟩
      · simp
      · simp
      · simp
      · simp
      · intro dir m conf loc h
        simp only [Call.syncMetadata.injEq] at h
        obtain ⟨_, _, _, hloc, _⟩ := h
        subst hloc
        exact ⟨rfl, ⟨ascii "pull metadata on ", ascii ": " ++ env.Error e1, by
          simp [pullMessage]⟩⟩
      · simp
    | save root1 b e1 =>
      simp only [Call.error, Option.some.injEq] at hc
      subst hc
      refine ⟨⟨_, rfl⟩, ?_, ?_, ?_, ?_, ?_, ?_⟩
      · simp
      · simp
      · simp
      · simp
      · simp
      · intro dir loc h
        simp only [Call.InsertMountMapping.injEq] at h
        obtain ⟨hdir, hloc, _⟩ := h
        subst hloc hdir
        refine ⟨rfl, ⟨ascii "save mount mapping ", ascii " to "
            ++ env.formatLocation (locationOf flags.remote b) ++ ascii ": " ++ env.Error e1, by
          simp [saveMessage]⟩, ⟨ascii "save mount mapping " ++ Child root1 b.Name ++ ascii " to ",
            ascii ": " ++ env.Error e1, by simp [saveMessage]⟩⟩

/-- A failed pull: the run `-remote=cloud1 -apply` in which the pull of
`logs-2024` fails. -/
theorem fatal_errors_propagate_witness :
    ([] : List (Call GoString GoString Unit)) = [] ∧
    ∃ msg, (Do (sampleEnv sampleBuckets none (fun n => n == ascii "logs-2024") (fun _ => false))
        [ascii "-remote=cloud1", ascii "-apply"] []).err = some (GoError.errorf msg) ∧
      ascii "pull failed" <:+ msg ∧
      sampleFormat ⟨ascii "cloud1", ascii "logs-2024", ascii "/"⟩ <:+: msg :=
  have h := fatal_errors_propagate
    (sampleEnv sampleBuckets none (fun n => n == ascii "logs-2024") (fun _ => false))
    [ascii "-remote=cloud1", ascii "-apply"] [] ⟨ascii "cloud1", [], true⟩
    (sampleDiscovery ++ [Call.Fprintf (ascii "bucket logs-2023\n"),
      samplePull (ascii "logs-2023") none, sampleSave (ascii "logs-2023") none,
      Call.Fprintf (ascii "bucket logs-2024\n")])
    []
    (samplePull (ascii "logs-2024") (some (ascii "pull failed")))
    (ascii "pull failed") (by decide) (by decide) (by decide) rfl
  ⟨h.1, h.2.elim (fun msg hm =>
    ⟨msg, hm.1, hm.2.1, (hm.2.2.2.2.2.2.1 _ _ _ _ rfl).2⟩)⟩

/-- C9 as stated fails: when the buckets-root read fails, the error `Do`
returns is `read filer buckets path: boom`, which names neither the remote
`cloud1` nor any bucket of the listing. -/
theorem fatal_errors_counterexample :
    (Do (sampleEnv sampleBuckets (some (ascii "boom")) (fun _ => false) (fun _ => false))
        [ascii "-remote=cloud1", ascii "-apply"] []).trace
      = [Call.ReadRemoteStorageConf (ascii "cloud1") none,
          Call.GetRemoteStorage (ascii "cloud1") none,
          Call.ListBuckets () none, Call.readFilerBucketsPath (some (ascii "boom"))] ∧
    (Do (sampleEnv sampleBuckets (some (ascii "boom")) (fun _ => false) (fun _ => false))
        [ascii "-remote=cloud1", ascii "-apply"] []).err
      = some (GoError.errorf (ascii "read filer buckets path: boom")) ∧
    ¬ (ascii "cloud1" <:+: ascii "read filer buckets path: boom") ∧
    ∀ b ∈ sampleBuckets, ¬ (b.Name <:+: ascii "read filer buckets path: boom") := by
  refine ⟨by decide, by decide, by decide, by decide⟩

/-- C6, as amended. Idempotent re-run: let a first run with `-apply` and a
remote name return nil, and let a second run with the same arguments start in
a world where config resolution, client construction, bucket listing and the
buckets-root read answer as they did in the first run, whose mapping store
holds a mapping for every directory the first run wrote and is an upsert
store, and let no metadata pull of the second run fail. Then the second run
returns nil too, makes the same steps as the first run, among them one pull
followed by one mapping write for every retained bucket, in listing order,
and never calls `listExistingRemoteStorageMounts`. -/
theorem rerun_is_idempotent (env : Env σ E Conf Client) (mapped : σ → List GoString)
    (args : List GoString) (st later : σ) (flags : Flags) (conf : Conf) (client : Client)
    (buckets : List RemoteBucket) (root : GoString) (s1 s2 s3 s4 t1 t2 t3 t4 : σ)
    (hparse : Parse Flags.defaults args = (flags, false))
    (hremote : flags.remote ≠ [])
    (happly : flags.apply = true)
    (hconf : env.ReadRemoteStorageConf flags.remote st = (Except.ok conf, s1))
    (hclient : env.GetRemoteStorage conf s1 = (Except.ok client, s2))
    (hlist : env.ListBuckets client s2 = (Except.ok buckets, s3))
    (hroot : env.readFilerBucketsPath s3 = (Except.ok root, s4))
    (hfirst : (Do env args st).err = none)
    (hconf2 : env.ReadRemoteStorageConf flags.remote later = (Except.ok conf, t1))
    (hclient2 : env.GetRemoteStorage conf t1 = (Except.ok client, t2))
    (hlist2 : env.ListBuckets client t2 = (Except.ok buckets, t3))
    (hroot2 : env.readFilerBucketsPath t3 = (Except.ok root, t4))
    (hstore : UpsertStore env mapped)
    (hheld : ∀ d ∈ writtenDirs (Do env args st).trace, d ∈ mapped later)
    (hpull : ∀ c ∈ (Do env args later).trace, c.isSync = true → c.failed = false) :
    (Do env args later).err = none ∧
    (Do env args later).trace = (Do env args st).trace ∧
    (Do env args later).trace.filter Call.isApply
      = (matching flags.bucketPattern buckets).flatMap
          (mountedCalls flags.remote conf root) ∧
    ∀ c ∈ (Do env args later).trace, ∀ err,
      c ≠ Call.listExistingRemoteStorageMounts err := by
  have hdo1 := Do_discovered env args st flags conf client buckets root s1 s2 s3 s4
    hparse hremote hconf hclient hlist hroot
  have hdo2 := Do_discovered env args later flags conf client buckets root t1 t2 t3 t4
    hparse hremote hconf2 hclient2 hlist2 hroot2
  rw [happly] at hdo1 hdo2
  rw [hdo1, after_err] at hfirst
  have htr1 := mountLoop_ok_trace env flags.remote conf root _ s4 hfirst
  have hheld4 : ∀ b ∈ matching flags.bucketPattern buckets, Child root b.Name ∈ mapped t4 := by
    intro b hb
    have hw : Child root b.Name ∈ writtenDirs (Do env args st).trace := by
      rw [hdo1, after_trace, htr1, writtenDirs_append, writtenDirs_mounted]
      exact List.mem_append_right _ (List.mem_map.2 ⟨b, hb, rfl⟩)
    have h1 := hstore.conf_keeps flags.remote later _ (hheld _ hw)
    rw [hconf2] at h1
    have h2 := hstore.client_keeps conf t1 _ h1
    rw [hclient2] at h2
    have h3 := hstore.list_keeps client t2 _ h2
    rw [hlist2] at h3
    have h4 := hstore.root_keeps t3 _ h3
    rw [hroot2] at h4
    exact h4
  have hagain := mountLoop_again env mapped flags.remote conf root
    (matching flags.bucketPattern buckets) t4 hstore hheld4
    (fun c hc => hpull c (by
      rw [hdo2, after_trace]
      exact List.mem_append_right _ hc))
  have htr : (Do env args later).trace
      = discoverySteps flags.remote conf client
        ++ (matching flags.bucketPattern buckets).flatMap
          (mountedSteps flags.remote conf root) := by
    rw [hdo2, after_trace, hagain.2]
  refine ⟨?_, ?_, ?_, ?_⟩
  · rw [hdo2, after_err]
    exact hagain.1
  · rw [htr, hdo1, after_trace, htr1]
  · rw [htr, List.filter_append, filter_isApply_mounted]
    simp [discoverySteps, Call.isApply, Call.isSync, Call.isInsert]
  · intro c hc err hce
    rw [htr] at hc
    subst hce
    rcases List.mem_append.1 hc with hc | hc
    · simp [discoverySteps] at hc
    · simp [List.mem_flatMap, mountedSteps] at hc

/-- A store that takes at most three new directories, with a pull that
succeeds on a mounted directory: the first run on the empty store mounts
`logs-2023`, `logs-2024`, `media` and fills the store; the second run, on the
store the first run left, succeeds all the same, since it writes upon
existing mappings, and pulls every bucket again. -/
theorem rerun_is_idempotent_witness :
    (Do (storeEnv sampleBuckets 3 false) [ascii "-remote=cloud1", ascii "-apply"] []).err
      = none ∧
    (Do (storeEnv sampleBuckets 3 false) [ascii "-remote=cloud1", ascii "-apply"]
      (Do (storeEnv sampleBuckets 3 false)
        [ascii "-remote=cloud1", ascii "-apply"] []).state).err = none ∧
    (Do (storeEnv sampleBuckets 3 false) [ascii "-remote=cloud1", ascii "-apply"]
      (Do (storeEnv sampleBuckets 3 false)
        [ascii "-remote=cloud1", ascii "-apply"] []).state).trace
      = (Do (storeEnv sampleBuckets 3 false)
        [ascii "-remote=cloud1", ascii "-apply"] []).trace ∧
    (Do (storeEnv sampleBuckets 3 false) [ascii "-remote=cloud1", ascii "-apply"]
      (Do (storeEnv sampleBuckets 3 false)
        [ascii "-remote=cloud1", ascii "-apply"] []).state).trace.filter Call.isApply
      = [samplePull (ascii "logs-2023") none, sampleSave (ascii "logs-2023") none,
          samplePull (ascii "logs-2024") none, sampleSave (ascii "logs-2024") none,
          samplePull (ascii "media") none, sampleSave (ascii "media") none] :=
  have h := rerun_is_idempotent (storeEnv sampleBuckets 3 false) MountStore.dirs
    [ascii "-remote=cloud1", ascii "-apply"] []
    (Do (storeEnv sampleBuckets 3 false) [ascii "-remote=cloud1", ascii "-apply"] []).state
    ⟨ascii "cloud1", [], true⟩ (ascii "cloud1") () sampleBuckets (ascii "/buckets")
    [] [] [] []
    (Do (storeEnv sampleBuckets 3 false) [ascii "-remote=cloud1", ascii "-apply"] []).state
    (Do (storeEnv sampleBuckets 3 false) [ascii "-remote=cloud1", ascii "-apply"] []).state
    (Do (storeEnv sampleBuckets 3 false) [ascii "-remote=cloud1", ascii "-apply"] []).state
    (Do (storeEnv sampleBuckets 3 false) [ascii "-remote=cloud1", ascii "-apply"] []).state
    (by decide) (by decide) rfl rfl rfl rfl rfl (by decide) rfl rfl rfl rfl
    (storeEnv_upsertStore sampleBuckets 3 false) (by decide) (by decide)
  ⟨by decide, h.1, h.2.1, h.2.2.1⟩

/-- C6 as stated fails: a pull that sees the mapping store through `commandEnv`
may refuse a directory that is already mounted. The first run on the empty
store returns nil and leaves a mapping for each of the three directories; the
store is an upsert store, and config, client, listing and root are the same
in the second run; yet the second run, on the store the first run left, stops
at the pull of `logs-2023` and returns the error of line 98, having made one
pull and no mapping write where the first run made three of each. -/
theorem rerun_counterexample :
    (Do (storeEnv sampleBuckets 3 true) [ascii "-remote=cloud1", ascii "-apply"] []).err
      = none ∧
    (Do (storeEnv sampleBuckets 3 true) [ascii "-remote=cloud1", ascii "-apply"] []).trace
      = sampleDiscovery ++
        [Call.Fprintf (ascii "bucket logs-2023\n"),
          samplePull (ascii "logs-2023") none, sampleSave (ascii "logs-2023") none,
          Call.Fprintf (ascii "bucket logs-2024\n"),
          samplePull (ascii "logs-2024") none, sampleSave (ascii "logs-2024") none,
          Call.Fprintf (ascii "bucket media\n"),
          samplePull (ascii "media") none, sampleSave (ascii "media") none] ∧
    (Do (storeEnv sampleBuckets 3 true)
        [ascii "-remote=cloud1", ascii "-apply"] []).state.dirs
      = [ascii "/buckets/media", ascii "/buckets/logs-2024", ascii "/buckets/logs-2023"] ∧
    UpsertStore (storeEnv sampleBuckets 3 true) MountStore.dirs ∧
    (Do (storeEnv sampleBuckets 3 true) [ascii "-remote=cloud1", ascii "-apply"]
      (Do (storeEnv sampleBuckets 3 true)
        [ascii "-remote=cloud1", ascii "-apply"] []).state).err
      = some (GoError.errorf
          (ascii "pull metadata on name:cloud1 bucket:logs-2023 path:/: already mounted")) ∧
    (Do (storeEnv sampleBuckets 3 true) [ascii "-remote=cloud1", ascii "-apply"]
      (Do (storeEnv sampleBuckets 3 true)
        [ascii "-remote=cloud1", ascii "-apply"] []).state).trace
      = sampleDiscovery ++
        [Call.Fprintf (ascii "bucket logs-2023\n"),
          samplePull (ascii "logs-2023") (some (ascii "already mounted"))] := by
  refine ⟨by decide, by decide, by decide, storeEnv_upsertStore sampleBuckets 3 true,
    by decide, by decide⟩

/-- C4, as amended. Bucket filter exactness: in a run whose discovery calls
succeed (and, with `-apply`, whose pulls and mapping writes succeed), the
lines `Do` writes, and in apply mode the buckets it mounts, are those of the
buckets it retains, in listing order and with multiplicity. With the empty
pattern it retains the listing unchanged. With a non-empty pattern made of
`*`, `?` and literal bytes (no `[`, no backslash) and ASCII bucket names, it
retains exactly the buckets whose full name matches the pattern when `*`
matches any run of characters other than `/` (also none), `?` matches exactly
one character other than `/`, and any other character matches itself. -/
theorem bucket_filter_exactness (env : Env σ E Conf Client) (args : List GoString) (st : σ)
    (flags : Flags) (conf : Conf) (client : Client) (buckets : List RemoteBucket)
    (root : GoString) (st1 st2 st3 st4 : σ)
    (hparse : Parse Flags.defaults args = (flags, false))
    (hremote : flags.remote ≠ [])
    (hconf : env.ReadRemoteStorageConf flags.remote st = (Except.ok conf, st1))
    (hclient : env.GetRemoteStorage conf st1 = (Except.ok client, st2))
    (hlist : env.ListBuckets client st2 = (Except.ok buckets, st3))
    (hroot : env.readFilerBucketsPath st3 = (Except.ok root, st4))
    (hok : flags.apply = true →
      (∀ dir m c loc s, (env.syncMetadata dir m c loc s).1 = none) ∧
      (∀ dir loc s, (env.InsertMountMapping dir loc s).1 = none)) :
    written (Do env args st).trace
      = (matching flags.bucketPattern buckets).map bucketLine ∧
    (flags.apply = true →
      (Do env args st).trace.filter Call.isApply
        = (matching flags.bucketPattern buckets).flatMap
            (mountedCalls flags.remote conf root)) ∧
    (flags.bucketPattern = [] → matching flags.bucketPattern buckets = buckets) ∧
    (flags.bucketPattern ≠ [] → simplePattern flags.bucketPattern →
      (∀ b ∈ buckets, asciiName b.Name) →
      ∀ keep : RemoteBucket → Bool,
        (∀ b ∈ buckets, keep b = true ↔ GlobNoSeparator flags.bucketPattern b.Name) →
        matching flags.bucketPattern buckets = buckets.filter keep) := by
  have hdo := Do_discovered env args st flags conf client buckets root st1 st2 st3 st4
    hparse hremote hconf hclient hlist hroot
  have hdisc : written (discoverySteps (E := E) flags.remote conf client) = [] := by
    simp [discoverySteps, written]
  refine ⟨?_, ?_, ?_, ?_⟩
  · rw [hdo, after_trace, written_append, hdisc, List.nil_append]
    cases ha : flags.apply with
    | false => rw [mountLoop_dry, written_lines]
    | true =>
      obtain ⟨hp, hs⟩ := hok ha
      rw [(mountLoop_apply_ok env flags.remote conf root _ st4 hp hs).2, written_mounted]
  · intro ha
    obtain ⟨hp, hs⟩ := hok ha
    rw [hdo, after_trace, ha, (mountLoop_apply_ok env flags.remote conf root _ st4 hp hs).2,
      List.filter_append, filter_isApply_mounted]
    simp [discoverySteps, Call.isApply, Call.isSync, Call.isInsert]
  · intro hp
    simp [matching, hp]
  · intro hp hsimple hascii keep hkeep
    exact matching_eq_filter flags.bucketPattern buckets hp hsimple hascii keep hkeep

/-- The scenario `logs-*` on `logs-2023`, `logs-2024`, `media`: the pattern
is made of literal bytes and a star, the names are ASCII, and the two `logs-`
buckets are retained. -/
theorem bucket_filter_exactness_witness :
    written (Do (sampleEnv sampleBuckets none (fun _ => false) (fun _ => false))
        [ascii "-remote=cloud1", ascii "-bucketPattern=logs-*"] []).trace
      = (matching (ascii "logs-*") sampleBuckets).map bucketLine ∧
    matching (ascii "logs-*") sampleBuckets
      = sampleBuckets.filter (fun b => (ascii "logs-").isPrefixOf b.Name) ∧
    sampleBuckets.filter (fun b => (ascii "logs-").isPrefixOf b.Name)
      = [⟨ascii "logs-2023"⟩, ⟨ascii "logs-2024"⟩] :=
  have h := bucket_filter_exactness
    (sampleEnv sampleBuckets none (fun _ => false) (fun _ => false))
    [ascii "-remote=cloud1", ascii "-bucketPattern=logs-*"] []
    ⟨ascii "cloud1", ascii "logs-*", false⟩ (ascii "cloud1") () sampleBuckets (ascii "/buckets")
    [] [] [] [] (by decide) (by decide) rfl rfl rfl rfl (fun h => absurd h (by decide))
  ⟨h.1, h.2.2.2 (by decide) (by decide) (by decide)
    (fun b => (ascii "logs-").isPrefixOf b.Name) sample_logs_star, by decide⟩

/-- C4 as stated fails: the name `a/b` matches the pattern `*` when `*`
matches any run of characters of any kind, yet `Do` does not report the
bucket `a/b` under `-bucketPattern=*`, since `filepath.Match` lets neither `*`
nor `?` match the separator. Two more facts set the bounds of the amended
statement. The name `€` is one character (three bytes), yet `Match` reports
that it matches `*??`: the inner loop skips bytes, not characters, so `?` is
one character on ASCII names only. And `[a]` is a character class to `Match`,
not the three characters it is made of. -/
theorem bucket_filter_counterexample :
    (GlobAnyRun (ascii "*") (ascii "a/b") ∧
      written (Do (sampleEnv [⟨ascii "a/b"⟩] none (fun _ => false) (fun _ => false))
        [ascii "-remote=cloud1", ascii "-bucketPattern=*"] []).trace = [] ∧
      (Do (sampleEnv [⟨ascii "a/b"⟩] none (fun _ => false) (fun _ => false))
        [ascii "-remote=cloud1", ascii "-bucketPattern=*"] []).err = none) ∧
    (DecodeRuneInString [226, 130, 172] = (8364, 3) ∧
      Match (ascii "*??") [226, 130, 172] = (true, false)) ∧
    (GlobAnyRun (ascii "[a]") (ascii "[a]") ∧
      Match (ascii "[a]") (ascii "[a]") = (false, false) ∧
      Match (ascii "[a]") (ascii "a") = (true, false)) := by
  refine ⟨⟨?_, by decide, by decide⟩, ⟨by decide, by decide⟩, ⟨?_, by decide, by decide⟩⟩
  · have := @Glob.star (fun _ => False) [] [] (ascii "a/b") (by simp) Glob.nil
    simpa using this
  · exact Glob.lit 91 (by decide) (by decide)
      (Glob.lit 97 (by decide) (by decide) (Glob.lit 93 (by decide) (by decide) Glob.nil))

/-- C7. A malformed pattern fails closed and is never fatal: when the pattern is
not empty and malformed (it is outside the documented pattern syntax, or
`filepath.Match` reports `ErrBadPattern` for it on some name) and discovery and
the buckets-root read succeed, then whatever `apply` is, `filepath.Match`
reports no match for any bucket, `Do` writes no bucket line, makes no
`syncMetadata` and no `InsertMountMapping` call (its calls are the four
discovery calls), and returns nil. -/
theorem malformed_pattern_fails_closed (env : Env σ E Conf Client) (args : List GoString)
    (st : σ) (flags : Flags) (conf : Conf) (client : Client) (buckets : List RemoteBucket)
    (root : GoString) (st1 st2 st3 st4 : σ)
    (hparse : Parse Flags.defaults args = (flags, false))
    (hremote : flags.remote ≠ [])
    (hpattern : flags.bucketPattern ≠ [])
    (hmalformed : ¬ WellFormed flags.bucketPattern ∨
      ∃ name, (Match flags.bucketPattern name).2 = true)
    (hconf : env.ReadRemoteStorageConf flags.remote st = (Except.ok conf, st1))
    (hclient : env.GetRemoteStorage conf st1 = (Except.ok client, st2))
    (hlist : env.ListBuckets client st2 = (Except.ok buckets, st3))
    (hroot : env.readFilerBucketsPath st3 = (Except.ok root, st4)) :
    (∀ b ∈ buckets, (Match flags.bucketPattern b.Name).1 = false) ∧
    (Do env args st).err = none ∧
    written (Do env args st).trace = [] ∧
    (Do env args st).trace.countP Call.isSync = 0 ∧
    (Do env args st).trace.countP Call.isInsert = 0 ∧
    (Do env args st).trace = discoverySteps flags.remote conf client := by
  have hbad : ¬ WellFormed flags.bucketPattern := by
    rcases hmalformed with h | ⟨name, h⟩
    · exact h
    · exact Match_error_malformed _ name h
  have hdo := Do_discovered env args st flags conf client buckets root st1 st2 st3 st4
    hparse hremote hconf hclient hlist hroot
  rw [matching_malformed flags.bucketPattern buckets hpattern hbad] at hdo
  have htrace : (Do env args st).trace = discoverySteps flags.remote conf client := by
    rw [hdo, after_trace]
    simp [mountLoop]
  refine ⟨fun b _ => Match_malformed _ _ hbad, ?_, ?_, ?_, ?_, htrace⟩
  · rw [hdo, after_err]
    simp [mountLoop]
  · rw [htrace]
    simp [discoverySteps, written]
  · rw [htrace]
    simp [discoverySteps, Call.isSync, List.countP_eq_zero]
  · rw [htrace]
    simp [discoverySteps, Call.isInsert, List.countP_eq_zero]

/-- The run `-remote=cloud1 -bucketPattern=[ -apply` on `logs-2023`,
`logs-2024`, `media`: the pattern `[` is outside the syntax, `Match` reports
`ErrBadPattern` for it, nothing is reported or mounted and the run returns
nil. -/
theorem malformed_pattern_fails_closed_witness :
    ¬ WellFormed (ascii "[") ∧
    Match (ascii "[") (ascii "logs-2023") = (false, true) ∧
    (∀ b ∈ sampleBuckets, (Match (ascii "[") b.Name).1 = false) ∧
    (Do (sampleEnv sampleBuckets none (fun _ => false) (fun _ => false))
        [ascii "-remote=cloud1", ascii "-bucketPattern=[", ascii "-apply"] []).err = none ∧
    written (Do (sampleEnv sampleBuckets none (fun _ => false) (fun _ => false))
        [ascii "-remote=cloud1", ascii "-bucketPattern=[", ascii "-apply"] []).trace = [] ∧
    (Do (sampleEnv sampleBuckets none (fun _ => false) (fun _ => false))
        [ascii "-remote=cloud1", ascii "-bucketPattern=[", ascii "-apply"] []).trace
      = sampleDiscovery :=
  have h := malformed_pattern_fails_closed
    (sampleEnv sampleBuckets none (fun _ => false) (fun _ => false))
    [ascii "-remote=cloud1", ascii "-bucketPattern=[", ascii "-apply"] []
    ⟨ascii "cloud1", ascii "[", true⟩ (ascii "cloud1") () sampleBuckets (ascii "/buckets")
    [] [] [] [] (by decide) (by decide) (by decide) (Or.inl open_bracket_malformed)
    rfl rfl rfl rfl
  ⟨open_bracket_malformed, by decide, h.1, h.2.1, h.2.2.1, h.2.2.2.2.2⟩

end Claims

end RemoteMountBuckets
